import Mathlib

/-!
# Position and liquidity reconciliation engine (`src/js/positions.js`)

A shallow embedding of the position module of the B0x dApp: the packed tick
decoders, the slippage helper, the button lock, the position reader
(`getTokenIDsOwnedByUser`) and the two liquidity orchestrators
(`increaseLiquidity`, `decreaseLiquidity`), together with
`calculateHashrate` of `src/js/ui.js`, followed by the properties checked
against the specification.

Conventions of the embedding

* `uint256` values and ethers `BigNumber`s are `Nat` / `Int` (arbitrary precision).
* JavaScript strings are `String`; every string compared in the module is an
  ASCII hex address, a decimal numeral or a token symbol, for which the order
  on UTF-16 code units is the order on characters.
* JavaScript numbers that hold token ids, page counts and cursors are exact
  integers (all far below `2^53`); numbers that hold fractions or token
  amounts are IEEE-754 doubles, modelled by `JSNumber` and `roundF64`.
* `calculateHashrate` is embedded on exact rationals (`ℚ`), the arithmetic its
  property is stated in.
* `window.connectWallet` is bound outside the module; a call is an input of
  the model (`Wallet.connectWallet`), and `connectWallet` gives the part of
  `wallet.js` that acts on the position module.
* Remote calls are inputs of the model: an `Option` / `Except` value tells
  whether the awaited call resolved or threw.
-/

set_option autoImplicit false

namespace Positions

/-! ## Packed-field decoder (positions.js 92-111) -/

/-- `TOtickLower(packedInfo)`: shift right by 232, mask with `0xFFFFFF`,
subtract `0x1000000` when the field is greater than `0x800000`. -/
def TOtickLower (packedInfo : Nat) : Int :=
  let mask : Nat := 0xFFFFFF
  let tickLower : Int := (((packedInfo >>> 232) &&& mask : Nat) : Int)
  if tickLower > 0x800000 then tickLower - 0x1000000 else tickLower

/-- `TOtickUpper(packedInfo)`: shift right by 208, mask with `0xFFFFFF`,
subtract `0x1000000` when the field is greater than `0x800000`. -/
def TOtickUpper (packedInfo : Nat) : Int :=
  let mask : Nat := 0xFFFFFF
  let tickUpper : Int := (((packedInfo >>> 208) &&& mask : Nat) : Int)
  if tickUpper > 0x800000 then tickUpper - 0x1000000 else tickUpper

/-- Reference encoder of one tick: the 24-bit two's-complement pattern of a
signed tick. -/
def encodeTick24 (t : Int) : Nat := (t % 0x1000000).toNat

/-- The 24-bit field of a packed word that starts at bit `offset`. -/
def field24 (packed offset : Nat) : Nat := (packed / 2 ^ offset) % 2 ^ 24

/-- The sign correction both decoders apply to the masked field. -/
def signCorrect (field : Nat) : Int :=
  if (field : Int) > 0x800000 then (field : Int) - 0x1000000 else (field : Int)

/-- A packed word with `hi24` in bits 232..255, `mid24` in bits 208..231 and
`rest` in bits 0..207. -/
def packWord (hi24 mid24 rest : Nat) : Nat := hi24 * 2 ^ 232 + mid24 * 2 ^ 208 + rest

/-! ## JavaScript strings -/

/-- Lexicographic order on code units: the `<` of the language on two strings. -/
def codeUnitsLt : List Char → List Char → Bool
  | [], [] => false
  | [], _ :: _ => true
  | _ :: _, [] => false
  | a :: as, b :: bs =>
    if a.toNat < b.toNat then true
    else if b.toNat < a.toNat then false
    else codeUnitsLt as bs

/-- `a < b` on two strings. -/
def jsLt (a b : String) : Bool := codeUnitsLt a.data b.data

/-- Lower-case form of one ASCII character. -/
def lowerChar (c : Char) : Char :=
  if 65 ≤ c.toNat ∧ c.toNat ≤ 90 then Char.ofNat (c.toNat + 32) else c

/-- `s.toLowerCase()` (on ASCII text). -/
def toLowerCase (s : String) : String := ⟨s.data.map lowerChar⟩

/-- Pieces of a character list cut at every `sep`. -/
def splitChars (sep : Char) : List Char → List Char → List (List Char)
  | acc, [] => [acc.reverse]
  | acc, c :: cs =>
    if c = sep then acc.reverse :: splitChars sep [] cs else splitChars sep (c :: acc) cs

/-- `s.split(sep)` for a one-character separator. -/
def jsSplit (s : String) (sep : Char) : List String :=
  (splitChars sep [] s.data).map String.mk

deriving instance DecidableEq for Except

/-! ## JavaScript numbers (IEEE-754 binary64)

A finite double is kept as the exact fraction `num / den` it denotes
(`den > 0`).  Every arithmetic operation of the language is the exact
operation followed by `roundF64`, rounding to the nearest double with ties to
even; results beyond the finite range (`Infinity`) do not arise for the values
the module computes and are not modelled. -/

/-- A finite JavaScript number, as the fraction `num / den`. -/
structure JSNumber where
  num : Int
  den : Nat
deriving DecidableEq, Repr

namespace JSNumber

/-- The number denoted by an integer literal. -/
def ofInt (n : Int) : JSNumber := ⟨n, 1⟩

/-- Numeric equality `a == b` of two numbers. -/
def eqv (a b : JSNumber) : Prop := a.num * b.den = b.num * a.den

/-- Numeric order `a < b`. -/
def lt (a b : JSNumber) : Prop := a.num * b.den < b.num * a.den

instance (a b : JSNumber) : Decidable (eqv a b) := by unfold eqv; infer_instance
instance (a b : JSNumber) : Decidable (lt a b) := by unfold lt; infer_instance

/-- `Math.floor`. -/
def floor (a : JSNumber) : Int := a.num / (a.den : Int)

/-- Whether the number is an integer (`value % 1 == 0`). -/
def isInteger (a : JSNumber) : Bool := a.num % (a.den : Int) == 0

end JSNumber

/-- Position of the highest set bit of `n` (0 for `n < 2`), by halving. -/
def log2Fuel : Nat → Nat → Nat
  | 0, _ => 0
  | fuel + 1, n => if n < 2 then 0 else log2Fuel fuel (n / 2) + 1

/-- Floor of the binary logarithm of the positive fraction `n / d`. -/
def log2Floor (n d : Nat) : Int :=
  let k : Int := (log2Fuel n n : Int) - (log2Fuel d d : Int)
  if 0 ≤ k then (if n < d * 2 ^ k.toNat then k - 1 else k)
  else (if n * 2 ^ (-k).toNat < d then k - 1 else k)

/-- Nearest integer to `n / d`, ties to the even neighbour. -/
def roundHalfEven (n : Int) (d : Nat) : Int :=
  let q := n / (d : Int)
  let r := n % (d : Int)
  if 2 * r < d then q
  else if (d : Int) < 2 * r then q + 1
  else if q % 2 = 0 then q else q + 1

/-- Round a fraction to the nearest binary64 value: 53 significant bits, the
exponent of the last bit no smaller than `-1074`. -/
def roundF64 (x : JSNumber) : JSNumber :=
  if x.num = 0 then ⟨0, 1⟩
  else
    let e : Int := max (log2Floor x.num.natAbs x.den - 52) (-1074)
    if 0 ≤ e then ⟨roundHalfEven x.num (x.den * 2 ^ e.toNat) * 2 ^ e.toNat, 1⟩
    else ⟨roundHalfEven (x.num * 2 ^ (-e).toNat) x.den, 2 ^ (-e).toNat⟩

/-- The `*` of the language on two numbers. -/
def fmul (a b : JSNumber) : JSNumber := roundF64 ⟨a.num * b.num, a.den * b.den⟩

/-- The `/` of the language on two numbers (`b` not zero). -/
def fdiv (a b : JSNumber) : JSNumber :=
  roundF64 ⟨a.num * b.den * Int.sign b.num, a.den * b.num.natAbs⟩

/-- The `+` of the language on two numbers. -/
def fadd (a b : JSNumber) : JSNumber :=
  roundF64 ⟨a.num * b.den + b.num * a.den, a.den * b.den⟩

/-- The `-` of the language on two numbers. -/
def fsub (a b : JSNumber) : JSNumber :=
  roundF64 ⟨a.num * b.den - b.num * a.den, a.den * b.den⟩

/-- `parseFloat` of a decimal numeral whose value is `n / d`: the nearest
double. -/
def parseFloat (n : Int) (d : Nat) : JSNumber := roundF64 ⟨n, d⟩

/-! ## ethers v5 `BigNumber`

A `BigNumber` is an arbitrary-precision integer (`Int`).  The class defines
`toString` (the decimal numeral) and no `valueOf`, so the operators of the
language coerce a `BigNumber` operand through its decimal string: arithmetic
operators convert that string to a number, and a relational operator whose two
operands are both `BigNumber`s compares the two strings. -/

/-- `bn.toString()`: the decimal numeral. -/
def BigNumber.toString (n : Int) : String := ToString.toString n

/-- A `BigNumber` used as an operand of `*`, `/` or `-`: the double nearest to
its value. -/
def BigNumber.toNumber (n : Int) : JSNumber := roundF64 (JSNumber.ofInt n)

/-- `a > b` on two `BigNumber` operands: the order of their decimal strings. -/
def BigNumber.jsGt (a b : Int) : Bool := jsLt (BigNumber.toString b) (BigNumber.toString a)

/-- `Number.MAX_SAFE_INTEGER`, the bound `BigNumber.from` enforces on numbers. -/
def MAX_SAFE : Int := 0x1fffffffffffff

/-- `ethers.BigNumber.from(x)` for a number `x`: throws on a fraction
(`underflow`) and on a magnitude of `MAX_SAFE` or more (`overflow`). -/
def BigNumber.fromNumber (x : JSNumber) : Except String Int :=
  if !x.isInteger then .error "underflow"
  else if MAX_SAFE ≤ x.floor ∨ x.floor ≤ -MAX_SAFE then .error "overflow"
  else .ok x.floor

/-! ## Slippage (positions.js 128-141) -/

/-- `calculateWithSlippageBigNumber(amount, decimalValueSlippage)`. -/
def calculateWithSlippageBigNumber (amount : Int) (decimalValueSlippage : JSNumber) :
    Except String Int := do
  let slippageBasisPoints : Int := (fmul decimalValueSlippage (JSNumber.ofInt 10000)).floor
  let remainingBasisPoints : JSNumber :=
    fsub (JSNumber.ofInt 10000) (JSNumber.ofInt slippageBasisPoints)
  let amountBN : Int := amount
  let remainingBN ← BigNumber.fromNumber remainingBasisPoints
  let divisorBN : Int := 10000
  pure (Int.tdiv (amountBN * remainingBN) divisorBN)

/-- The fraction handed to `calculateWithSlippageBigNumber` by the liquidity
paths: `parseFloat(text.replace('%','')) / 100`, for a control text whose
decimal value is `n / d`. -/
def decimalValueSlippage (n : Int) (d : Nat) : JSNumber :=
  fdiv (parseFloat n d) (JSNumber.ofInt 100)

/-- Basis points the code derives from a control text of value `n / d`. -/
def slippageBasisPoints (n : Int) (d : Nat) : Int :=
  (fmul (decimalValueSlippage n d) (JSNumber.ofInt 10000)).floor

/-- Modelled from the spec: `round(slippagePercent * 100)` on the exact value
`n / d` of the percentage, halves rounded up. -/
def specSlippageBps (n : Int) (d : Nat) : Int := (2 * n * 100 + d) / (2 * (d : Int))

/-- Modelled from the spec: `floor(amount * (10000 - slippageBps) / 10000)`
with `slippageBps = round(slippagePercent * 100)`. -/
def specMinOut (amount : Int) (n : Int) (d : Nat) : Int :=
  amount * (10000 - specSlippageBps n d) / 10000

/-! ## Button lock (positions.js 53-56, 179-268) -/

/-- The module state behind the button lock: the `buttonStates` object and the
`inFunctionDontRefresh` flag. -/
structure LockState where
  buttonStates : String → Option Bool
  inFunctionDontRefresh : Bool

/-- The lock state at module load: `buttonStates = {}`. -/
def LockState.initial : LockState := ⟨fun _ => none, false⟩

/-- `isEnabled(id)`: `buttonStates[id] !== false`. -/
def isEnabled (s : LockState) (id : String) : Bool := s.buttonStates id != some false

/-- `isEnabled(id, bool)`: `buttonStates[id] = bool`. -/
def setEnabled (s : LockState) (id : String) (bool : Bool) : LockState :=
  { s with buttonStates := fun k => if k = id then some bool else s.buttonStates k }

/-- Default message of `disableButtonWithSpinner`. -/
def spinnerMsg : String := "<span class=\"spinner\"></span> Approve transactions in wallet..."

/-- The messages for which `disableButtonWithSpinner` clears
`inFunctionDontRefresh`. -/
def noPositionMessages : List String :=
  ["No positions to increase Liquidity on, stake a position",
   "No positions to Decrease Liquidity on, create a position",
   "No positions to increase Liquidity on, create a position",
   "No positions to increase Liquidity on, stake a position first",
   "No positions to decrease Liquidity on, stake a position first"]

/-- `disableButtonWithSpinner(ID, msg)`, on the module state. -/
def disableButtonWithSpinner (s : LockState) (ID : String) (msg : String) : LockState :=
  if !isEnabled s ID then s
  else
    let s1 := setEnabled s ID false
    if noPositionMessages.contains msg then { s1 with inFunctionDontRefresh := false }
    else { s1 with inFunctionDontRefresh := true }

/-- `enableButton(ID, originalText)`, on the module state. -/
def enableButton (s : LockState) (ID : String) : LockState :=
  if isEnabled s ID then s
  else { setEnabled s ID true with inFunctionDontRefresh := false }

/-! ## Position cache (positions.js 30-31) -/

/-- A cache object: keys in insertion order. -/
abbrev Cache (α : Type) := List (String × α)

/-- `cache[key]`. -/
def Cache.get {α : Type} (c : Cache α) (key : String) : Option α :=
  match c with
  | [] => none
  | (k, v) :: rest => if k = key then some v else Cache.get rest key

/-- `cache[key] = value`: replaces the value of an existing key in place,
appends a new key. -/
def Cache.set {α : Type} (c : Cache α) (key : String) (value : α) : Cache α :=
  match c with
  | [] => [(key, value)]
  | (k, v) :: rest => if k = key then (k, value) :: rest else (k, v) :: Cache.set rest key value

/-- `Object.keys(cache)`. -/
def Cache.keys {α : Type} (c : Cache α) : List String := c.map Prod.fst

/-- An entry of `positionData`. -/
structure Position where
  id : String
  pool : String
  feeTier : String
  tokenA : String
  tokenB : String
  currentLiquidity : JSNumber
  currentTokenA : String
  currentTokenB : String
  unclaimedFeesTokenA : String
  unclaimedFeesTokenB : String
  tokenAIcon : String
  tokenBIcon : String
deriving DecidableEq, Repr

/-- An entry of `stakingPositionData`. -/
structure StakedPosition where
  id : String
  pool : String
  feeTier : String
  tokenA : String
  tokenB : String
  currentLiquidity : JSNumber
  currentTokenA : String
  currentTokenB : String
  tokenAIcon : String
  tokenBIcon : String
  apy : String
  PenaltyForWithdraw : String
deriving DecidableEq, Repr

/-- The mutable module state the reader and the orchestrators share. -/
structure ModuleState where
  positionData : Cache Position
  stakingPositionData : Cache StakedPosition
  WhereToStartSearch : Int
  WhereToStartSearchStaked : Int
  lock : LockState

/-- The module state at load. -/
def ModuleState.initial : ModuleState := ⟨[], [], 0, 0, LockState.initial⟩

/-- The lock part of `loadPositionsIntoDappSelections` (positions.js
1581-1604): each liquidity button is disabled when its cache is empty and
enabled otherwise. -/
def loadPositionsIntoDappSelections (st : ModuleState) : ModuleState :=
  let l0 := st.lock
  let l1 := if st.positionData.keys.length = 0
    then disableButtonWithSpinner l0 "decreaseLiquidityBtn"
      "No positions to Decrease Liquidity on, create a position"
    else enableButton l0 "decreaseLiquidityBtn"
  let l2 := if st.positionData.keys.length = 0
    then disableButtonWithSpinner l1 "increaseLiquidityBtn"
      "No positions to increase Liquidity on, create a position"
    else enableButton l1 "increaseLiquidityBtn"
  let l3 := if st.stakingPositionData.keys.length = 0
    then disableButtonWithSpinner l2 "increaseLiquidityStakedBtn"
      "No positions to increase Liquidity on, stake a position first"
    else enableButton l2 "increaseLiquidityStakedBtn"
  let l4 := if st.stakingPositionData.keys.length = 0
    then disableButtonWithSpinner l3 "decreaseLiquidityStakedBtn"
      "No positions to decrease Liquidity on, stake a position first"
    else enableButton l3 "decreaseLiquidityStakedBtn"
  { st with lock := l4 }

/-! ## Remote position reader (positions.js 314-762) -/

/-- A pool key as the position finder returns it. -/
structure PoolKey where
  currency0 : String
  currency1 : String
  fee : Nat
  tickSpacing : Int
  hooks : String
deriving DecidableEq, Repr

/-- The nine parallel arrays of a staked page (`result[0]` .. `result[8]`),
also the shape of the accumulators of the staked scan. -/
structure StakedArrays where
  ids : List Nat
  amount0 : List Nat
  amount1 : List Nat
  liquidity : List Nat
  timeStakedAt : List Nat
  penalty : List Nat
  currency0 : List String
  currency1 : List String
  poolInfo : List Nat
deriving DecidableEq, Repr

/-- The result of `getIDSofStakedTokensForUserwithMinimum`: the arrays and
`result[9]`, the next start index. -/
structure StakedResult where
  arrays : StakedArrays
  startCountAt : Int
deriving DecidableEq, Repr

/-- One staked record: the entries of the nine arrays at one index. -/
structure StakedRecord where
  tokenId : Nat
  amount0 : Nat
  amount1 : Nat
  liquidity : Nat
  timeStakedAt : Nat
  penalty : Nat
  currency0 : String
  currency1 : String
  poolInfo : Nat
deriving DecidableEq, Repr

/-- The arrays whose entries at every index are the given records. -/
def StakedArrays.ofRecords (rs : List StakedRecord) : StakedArrays :=
  { ids := rs.map (·.tokenId), amount0 := rs.map (·.amount0), amount1 := rs.map (·.amount1),
    liquidity := rs.map (·.liquidity), timeStakedAt := rs.map (·.timeStakedAt),
    penalty := rs.map (·.penalty), currency0 := rs.map (·.currency0),
    currency1 := rs.map (·.currency1), poolInfo := rs.map (·.poolInfo) }

/-- The empty accumulators. -/
def StakedArrays.empty : StakedArrays := ⟨[], [], [], [], [], [], [], [], []⟩

/-- `acc = acc.concat(result[k])` on each of the nine accumulators. -/
def StakedArrays.concat (acc r : StakedArrays) : StakedArrays :=
  { ids := acc.ids ++ r.ids, amount0 := acc.amount0 ++ r.amount0,
    amount1 := acc.amount1 ++ r.amount1, liquidity := acc.liquidity ++ r.liquidity,
    timeStakedAt := acc.timeStakedAt ++ r.timeStakedAt, penalty := acc.penalty ++ r.penalty,
    currency0 := acc.currency0 ++ r.currency0, currency1 := acc.currency1 ++ r.currency1,
    poolInfo := acc.poolInfo ++ r.poolInfo }

/-- The eight parallel arrays of a detail query (`result[0]` .. `result[7]`),
also the shape of the accumulators of the batch loop. -/
structure RegularArrays where
  ids : List Nat
  amount0 : List Nat
  amount1 : List Nat
  liquidity : List Nat
  fees0 : List Int
  fees1 : List Int
  poolKeys : List PoolKey
  poolInfo : List Nat
deriving DecidableEq, Repr

/-- One regular record: the entries of the eight arrays at one index. -/
structure RegularRecord where
  tokenId : Nat
  amount0 : Nat
  amount1 : Nat
  liquidity : Nat
  fees0 : Int
  fees1 : Int
  poolKey : PoolKey
  poolInfo : Nat
deriving DecidableEq, Repr

/-- The arrays whose entries at every index are the given records. -/
def RegularArrays.ofRecords (rs : List RegularRecord) : RegularArrays :=
  { ids := rs.map (·.tokenId), amount0 := rs.map (·.amount0), amount1 := rs.map (·.amount1),
    liquidity := rs.map (·.liquidity), fees0 := rs.map (·.fees0), fees1 := rs.map (·.fees1),
    poolKeys := rs.map (·.poolKey), poolInfo := rs.map (·.poolInfo) }

/-- The empty accumulators. -/
def RegularArrays.empty : RegularArrays := ⟨[], [], [], [], [], [], [], []⟩

/-- `acc = result[k].concat(acc)` on each of the eight accumulators: the new
batch goes in front. -/
def RegularArrays.prepend (acc r : RegularArrays) : RegularArrays :=
  { ids := r.ids ++ acc.ids, amount0 := r.amount0 ++ acc.amount0,
    amount1 := r.amount1 ++ acc.amount1, liquidity := r.liquidity ++ acc.liquidity,
    fees0 := r.fees0 ++ acc.fees0, fees1 := r.fees1 ++ acc.fees1,
    poolKeys := r.poolKeys ++ acc.poolKeys, poolInfo := r.poolInfo ++ acc.poolInfo }

/-- Helpers the reader imports from modules outside this one (`utils.js`,
ethers) and the number formatting of the language, taken as parameters.  An
argument of `none` is `undefined`; `Except.error` is a thrown exception. -/
structure Helpers where
  getSymbolFromAddress : Option String → Except String String
  tokenAddressesDecimals : String → Option Nat
  formatUnits : Option Int → Option Nat → Except String String
  penaltyString : Option Nat → String
  feeString : Nat → String
  apyString : String

/-- The remote calls of one pass.  The first argument of each is the `user`
address the call is made for. -/
structure Remote where
  getMaxStakedIDforUser : String → Except String Nat
  getIDSofStakedTokensForUserwithMinimum : String → Int → Except String StakedResult
  getNFTOwners : Except String (List (Nat × String))
  findUserTokenIdswithMinimumIndividual : String → List Nat → Except String RegularArrays

/-- `symbol ? symbol[0] : "?"`. -/
def iconOf (symbol : String) : String :=
  match symbol.data with
  | [] => "?"
  | c :: _ => String.mk [c]

/-- `x.toString()` on an array element: throws on `undefined`. -/
def definedOrThrow {α : Type} (x : Option α) : Except String α :=
  match x with
  | some v => .ok v
  | none => .error "TypeError: undefined"

/-- The strings the staked loop body computes (558-568): the two symbols,
the two formatted amounts and the penalty string. -/
structure StakedFields where
  tokenASymbol : String
  tokenBSymbol : String
  formattedToken1 : String
  formattedToken2 : String
  penaltyWithdrawString : String

/-- Lines 558-568 of the staked loop body at index `i`. -/
def stakedFields (h : Helpers) (a : StakedArrays) (i : Nat) : Except String StakedFields := do
  let tokenASymbol ← h.getSymbolFromAddress a.currency0[i]?
  let tokenBSymbol ← h.getSymbolFromAddress a.currency1[i]?
  let decimalsTokenA := h.tokenAddressesDecimals tokenASymbol
  let decimalsTokenB := h.tokenAddressesDecimals tokenBSymbol
  let formattedToken1 ← h.formatUnits (a.amount0[i]?.map Int.ofNat) decimalsTokenA
  let formattedToken2 ← h.formatUnits (a.amount1[i]?.map Int.ofNat) decimalsTokenB
  let penaltyWithdrawString := h.penaltyString a.penalty[i]?
  pure ⟨tokenASymbol, tokenBSymbol, formattedToken1, formattedToken2, penaltyWithdrawString⟩

/-- The object literal written to `stakingPositionData` (570-583). -/
def stakedPosition (h : Helpers) (idNameID : String) (f : StakedFields) (liq : Nat) :
    StakedPosition :=
  { id := idNameID, pool := f.tokenASymbol ++ "/" ++ f.tokenBSymbol, feeTier := "Dynamic Fee",
    tokenA := f.tokenASymbol, tokenB := f.tokenBSymbol,
    currentLiquidity := BigNumber.toNumber liq,
    currentTokenA := f.formattedToken1, currentTokenB := f.formattedToken2,
    tokenAIcon := iconOf f.tokenASymbol, tokenBIcon := iconOf f.tokenBSymbol,
    apy := h.apyString, PenaltyForWithdraw := f.penaltyWithdrawString }

/-- The body of the `try` of the staked processing loop (551-583) at index
`i`: the key and the entry it writes. -/
def stakedEntry (h : Helpers) (a : StakedArrays) (i : Nat) (tokenId : Nat) :
    Except String (String × StakedPosition) :=
  match definedOrThrow a.poolInfo[i]? with
  | .error e => .error e
  | .ok info2 =>
    let _decodedInfo : Int × Int := (TOtickLower info2, TOtickUpper info2)
    let idNameID := "stake_position_" ++ toString tokenId
    match stakedFields h a i with
    | .error e => .error e
    | .ok f =>
      match definedOrThrow a.liquidity[i]? with
      | .error e => .error e
      | .ok liq => .ok (idNameID, stakedPosition h idNameID f liq)

/-- One iteration of the staked processing loop (547-587): an exception of
the body is caught and the record skipped. -/
def processStaked (h : Helpers) (a : StakedArrays) (data : Cache StakedPosition) (i : Nat) :
    Cache StakedPosition :=
  match a.ids[i]? with
  | none => data
  | some tokenId =>
    match stakedEntry h a i tokenId with
    | .ok (key, entry) => data.set key entry
    | .error _ => data

/-- The staked processing loop over `i = 0 .. ids.length - 1`. -/
def processStakedAll (h : Helpers) (a : StakedArrays) (data : Cache StakedPosition) :
    Cache StakedPosition :=
  (List.range a.ids.length).foldl (processStaked h a) data

/-- The strings the regular loop body computes before the full-range test
(717-733): fee tier, the two symbols and the four formatted amounts. -/
structure RegularFields where
  feeVariable : String
  tokenASymbol : String
  tokenBSymbol : String
  formattedToken1 : String
  formattedToken2 : String
  formattedToken1FEESOWED : String
  formattedToken2FEESOWED : String

/-- Lines 717-733 of the regular loop body at index `i`. -/
def regularFields (h : Helpers) (a : RegularArrays) (i : Nat) (poolKey : PoolKey) :
    Except String RegularFields := do
  let feeVariable := if poolKey.fee = 8388608 then "Dynamic Fee" else h.feeString poolKey.fee
  let tokenASymbol ← h.getSymbolFromAddress (some poolKey.currency0)
  let tokenBSymbol ← h.getSymbolFromAddress (some poolKey.currency1)
  let decimalsTokenA := h.tokenAddressesDecimals tokenASymbol
  let decimalsTokenB := h.tokenAddressesDecimals tokenBSymbol
  let formattedToken1 ← h.formatUnits (a.amount0[i]?.map Int.ofNat) decimalsTokenA
  let formattedToken2 ← h.formatUnits (a.amount1[i]?.map Int.ofNat) decimalsTokenB
  let formattedToken1FEESOWED ← h.formatUnits a.fees0[i]? decimalsTokenA
  let formattedToken2FEESOWED ← h.formatUnits a.fees1[i]? decimalsTokenB
  pure ⟨feeVariable, tokenASymbol, tokenBSymbol, formattedToken1, formattedToken2,
    formattedToken1FEESOWED, formattedToken2FEESOWED⟩

/-- The object literal written to `positionData` (737-750). -/
def regularPosition (idNameID : String) (f : RegularFields) (liq : Nat) : Position :=
  { id := idNameID, pool := f.tokenASymbol ++ "/" ++ f.tokenBSymbol, feeTier := f.feeVariable,
    tokenA := f.tokenASymbol, tokenB := f.tokenBSymbol,
    currentLiquidity := BigNumber.toNumber liq,
    currentTokenA := f.formattedToken1, currentTokenB := f.formattedToken2,
    unclaimedFeesTokenA := f.formattedToken1FEESOWED,
    unclaimedFeesTokenB := f.formattedToken2FEESOWED,
    tokenAIcon := iconOf f.tokenASymbol, tokenBIcon := iconOf f.tokenBSymbol }

/-- The body of the `try` of the regular processing loop (708-751) at index
`i`: the key and entry it writes, `none` when the full-range filter rejects
the record. -/
def regularEntry (h : Helpers) (a : RegularArrays) (i : Nat) (tokenId : Nat) :
    Except String (Option (String × Position)) :=
  match definedOrThrow a.poolKeys[i]? with
  | .error e => .error e
  | .ok poolKey =>
    match definedOrThrow a.poolInfo[i]? with
    | .error e => .error e
    | .ok info2 =>
      let tickLower := TOtickLower info2
      let tickUpper := TOtickUpper info2
      match regularFields h a i poolKey with
      | .error e => .error e
      | .ok f =>
        let idNameID := "position_" ++ toString tokenId
        if tickUpper = 887220 ∧ tickLower = -887220 then
          match definedOrThrow a.liquidity[i]? with
          | .error e => .error e
          | .ok liq => .ok (some (idNameID, regularPosition idNameID f liq))
        else .ok none

/-- One iteration of the regular processing loop (702-755): the search start
is raised to the token id, then the body runs under its own `try`. -/
def processRegular (h : Helpers) (a : RegularArrays) (st : ModuleState) (i : Nat) :
    ModuleState :=
  match a.ids[i]? with
  | none => st
  | some tokenId =>
    let st1 := if (tokenId : Int) > st.WhereToStartSearch
      then { st with WhereToStartSearch := (tokenId : Int) } else st
    match regularEntry h a i tokenId with
    | .ok (some (key, entry)) => { st1 with positionData := st1.positionData.set key entry }
    | .ok none => st1
    | .error _ => st1

/-- The regular processing loop over `i = 0 .. ids.length - 1`. -/
def processRegularAll (h : Helpers) (a : RegularArrays) (st : ModuleState) : ModuleState :=
  (List.range a.ids.length).foldl (processRegular h a) st

/-- `NumberOfLoops` (473-476): `Math.ceil(totalRange / maxLoopLookups)`. -/
def NumberOfLoops (maxTokenPossible_STAKING startSearchAt : Int) : Int :=
  let maxLoopLookups : Int := 1000
  let totalRange := maxTokenPossible_STAKING + 1 - startSearchAt
  Int.neg ((-totalRange) / maxLoopLookups)

/-- `(startId, endId)` of iteration `x` of the staked scan (492-493). -/
def stakedPage (maxTokenPossible_STAKING startSearchAt : Int) (x : Nat) : Int × Int :=
  let maxLoopLookups : Int := 1000
  let startId := startSearchAt + maxLoopLookups * x
  let endId := min (startId + maxLoopLookups - 1) maxTokenPossible_STAKING
  (startId, endId)

/-- The pages the staked scan visits, in the order of the loop. -/
def stakedPagePlan (maxTokenPossible_STAKING startSearchAt : Int) : List (Int × Int) :=
  (List.range (NumberOfLoops maxTokenPossible_STAKING startSearchAt).toNat).map
    (stakedPage maxTokenPossible_STAKING startSearchAt)

/-- The accumulators of the staked scan and `lastSpotTosetStartSearchAt`. -/
structure StakedScan where
  acc : StakedArrays
  lastSpotTosetStartSearchAt : Int
deriving DecidableEq, Repr

/-- The state of the scan before the first page. -/
def StakedScan.start : StakedScan := ⟨StakedArrays.empty, -1⟩

/-- The staked scan (491-535) over the planned pages; `none` when a page
query throws (`worked == 1`), which ends the whole pass. -/
def stakedScan (remote : Remote) (ADDRESSTOSEARCHOF : String) :
    List (Int × Int) → StakedScan → Option StakedScan
  | [], s => some s
  | (startId, _) :: pages, s =>
    match remote.getIDSofStakedTokensForUserwithMinimum ADDRESSTOSEARCHOF startId with
    | .error _ => none
    | .ok result =>
      stakedScan remote ADDRESSTOSEARCHOF pages
        { acc := s.acc.concat result.arrays,
          lastSpotTosetStartSearchAt :=
            if s.lastSpotTosetStartSearchAt = -1 then result.startCountAt
            else s.lastSpotTosetStartSearchAt }

/-- The cursor update after the scan (539-544). -/
def updateStakedCursor (lastSpotTosetStartSearchAt : Int) (WhereToStartSearchStaked : Int) :
    Int :=
  if lastSpotTosetStartSearchAt ≠ -1 then
    let w := lastSpotTosetStartSearchAt - 1
    if w < 0 then 0 else w
  else WhereToStartSearchStaked

/-- The batches of the detail query: slices of 500 ids (669-671). -/
def batchesFuel : Nat → List Nat → List (List Nat)
  | 0, _ => []
  | fuel + 1, ids =>
    if ids.length = 0 then [] else ids.take 500 :: batchesFuel fuel (ids.drop 500)

/-- The batches of a list of ids. -/
def batches (userTokenIds : List Nat) : List (List Nat) :=
  batchesFuel userTokenIds.length userTokenIds

/-- The batch loop (670-697): a batch whose query throws is logged and
skipped. -/
def batchLoop (remote : Remote) (user : String) : List (List Nat) → RegularArrays → RegularArrays
  | [], acc => acc
  | batch :: rest, acc =>
    match remote.findUserTokenIdswithMinimumIndividual user batch with
    | .ok result => batchLoop remote user rest (acc.prepend result)
    | .error _ => batchLoop remote user rest acc

/-- The ids of the ownership index owned by the connected address (644-648). -/
def userTokenIdsOf (nftOwners : List (Nat × String)) (windowUserAddress : String) : List Nat :=
  (nftOwners.filter (fun p => toLowerCase p.2 = toLowerCase windowUserAddress)).map Prod.fst

/-- The regular phase (592-758), with its enclosing `try`; the flag tells
whether the function returned from inside (`return null` at 654). -/
def regularPhase (h : Helpers) (remote : Remote) (windowUserAddress : String)
    (st : ModuleState) : ModuleState × Bool :=
  match remote.getNFTOwners with
  | .error _ => (st, false)
  | .ok nftOwners =>
    let userTokenIds := userTokenIdsOf nftOwners windowUserAddress
    if userTokenIds.length = 0 then (loadPositionsIntoDappSelections st, true)
    else
      let acc := batchLoop remote windowUserAddress (batches userTokenIds) RegularArrays.empty
      (processRegularAll h acc st, false)

/-- `getTokenIDsOwnedByUser(ADDRESSTOSEARCHOF)`: one reconciliation pass on
the module state, with `window.userAddress` the connected address. -/
def getTokenIDsOwnedByUser (h : Helpers) (remote : Remote) (windowUserAddress : String)
    (ADDRESSTOSEARCHOF : String) (st0 : ModuleState) : ModuleState :=
  let st1 := { st0 with positionData := [], stakingPositionData := [] }
  let maxTokenPossible_STAKING : Int :=
    match remote.getMaxStakedIDforUser windowUserAddress with
    | .ok n => (n : Int)
    | .error _ => 0
  let startSearchAt := st1.WhereToStartSearchStaked
  match stakedScan remote ADDRESSTOSEARCHOF
      (stakedPagePlan maxTokenPossible_STAKING startSearchAt) StakedScan.start with
  | none => loadPositionsIntoDappSelections st1
  | some scan =>
    let cursor := updateStakedCursor scan.lastSpotTosetStartSearchAt st1.WhereToStartSearchStaked
    let st2 := { st1 with WhereToStartSearchStaked := cursor }
    let staked := processStakedAll h scan.acc st2.stakingPositionData
    let st3 := { st2 with stakingPositionData := staked }
    let st4 := loadPositionsIntoDappSelections st3
    match regularPhase h remote windowUserAddress st4 with
    | (st5, true) => st5
    | (st5, false) => loadPositionsIntoDappSelections st5

/-- `getTokenIDsOwnedByMetamask()`: the pass for the connected address. -/
def getTokenIDsOwnedByMetamask (h : Helpers) (remote : Remote) (windowUserAddress : String)
    (st : ModuleState) : ModuleState :=
  getTokenIDsOwnedByUser h remote windowUserAddress windowUserAddress st

/-! ## Record-level view of the processing loops -/

/-- A cache after an optional write. -/
def Cache.setOpt {α : Type} (c : Cache α) (w : Option (String × α)) : Cache α :=
  match w with
  | some (key, value) => c.set key value
  | none => c

/-- What the staked loop body writes for one record: nothing when the body
throws. -/
def stakedWrite (h : Helpers) (r : StakedRecord) : Option (String × StakedPosition) :=
  match stakedEntry h (StakedArrays.ofRecords [r]) 0 r.tokenId with
  | .ok p => some p
  | .error _ => none

/-- What the regular loop body writes for one record: nothing when the body
throws or the full-range filter rejects the record. -/
def regularWrite (h : Helpers) (r : RegularRecord) : Option (String × Position) :=
  match regularEntry h (RegularArrays.ofRecords [r]) 0 r.tokenId with
  | .ok (some p) => some p
  | .ok none => none
  | .error _ => none

/-- The regular search start after one record. -/
def raiseSearchStart (w : Int) (r : RegularRecord) : Int :=
  if (r.tokenId : Int) > w then (r.tokenId : Int) else w

/-- Whether a call resolved. -/
def resolved {ε α : Type} (x : Except ε α) : Bool :=
  match x with
  | .ok _ => true
  | .error _ => false

/-- The maximum staked id a pass works with (456-471): 0 when the call throws. -/
def passMaxStakedId (remote : Remote) (windowUserAddress : String) : Int :=
  match remote.getMaxStakedIDforUser windowUserAddress with
  | .ok n => (n : Int)
  | .error _ => 0

/-- The staked pages a pass plans from the state it starts in. -/
def passPlan (remote : Remote) (windowUserAddress : String) (st : ModuleState) :
    List (Int × Int) :=
  stakedPagePlan (passMaxStakedId remote windowUserAddress) st.WhereToStartSearchStaked

/-- The staked scan of a pass. -/
def passScan (remote : Remote) (windowUserAddress ADDRESSTOSEARCHOF : String)
    (st : ModuleState) : Option StakedScan :=
  stakedScan remote ADDRESSTOSEARCHOF (passPlan remote windowUserAddress st) StakedScan.start

/-- The first reported next index other than the initial -1, if any. -/
def firstReported (remote : Remote) (owner : String) : List (Int × Int) → Option Int
  | [] => none
  | p :: pages =>
    match remote.getIDSofStakedTokensForUserwithMinimum owner p.1 with
    | .ok result =>
      if result.startCountAt = -1 then firstReported remote owner pages
      else some result.startCountAt
    | .error _ => firstReported remote owner pages

/-- What the staked loop body writes at index `i` of the accumulators. -/
def stakedWriteAt (h : Helpers) (a : StakedArrays) (i : Nat) :
    Option (String × StakedPosition) :=
  match a.ids[i]? with
  | none => none
  | some tokenId =>
    match stakedEntry h a i tokenId with
    | .ok p => some p
    | .error _ => none

/-- What the regular loop body writes at index `i` of the accumulators. -/
def regularWriteAt (h : Helpers) (a : RegularArrays) (i : Nat) : Option (String × Position) :=
  match a.ids[i]? with
  | none => none
  | some tokenId =>
    match regularEntry h a i tokenId with
    | .ok (some p) => some p
    | .ok none => none
    | .error _ => none

/-- The records of the batches that resolved, in the order of the
accumulators (a later batch in front). -/
def fetchedRegular (remote : Remote) (user : String) (recs : List Nat → List RegularRecord) :
    List (List Nat) → List RegularRecord → List RegularRecord
  | [], acc => acc
  | batch :: rest, acc =>
    match remote.findUserTokenIdswithMinimumIndividual user batch with
    | .ok _ => fetchedRegular remote user recs rest (recs batch ++ acc)
    | .error _ => fetchedRegular remote user recs rest acc

/-- The batches a pass queries: none when the ownership index cannot be read. -/
def passBatches (remote : Remote) (windowUserAddress : String) : List (List Nat) :=
  match remote.getNFTOwners with
  | .ok nftOwners => batches (userTokenIdsOf nftOwners windowUserAddress)
  | .error _ => []

/-! ## Liquidity mutation orchestrator (positions.js 782-1258) -/

/-- The two token addresses of the module (`tokenAddresses["B0x"]`,
`tokenAddresses["0xBTC"]`, positions.js 43-44), defined in `config.js`. -/
structure TokenConfig where
  tokenAddress : String
  Address_ZEROXBTC_TESTNETCONTRACT : String

/-- One ABI-encoded element of `params`. -/
inductive Param where
  | modify (positionID : String) (liquidity : Int) (amount0 amount1 : Int)
  | currencyPair (currency0 currency1 : String)
  | currency (token : String)
  | takePair (token0 token1 recipient : String)
deriving DecidableEq, Repr

/-- The argument of `modifyLiquidities`: the action bytes and the parameters. -/
structure Payload where
  actions : List Nat
  params : List Param
deriving DecidableEq, Repr

/-- How an invocation of an orchestrator ended. -/
inductive Exit where
  | noPosition
  | threw
  | aborted
  | failed
  | confirmed
deriving DecidableEq, Repr

/-- What an invocation did: the module state when it returns, the calls of
`modifyLiquidities` it made, the error notifications it showed, whether it
started a reconciliation pass, and how it ended. -/
structure Outcome where
  state : ModuleState
  calls : List Payload
  errors : List String
  readerPass : Bool
  exit : Exit

/-- The wallet globals the orchestrators read: `window.walletConnected`,
`window.userAddress` and `window.connectWallet`.  A call of
`window.connectWallet()` is taken by what it leaves behind: the module state
and the connected address (`connectWallet` of `wallet.js` runs a reader pass
and a cache synchronisation once the account request is granted). -/
structure Wallet where
  walletConnected : Bool
  userAddress : String
  connectWallet : ModuleState → ModuleState × String

/-- `disableButtonWithSpinner(ID)` with its default message, on the module
state. -/
def takeLock (st : ModuleState) (ID : String) : ModuleState :=
  { st with lock := disableButtonWithSpinner st.lock ID spinnerMsg }

/-- A connected wallet: `window.connectWallet` is not called. -/
def Wallet.connected (userAddress : String) : Wallet :=
  { walletConnected := true, userAddress := userAddress,
    connectWallet := fun st => (st, userAddress) }

/-- `if (!window.walletConnected) { await window.connectWallet(); }` (785-787,
1040-1042): the module state and `window.userAddress` after it. -/
def ensureConnected (wallet : Wallet) (st : ModuleState) : ModuleState × String :=
  if !wallet.walletConnected then wallet.connectWallet st else (st, wallet.userAddress)

/-- The part of `connectWallet` (wallet.js 258-470) that acts on the position
module, in a run where the account request returns `account` and every awaited
step resolves: `window.resetPositionSearch()` when the account changed
(302-307), `window.resetPositionData()` (358-363), the reader pass of step 5
(373-379) and the cache synchronisation of step 7 (389-395).  The two reset
functions are bound outside the sources and are parameters. -/
def connectWallet (h : Helpers) (remote : Remote)
    (resetPositionSearch resetPositionData : ModuleState → ModuleState)
    (accountChanged : Bool) (account : String) (st : ModuleState) : ModuleState × String :=
  let st1 := if accountChanged then resetPositionSearch st else st
  let st2 := resetPositionData st1
  let st3 := getTokenIDsOwnedByMetamask h remote account st2
  (loadPositionsIntoDappSelections st3, account)

/-- `[token0, token1]` (899-901, 1163-1165): the pair ordered by `<` on the
address strings. -/
def tokenOrder (cfg : TokenConfig) : String × String :=
  if jsLt cfg.tokenAddress cfg.Address_ZEROXBTC_TESTNETCONTRACT
  then (cfg.tokenAddress, cfg.Address_ZEROXBTC_TESTNETCONTRACT)
  else (cfg.Address_ZEROXBTC_TESTNETCONTRACT, cfg.tokenAddress)

/-- `position.id.split('_')[1]`. -/
def positionIDOf (position : Position) : String :=
  match (jsSplit position.id '_')[1]? with
  | some s => s
  | none => "undefined"

/-- Whether a label reads `0xBTC` (832, 842). -/
def is0xBTCLabel (label : String) : Bool :=
  label = "0xBTC" || label = " 0xBTC" || label = " 0xBTC "

/-- The values `increaseLiquidity` takes from the page. -/
structure IncreaseInput where
  tokenAValue : String
  tokenBValue : String
  tokenAAmount : String
  tokenBAmount : String
  selectedPositionId : String

/-- The collaborators of `increaseLiquidity`: `ethers.utils.parseUnits`, the
`try` block of the approvals and of `getLiquidityForAmounts` (926-950, its
result `liquidityDelta`), sending `modifyLiquidities` and waiting for the
receipt. -/
structure IncreaseEnv where
  parseUnits : String → Nat → Except String Int
  prepare : String → String → JSNumber → JSNumber → Int → Int → Except String Int
  modifyLiquidities : Payload → Except String Unit
  wait : Payload → Except String Unit

/-- The amounts and fee offsets per logical token (822-852):
`(amountInB0x, amountIn0xBTC, uncalimedFeesB0x, uncalimedFees0xBTC)`. -/
def increaseAmounts (env : IncreaseEnv) (inp : IncreaseInput) (position : Position) :
    Except String (Int × Int × Int × Int) := do
  let amountAtoCreate0 ← env.parseUnits inp.tokenAAmount 18
  let _zero ← env.parseUnits "0" 18
  let amountBtoCreate0 ←
    match env.parseUnits inp.tokenBAmount 8 with
    | .ok v => pure v
    | .error _ => env.parseUnits inp.tokenBAmount 18
  let (amountAtoCreate, amountBtoCreate) ←
    if is0xBTCLabel inp.tokenAValue then do
      let a ← env.parseUnits inp.tokenAAmount 8
      let b ← env.parseUnits inp.tokenBAmount 18
      pure (a, b)
    else pure (amountAtoCreate0, amountBtoCreate0)
  let _b0 ← env.parseUnits "0" 18
  let _b1 ← env.parseUnits "0" 8
  if !is0xBTCLabel inp.tokenBValue then do
    let uncalimedFeesB0x ← env.parseUnits position.unclaimedFeesTokenB 18
    let uncalimedFees0xBTC ← env.parseUnits position.unclaimedFeesTokenA 8
    pure (amountBtoCreate, amountAtoCreate, uncalimedFeesB0x, uncalimedFees0xBTC)
  else do
    let uncalimedFeesB0x ← env.parseUnits position.unclaimedFeesTokenA 18
    let uncalimedFees0xBTC ← env.parseUnits position.unclaimedFeesTokenB 8
    pure (amountAtoCreate, amountBtoCreate, uncalimedFeesB0x, uncalimedFees0xBTC)

/-- The canonical reordering of `increaseLiquidity` (899-909):
`((token0, amount0, fees0a), (token1, amount1, fees1a))`. -/
def increaseOrder (cfg : TokenConfig) (amountInB0x amountIn0xBTC : Int)
    (uncalimedFeesB0x uncalimedFees0xBTC : Int) :
    (String × Int × Int) × (String × Int × Int) :=
  let (token0, token1) :=
    if jsLt cfg.tokenAddress cfg.Address_ZEROXBTC_TESTNETCONTRACT
    then (cfg.tokenAddress, cfg.Address_ZEROXBTC_TESTNETCONTRACT)
    else (cfg.Address_ZEROXBTC_TESTNETCONTRACT, cfg.tokenAddress)
  let (amount0, amount1) :=
    if jsLt cfg.tokenAddress cfg.Address_ZEROXBTC_TESTNETCONTRACT
    then (amountInB0x, amountIn0xBTC)
    else (amountIn0xBTC, amountInB0x)
  let (fees0a, fees1a) :=
    if jsLt cfg.tokenAddress cfg.Address_ZEROXBTC_TESTNETCONTRACT
    then (uncalimedFeesB0x, uncalimedFees0xBTC)
    else (uncalimedFees0xBTC, uncalimedFeesB0x)
  ((token0, amount0, fees0a), (token1, amount1, fees1a))

/-- `fees > amount ? fees - amount : 0` on two `BigNumber`s (972-973). -/
def remainingFees (fees amount : Int) : JSNumber :=
  if BigNumber.jsGt fees amount
  then fsub (BigNumber.toNumber fees) (BigNumber.toNumber amount)
  else JSNumber.ofInt 0

/-- The payload of `increaseLiquidity` (952-991). -/
def increasePayload (positionID : String) (liquidityDelta : Int) (token0 token1 : String)
    (amount0 amount1 fees0a fees1a : Int) : Payload :=
  let remainingFees0 := remainingFees fees0a amount0
  let remainingFees1 := remainingFees fees1a amount1
  if JSNumber.lt (JSNumber.ofInt 0) remainingFees0 ∨ JSNumber.lt (JSNumber.ofInt 0) remainingFees1
  then
    { actions := [0x00, 0x12, 0x12],
      params := [Param.modify positionID liquidityDelta amount0 amount1,
                 Param.currency token0, Param.currency token1] }
  else
    { actions := [0x00, 0x0d],
      params := [Param.modify positionID liquidityDelta amount0 amount1,
                 Param.currencyPair token0 token1] }

/-- `increaseLiquidity()`.  `h` and `remote` serve the reconciliation pass
awaited after a confirmed transaction. -/
def increaseLiquidity (cfg : TokenConfig) (env : IncreaseEnv) (h : Helpers) (remote : Remote)
    (wallet : Wallet) (inp : IncreaseInput) (st0 : ModuleState) : Outcome :=
  let locked := takeLock st0 "increaseLiquidityBtn"
  let st1 := (ensureConnected wallet locked).1
  let windowUserAddress := (ensureConnected wallet locked).2
  match st1.positionData.get inp.selectedPositionId with
  | none => ⟨st1, [], [], false, Exit.noPosition⟩
  | some position =>
    let positionID := positionIDOf position
    match increaseAmounts env inp position with
    | .error _ => ⟨st1, [], [], false, Exit.threw⟩
    | .ok (amountInB0x, amountIn0xBTC, uncalimedFeesB0x, uncalimedFees0xBTC) =>
      let ((token0, amount0, fees0a), (token1, amount1, fees1a)) :=
        increaseOrder cfg amountInB0x amountIn0xBTC uncalimedFeesB0x uncalimedFees0xBTC
      let afterFees0 := fsub (BigNumber.toNumber amount0) (BigNumber.toNumber fees0a)
      let afterFees1 := fsub (BigNumber.toNumber amount1) (BigNumber.toNumber fees1a)
      match env.prepare token0 token1 afterFees0 afterFees1 amount0 amount1 with
      | .error _ =>
        ⟨{ st1 with lock := enableButton st1.lock "increaseLiquidityBtn" }, [], [], false,
          Exit.aborted⟩
      | .ok liquidityDelta =>
        let callData :=
          increasePayload positionID liquidityDelta token0 token1 amount0 amount1 fees0a fees1a
        match env.modifyLiquidities callData with
        | .error msg =>
          ⟨{ st1 with lock := enableButton st1.lock "increaseLiquidityBtn" }, [callData], [msg],
            false, Exit.failed⟩
        | .ok _ =>
          match env.wait callData with
          | .error msg =>
            ⟨{ st1 with lock := enableButton st1.lock "increaseLiquidityBtn" }, [callData],
              [msg], false, Exit.failed⟩
          | .ok _ =>
            let st2 := { st1 with lock := enableButton st1.lock "increaseLiquidityBtn" }
            ⟨getTokenIDsOwnedByMetamask h remote windowUserAddress st2, [callData], [], true,
              Exit.confirmed⟩

/-- The values `decreaseLiquidity` takes from the page: the percentage shown
(`parseInt` of the display text) and the slippage control, whose text has the
decimal value `slippageNum / slippageDen`. -/
structure DecreaseInput where
  decreasePercentageNumber : Int
  slippageNum : Int
  slippageDen : Nat
  selectedPositionId : String

/-- The collaborators of `decreaseLiquidity`: the quote
`getAmount0andAmount1forLiquidityPercentage(.., percentagedivby10000,
positionID, ..)`, `getPositionLiquidity(positionID)`, `toBigNumber` of
`contracts.js`, sending `modifyLiquidities` and waiting for the receipt. -/
structure DecreaseEnv where
  getAmount0andAmount1forLiquidityPercentage : JSNumber → String → Except String (Int × Int)
  getPositionLiquidity : String → Except String Int
  toBigNumber : JSNumber → Except String Int
  modifyLiquidities : Payload → Except String Unit
  wait : Payload → Except String Unit

/-- `percentagedivby10000 = 10000 * decreasePercentageNumber / 100` (1038). -/
def percentagedivby10000 (decreasePercentageNumber : Int) : JSNumber :=
  fdiv (fmul (JSNumber.ofInt 10000) (JSNumber.ofInt decreasePercentageNumber))
    (JSNumber.ofInt 100)

/-- `(minAmount0Remove, minAmount1Remove)` after the quote (1107-1131): the
quote in the order chosen by `tokenAddress == position.tokenA`, zeros when the
quote call throws. -/
def minAmountsRemove (cfg : TokenConfig) (position : Position)
    (quote : Except String (Int × Int)) : Int × Int :=
  match quote with
  | .ok (result0, result1) =>
    if cfg.tokenAddress = position.tokenA then (result0, result1) else (result1, result0)
  | .error _ => (0, 0)

/-- `(amount0remove, amount1remove)` (1167-1185). -/
def amountsRemove (cfg : TokenConfig) (position : Position) (minAmount0 minAmount1 : Int) :
    Int × Int :=
  if cfg.tokenAddress = position.tokenA then
    if jsLt cfg.tokenAddress cfg.Address_ZEROXBTC_TESTNETCONTRACT
    then (minAmount0, minAmount1)
    else (minAmount1, minAmount0)
  else
    if jsLt cfg.tokenAddress cfg.Address_ZEROXBTC_TESTNETCONTRACT
    then (minAmount1, minAmount0)
    else (minAmount1, minAmount0)

/-- `liqtoRemove` (1192-1201). -/
def liqtoRemove (toBigNumber : JSNumber → Except String Int) (pct : JSNumber) (liqnow : Int) :
    Except String Int :=
  if ¬ JSNumber.eqv pct (JSNumber.ofInt 10000) then
    let pct1 := fadd pct (JSNumber.ofInt 1)
    toBigNumber (fdiv (fmul (BigNumber.toNumber liqnow) pct1) (JSNumber.ofInt 10000))
  else .ok liqnow

/-- The `try` block of `decreaseLiquidity` up to the payload (1159-1229). -/
def decreasePayload (cfg : TokenConfig) (env : DecreaseEnv) (windowUserAddress : String)
    (inp : DecreaseInput) (position : Position) (quote : Except String (Int × Int)) :
    Except String Payload := do
  let positionID := positionIDOf position
  let slippage := decimalValueSlippage inp.slippageNum inp.slippageDen
  let (minAmount0Remove, minAmount1Remove) := minAmountsRemove cfg position quote
  let minAmount0 ← calculateWithSlippageBigNumber minAmount0Remove slippage
  let minAmount1 ← calculateWithSlippageBigNumber minAmount1Remove slippage
  let (token0, token1) := tokenOrder cfg
  let (amount0remove, amount1remove) := amountsRemove cfg position minAmount0 minAmount1
  let liqnow ← env.getPositionLiquidity positionID
  let liq ← liqtoRemove env.toBigNumber (percentagedivby10000 inp.decreasePercentageNumber) liqnow
  pure { actions := [0x01, 0x11],
         params := [Param.modify positionID liq amount0remove amount1remove,
                    Param.takePair token0 token1 windowUserAddress] }

/-- `decreaseLiquidity()`.  The reconciliation pass it starts after a
confirmed transaction is not awaited: the state is the one at return. -/
def decreaseLiquidity (cfg : TokenConfig) (env : DecreaseEnv) (wallet : Wallet)
    (inp : DecreaseInput) (st0 : ModuleState) : Outcome :=
  let entered := (ensureConnected wallet st0).1
  let windowUserAddress := (ensureConnected wallet st0).2
  let st1 := takeLock entered "decreaseLiquidityBtn"
  match st1.positionData.get inp.selectedPositionId with
  | none => ⟨st1, [], [], false, Exit.noPosition⟩
  | some position =>
    let quote := env.getAmount0andAmount1forLiquidityPercentage
      (percentagedivby10000 inp.decreasePercentageNumber) (positionIDOf position)
    let released := { st1 with lock := enableButton st1.lock "decreaseLiquidityBtn" }
    match decreasePayload cfg env windowUserAddress inp position quote with
    | .error msg => ⟨released, [], [msg], false, Exit.failed⟩
    | .ok callData =>
      match env.modifyLiquidities callData with
      | .error msg => ⟨released, [callData], [msg], false, Exit.failed⟩
      | .ok _ =>
        match env.wait callData with
        | .error msg => ⟨released, [callData], [msg], false, Exit.failed⟩
        | .ok _ => ⟨released, [callData], [], true, Exit.confirmed⟩

/-! ## Example inputs -/

/-- Example helpers: every address resolves to `B0x` with 18 decimals and
amounts are printed as integers. -/
def exHelpers : Helpers where
  getSymbolFromAddress := fun _ => .ok "B0x"
  tokenAddressesDecimals := fun _ => some 18
  formatUnits := fun v _ =>
    match v with
    | some x => .ok (toString x)
    | none => .error "invalid BigNumber value"
  penaltyString := fun _ => "0%"
  feeString := fun _ => "0.30%"
  apyString := "0.00%"

/-- A packed word holding tick `lower` in bits 232..255 and tick `upper` in
bits 208..231. -/
def packTicks (lower upper : Int) : Nat := packWord (encodeTick24 lower) (encodeTick24 upper) 0

/-- An example pool key. -/
def exPoolKey : PoolKey := ⟨"0xaaa", "0xbbb", 8388608, 60, "0x000"⟩

/-- An example regular record: token 7 with the full range. -/
def exRegularRecord : RegularRecord :=
  ⟨7, 1000, 2000, 3000, 0, 0, exPoolKey, packTicks (-887220) 887220⟩

/-- An example staked record: token 42 with ticks [-100, 100]. -/
def exStakedRecord : StakedRecord :=
  ⟨42, 1000, 2000, 3000, 1700000000, 0, "0xbbb", "0xaaa", packTicks (-100) 100⟩

/-- An example token configuration in which the B0x address sorts higher. -/
def exConfig : TokenConfig := ⟨"0xbbb", "0xaaa"⟩

/-- Two well-formed addresses that differ in letter case where they first
differ. -/
def exMixedCaseConfig : TokenConfig :=
  ⟨"0xB000000000000000000000000000000000000001", "0xa000000000000000000000000000000000000002"⟩

/-- The same two addresses in lower case. -/
def exLowerCaseConfig : TokenConfig :=
  ⟨toLowerCase "0xB000000000000000000000000000000000000001",
   toLowerCase "0xa000000000000000000000000000000000000002"⟩

/-- An example cache entry. -/
def exPosition (id tokenA tokenB : String) : Position :=
  { id := id, pool := tokenA ++ "/" ++ tokenB, feeTier := "Dynamic Fee", tokenA := tokenA,
    tokenB := tokenB, currentLiquidity := JSNumber.ofInt 3000, currentTokenA := "1",
    currentTokenB := "2", unclaimedFeesTokenA := "0", unclaimedFeesTokenB := "0",
    tokenAIcon := "B", tokenBIcon := "0" }

/-- Example collaborators of `decreaseLiquidity`: the quote is `quote`, the
position holds liquidity 1000, `toBigNumber` takes the integer part, and the
transaction is sent and confirmed. -/
def exDecreaseEnv (quote : Except String (Int × Int)) : DecreaseEnv where
  getAmount0andAmount1forLiquidityPercentage := fun _ _ => quote
  getPositionLiquidity := fun _ => .ok 1000
  toBigNumber := fun x => .ok x.floor
  modifyLiquidities := fun _ => .ok ()
  wait := fun _ => .ok ()

/-- Value of a string of decimal digits. -/
def parseDigits : List Char → Nat → Option Nat
  | [], acc => some acc
  | c :: cs, acc =>
    if 48 ≤ c.toNat ∧ c.toNat ≤ 57 then parseDigits cs (acc * 10 + (c.toNat - 48)) else none

/-- Example collaborators of `increaseLiquidity`: amounts are given in base
units, the approvals succeed with `liquidityDelta = 5`, and the transaction
is sent and confirmed. -/
def exIncreaseEnv : IncreaseEnv where
  parseUnits := fun s _ => match parseDigits s.data 0 with
    | some v => .ok (v : Int)
    | none => .error "invalid decimal value"
  prepare := fun _ _ _ _ _ _ => .ok 5
  modifyLiquidities := fun _ => .ok ()
  wait := fun _ => .ok ()

/-- An example remote whose every call throws. -/
def exFailingRemote : Remote where
  getMaxStakedIDforUser := fun _ => .error "rpc"
  getIDSofStakedTokensForUserwithMinimum := fun _ _ => .error "rpc"
  getNFTOwners := .error "rpc"
  findUserTokenIdswithMinimumIndividual := fun _ _ => .error "rpc"

/-- A module state whose cache holds position 7 (tokens B0x / 0xBTC) and whose
locks are free. -/
def exState : ModuleState :=
  { ModuleState.initial with
    positionData := [("position_7", exPosition "position_7" "B0x" "0xBTC")] }

/-- The state `exState` with the lock of `id` held. -/
def exLockedState (id : String) : ModuleState :=
  { exState with lock := setEnabled exState.lock id false }

/-- Page values of an increase: 1000 base units of each token on position 7. -/
def exIncreaseInput : IncreaseInput := ⟨"B0x", "0xBTC", "1000", "1000", "position_7"⟩

/-- Page values of a decrease: 50 percent of position 7 at slippage 0. -/
def exDecreaseInput : DecreaseInput := ⟨50, 0, 1, "position_7"⟩

/-- An example remote: the maximum staked id is 1500, the staked page at 0
returns record 42 with next index 500 and every other staked page throws; the
ownership index gives token 7 to `0xuser`, and the detail query returns the
full-range record 7. -/
def exRemotePageFails : Remote where
  getMaxStakedIDforUser := fun _ => .ok 1500
  getIDSofStakedTokensForUserwithMinimum := fun _ startId =>
    if startId = 0 then .ok ⟨StakedArrays.ofRecords [exStakedRecord], 500⟩ else .error "rpc"
  getNFTOwners := .ok [(7, "0xuser"), (8, "0xother")]
  findUserTokenIdswithMinimumIndividual := fun _ _ =>
    .ok (RegularArrays.ofRecords [exRegularRecord])

/-- An example remote whose calls all resolve: the maximum staked id is 1600,
every staked page returns record 42 with next index 10, the ownership index
gives token 7 to `0xuser`, and the detail query returns the full-range
record 7. -/
def exRemote : Remote where
  getMaxStakedIDforUser := fun _ => .ok 1600
  getIDSofStakedTokensForUserwithMinimum := fun _ _ =>
    .ok ⟨StakedArrays.ofRecords [exStakedRecord], 10⟩
  getNFTOwners := .ok [(7, "0xuser"), (8, "0xother")]
  findUserTokenIdswithMinimumIndividual := fun _ _ =>
    .ok (RegularArrays.ofRecords [exRegularRecord])

/-- Example helpers that tell the two example addresses apart. -/
def exSymbolHelpers : Helpers :=
  { exHelpers with
    getSymbolFromAddress := fun a =>
      match a with
      | some s => if s = "0xaaa" then .ok "AAA" else if s = "0xbbb" then .ok "BBB" else .ok "?"
      | none => .error "undefined" }

/-- A module state whose staked cursor is 500. -/
def exStateCursor500 : ModuleState := { ModuleState.initial with WhereToStartSearchStaked := 500 }

/-- An example wallet that is not connected: `connectWallet` is granted the
account `0xuser`, the two reset functions leave the module state as it is, and
the reader pass runs on `exRemote`. -/
def exDisconnectedWallet : Wallet :=
  { walletConnected := false, userAddress := "",
    connectWallet := connectWallet exHelpers exRemote id id true "0xuser" }

/-- The full-range record of token `id`. -/
def exRecord (id : Nat) : RegularRecord :=
  ⟨id, 1000, 2000, 3000, 0, 0, exPoolKey, packTicks (-887220) 887220⟩

/-- An example remote for the batch loop: the detail query of the batch `[9]`
throws, every other batch returns the full-range record of each of its ids. -/
def exBatchRemote : Remote :=
  { exRemote with
    findUserTokenIdswithMinimumIndividual := fun _ batch =>
      if batch = [9] then .error "rpc" else .ok (RegularArrays.ofRecords (batch.map exRecord)) }

/-! ## Hashrate (ui.js 1967-1998) -/

/-- `calculateHashrate(timePerEpoch, miningDifficulty)`, with the numbers of
the language taken as exact rationals. -/
def calculateHashrate (timePerEpoch miningDifficulty : ℚ) : Except String ℚ :=
  let POWER_OF_22 : ℚ := 2 ^ 22
  let DIVISOR : ℚ := 524288
  if timePerEpoch ≤ 0 then .error "TimePerEpoch must be greater than 0"
  else if miningDifficulty ≤ 0 then .error "Mining difficulty must be greater than 0"
  else
    let adjustedDifficulty := miningDifficulty / DIVISOR
    let hashrate := (POWER_OF_22 * adjustedDifficulty) / timePerEpoch
    .ok hashrate

/-! ## Example unit parser -/

/-- An example `parseUnits` after `ethers.utils.parseUnits(value, decimals)`:
the decimal numeral `whole` or `whole.fraction` scaled by `10^decimals`; it
throws when the fraction has more than `decimals` digits and when the text is
not such a numeral. -/
def exParseUnits (value : String) (decimals : Nat) : Except String Int :=
  match jsSplit value '.' with
  | [whole] =>
    match parseDigits whole.data 0 with
    | some w => .ok ((w * 10 ^ decimals : Nat) : Int)
    | none => .error "invalid decimal value"
  | [whole, fraction] =>
    if decimals < fraction.data.length then .error "fractional component exceeds decimals"
    else
      match parseDigits whole.data 0, parseDigits fraction.data 0 with
      | some w, some f =>
        .ok ((w * 10 ^ decimals + f * 10 ^ (decimals - fraction.data.length) : Nat) : Int)
      | _, _ => .error "invalid decimal value"
  | _ => .error "invalid decimal value"

/-- Example collaborators of `increaseLiquidity` whose `parseUnits` scales by
the decimals. -/
def exUnitsEnv : IncreaseEnv := { exIncreaseEnv with parseUnits := exParseUnits }

/-! ## Index alignment of the detail arrays -/

/-- The eight arrays have the same length. -/
def RegularArrays.aligned (a : RegularArrays) : Prop :=
  a.amount0.length = a.ids.length ∧ a.amount1.length = a.ids.length ∧
  a.liquidity.length = a.ids.length ∧ a.fees0.length = a.ids.length ∧
  a.fees1.length = a.ids.length ∧ a.poolKeys.length = a.ids.length ∧
  a.poolInfo.length = a.ids.length

instance (a : RegularArrays) : Decidable a.aligned := by
  unfold RegularArrays.aligned; infer_instance

/-- The entries of the eight arrays at index `i`, when all eight exist. -/
def RegularArrays.recordAt (a : RegularArrays) (i : Nat) : Option RegularRecord := do
  let tokenId ← a.ids[i]?
  let amount0 ← a.amount0[i]?
  let amount1 ← a.amount1[i]?
  let liquidity ← a.liquidity[i]?
  let fees0 ← a.fees0[i]?
  let fees1 ← a.fees1[i]?
  let poolKey ← a.poolKeys[i]?
  let poolInfo ← a.poolInfo[i]?
  pure ⟨tokenId, amount0, amount1, liquidity, fees0, fees1, poolKey, poolInfo⟩

/-- The sum of the lengths of the batch results that resolved. -/
def resolvedLengths (remote : Remote) (user : String) : List (List Nat) → Nat
  | [] => 0
  | batch :: rest =>
    match remote.findUserTokenIdswithMinimumIndividual user batch with
    | .ok result => result.ids.length + resolvedLengths remote user rest
    | .error _ => resolvedLengths remote user rest

/-! ## Double rounding -/

theorem log2Fuel_spec : ∀ (fuel n : Nat), 0 < n → n < 2 ^ fuel →
    2 ^ (log2Fuel fuel n) ≤ n ∧ n < 2 ^ (log2Fuel fuel n + 1)
  | 0, n, h0, h => by simp at h; omega
  | fuel + 1, n, h0, h => by
    unfold log2Fuel
    by_cases h2 : n < 2
    · simp only [h2, if_true]
      omega
    · simp only [h2, if_false]
      have hn : 0 < n / 2 := by omega
      have hlt : n / 2 < 2 ^ fuel := by
        rw [pow_succ] at h; omega
      obtain ⟨ih1, ih2⟩ := log2Fuel_spec fuel (n / 2) hn hlt
      constructor
      · rw [pow_succ]; omega
      · rw [pow_succ]; omega

theorem log2Fuel_self (n : Nat) (h0 : 0 < n) :
    2 ^ (log2Fuel n n) ≤ n ∧ n < 2 ^ (log2Fuel n n + 1) :=
  log2Fuel_spec n n h0 (Nat.lt_two_pow n)

/-- A non-negative `log2Floor n d` is a lower bound of the binary logarithm of
`n / d`. -/
theorem log2Floor_le (n d : Nat) (hn : 0 < n) (hd : 0 < d) (hk : 0 ≤ log2Floor n d) :
    d * 2 ^ (log2Floor n d).toNat ≤ n := by
  obtain ⟨ha1, _⟩ := log2Fuel_self n hn
  obtain ⟨_, hb2⟩ := log2Fuel_self d hd
  unfold log2Floor at hk ⊢
  simp only at hk ⊢
  generalize log2Fuel n n = a at *
  generalize log2Fuel d d = b at *
  by_cases h0 : (0 : Int) ≤ (a : Int) - (b : Int)
  · have hab : b ≤ a := by omega
    have ht : ((a : Int) - (b : Int)).toNat = a - b := by omega
    simp only [h0, if_true, ht] at hk ⊢
    by_cases hlt : n < d * 2 ^ (a - b)
    · simp only [hlt, if_true] at hk ⊢
      have h1 : 1 ≤ a - b := by omega
      have ht2 : ((a : Int) - (b : Int) - 1).toNat = a - b - 1 := by omega
      rw [ht2]
      have e : 2 ^ a = 2 ^ (b + 1) * 2 ^ (a - b - 1) := by
        rw [← pow_add]; congr 1; omega
      have : d * 2 ^ (a - b - 1) < 2 ^ (b + 1) * 2 ^ (a - b - 1) :=
        Nat.mul_lt_mul_of_pos_right hb2 (by positivity)
      omega
    · simp only [hlt, if_false] at hk ⊢
      rw [ht]; omega
  · simp only [h0, if_false] at hk
    split at hk <;> omega

theorem roundHalfEven_bounds (n : Int) (d : Nat) (hd : 0 < d) (lo hi : Int)
    (hlo : lo * d ≤ n) (hhi : n ≤ hi * d) :
    lo ≤ roundHalfEven n d ∧ roundHalfEven n d ≤ hi := by
  have hd' : (0 : Int) < (d : Int) := by exact_mod_cast hd
  have hdiv := Int.emod_add_ediv n d
  have hr0 := Int.emod_nonneg n (ne_of_gt hd')
  have hr1 := Int.emod_lt_of_pos n hd'
  have hq_lo : lo ≤ n / (d : Int) := by
    by_contra hc
    have : n / (d : Int) + 1 ≤ lo := by omega
    nlinarith
  have hq_hi : n / (d : Int) ≤ hi := by
    by_contra hc
    have : hi + 1 ≤ n / (d : Int) := by omega
    nlinarith
  have hq_hi' : 0 < n % (d : Int) → n / (d : Int) + 1 ≤ hi := by
    intro hpos
    by_contra hc
    have : hi ≤ n / (d : Int) := by omega
    nlinarith
  unfold roundHalfEven
  simp only
  split
  · exact ⟨hq_lo, hq_hi⟩
  · split
    · exact ⟨by omega, hq_hi' (by omega)⟩
    · split
      · exact ⟨hq_lo, hq_hi⟩
      · exact ⟨by omega, hq_hi' (by omega)⟩

/-- Rounding to a double never crosses an integer below `2^53`: a fraction
between the integers `lo` and `hi` rounds to a number between them. -/
theorem roundF64_bounds (x : JSNumber) (lo hi : Int) (hd : 0 < x.den) (h0 : 0 ≤ lo)
    (h53 : hi < 2 ^ 53) (hlo : lo * x.den ≤ x.num) (hhi : x.num ≤ hi * x.den) :
    0 < (roundF64 x).den ∧ lo * (roundF64 x).den ≤ (roundF64 x).num ∧
    (roundF64 x).num ≤ hi * (roundF64 x).den := by
  have hd' : (0 : Int) < (x.den : Int) := by exact_mod_cast hd
  have hnum0 : 0 ≤ x.num := le_trans (mul_nonneg h0 (le_of_lt hd')) hlo
  unfold roundF64
  by_cases hz : x.num = 0
  · simp only [hz, if_true]
    rw [hz] at hlo hhi
    have hlo0 : lo = 0 := by nlinarith
    have hhi0 : 0 ≤ hi := by nlinarith
    simp [hlo0, hhi0]
  · simp only [hz, if_false]
    have hpos : 0 < x.num := lt_of_le_of_ne hnum0 (Ne.symm hz)
    have hnat : (x.num.natAbs : Int) = x.num := Int.natAbs_of_nonneg hnum0
    have hn : 0 < x.num.natAbs := by omega
    have hk : log2Floor x.num.natAbs x.den ≤ 52 := by
      by_contra hc
      have hk53 : 53 ≤ log2Floor x.num.natAbs x.den := by omega
      have hle := log2Floor_le x.num.natAbs x.den hn hd (by omega)
      have hpow : 2 ^ 53 ≤ 2 ^ (log2Floor x.num.natAbs x.den).toNat :=
        Nat.pow_le_pow_right (by decide) (by omega)
      have h1 : x.den * 2 ^ 53 ≤ x.num.natAbs :=
        le_trans (Nat.mul_le_mul_left _ hpow) hle
      have h2 : ((x.den : Int)) * 2 ^ 53 ≤ x.num := by
        rw [← hnat]; exact_mod_cast h1
      nlinarith
    by_cases he : (0 : Int) ≤ max (log2Floor x.num.natAbs x.den - 52) (-1074)
    · have he0 : max (log2Floor x.num.natAbs x.den - 52) (-1074) = 0 := by omega
      simp only [he0, le_refl, if_true, Int.toNat_zero, pow_zero, mul_one, Nat.cast_one]
      have hb := roundHalfEven_bounds x.num x.den hd lo hi hlo hhi
      exact ⟨by decide, hb.1, hb.2⟩
    · simp only [he, if_false]
      generalize (-(max (log2Floor x.num.natAbs x.den - 52) (-1074))).toNat = s
      have hs : (0 : Int) < ((2 ^ s : Nat) : Int) := by positivity
      have hb := roundHalfEven_bounds (x.num * 2 ^ s) x.den hd (lo * ((2 ^ s : Nat) : Int))
        (hi * ((2 ^ s : Nat) : Int))
        (by push_cast; nlinarith [pow_pos (show (0:Int) < 2 by decide) s])
        (by push_cast; nlinarith [pow_pos (show (0:Int) < 2 by decide) s])
      exact ⟨by positivity, hb.1, hb.2⟩

/-- The basis points taken from a slippage fraction in [0, 1] lie in
[0, 10000]. -/
theorem slippage_bps_range (s : JSNumber) (hd : 0 < s.den) (h0 : 0 ≤ s.num)
    (h1 : s.num ≤ s.den) :
    0 ≤ (fmul s (JSNumber.ofInt 10000)).floor ∧ (fmul s (JSNumber.ofInt 10000)).floor ≤ 10000 := by
  have hd' : (0 : Int) < (s.den : Int) := by exact_mod_cast hd
  obtain ⟨hden, hlo, hhi⟩ := roundF64_bounds ⟨s.num * 10000, s.den * 1⟩ 0 10000
    (by simpa using hd) (le_refl 0) (by norm_num)
    (by simp only [zero_mul]; nlinarith)
    (by simp only [Nat.mul_one]; nlinarith)
  have hden' : (0 : Int) < ((roundF64 ⟨s.num * 10000, s.den * 1⟩).den : Int) := by
    exact_mod_cast hden
  unfold fmul JSNumber.floor JSNumber.ofInt
  simp only
  constructor
  · exact Int.ediv_nonneg (by simpa using hlo) (le_of_lt hden')
  · have := Int.ediv_le_ediv hden' hhi
    rwa [Int.mul_ediv_cancel _ (ne_of_gt hden')] at this

/-- An integer below `2^53` is a double: the difference of two such integer
numbers is computed exactly. -/
theorem fsub_ofInt_exact (a b : Int) (h0 : 0 ≤ a - b) (h53 : a - b < 2 ^ 53) :
    (fsub (JSNumber.ofInt a) (JSNumber.ofInt b)).isInteger = true ∧
    (fsub (JSNumber.ofInt a) (JSNumber.ofInt b)).floor = a - b := by
  obtain ⟨hden, hlo, hhi⟩ := roundF64_bounds ⟨a * 1 - b * 1, 1 * 1⟩ (a - b) (a - b)
    (by show 0 < 1 * 1; decide) h0 h53 (by simp) (by simp)
  have hden' : (0 : Int) < ((roundF64 ⟨a * 1 - b * 1, 1 * 1⟩).den : Int) := by
    exact_mod_cast hden
  have heq : (roundF64 ⟨a * 1 - b * 1, 1 * 1⟩).num
      = (a - b) * ((roundF64 ⟨a * 1 - b * 1, 1 * 1⟩).den : Int) := le_antisymm hhi hlo
  unfold fsub JSNumber.isInteger JSNumber.floor JSNumber.ofInt
  simp only [Nat.cast_one]
  rw [heq]
  constructor
  · simp
  · exact Int.mul_ediv_cancel _ (ne_of_gt hden')

/-- `calculateWithSlippageBigNumber` on a slippage fraction in [0, 1]: the
amount times the remaining basis points, divided by 10000 and truncated. -/
theorem calculateWithSlippage_eq (amount : Int) (s : JSNumber) (hd : 0 < s.den)
    (h0 : 0 ≤ s.num) (h1 : s.num ≤ s.den) :
    calculateWithSlippageBigNumber amount s
      = .ok (Int.tdiv (amount * (10000 - (fmul s (JSNumber.ofInt 10000)).floor)) 10000) := by
  obtain ⟨hb0, hb1⟩ := slippage_bps_range s hd h0 h1
  obtain ⟨hi, hf⟩ := fsub_ofInt_exact 10000 (fmul s (JSNumber.ofInt 10000)).floor
    (by omega) (by norm_num; omega)
  unfold calculateWithSlippageBigNumber BigNumber.fromNumber
  simp only [hi, hf, Bool.not_true, bind, Except.bind, pure, Except.pure]
  have hsafe : ¬ (MAX_SAFE ≤ 10000 - (fmul s (JSNumber.ofInt 10000)).floor ∨
      10000 - (fmul s (JSNumber.ofInt 10000)).floor ≤ -MAX_SAFE) := by
    unfold MAX_SAFE; omega
  rw [if_neg hsafe]
  simp

/-- The fraction the liquidity paths derive from a slippage text with a value
in [0, 100] lies in [0, 1]. -/
theorem decimalValueSlippage_range (n : Int) (d : Nat) (hd : 0 < d) (h0 : 0 ≤ n)
    (h100 : n ≤ 100 * d) :
    0 < (decimalValueSlippage n d).den ∧ 0 ≤ (decimalValueSlippage n d).num ∧
    (decimalValueSlippage n d).num ≤ (decimalValueSlippage n d).den := by
  obtain ⟨pden, plo, phi⟩ := roundF64_bounds ⟨n, d⟩ 0 100 hd (le_refl 0) (by norm_num)
    (by simpa using h0) h100
  have pden' : (0 : Int) < ((roundF64 ⟨n, d⟩).den : Int) := by exact_mod_cast pden
  have hsign : Int.sign (JSNumber.ofInt 100).num = 1 := by decide
  have hnat : (JSNumber.ofInt 100).num.natAbs = 100 := by decide
  have hden1 : (JSNumber.ofInt 100).den = 1 := rfl
  obtain ⟨qden, qlo, qhi⟩ := roundF64_bounds
    ⟨(roundF64 ⟨n, d⟩).num * (JSNumber.ofInt 100).den * Int.sign (JSNumber.ofInt 100).num,
     (roundF64 ⟨n, d⟩).den * (JSNumber.ofInt 100).num.natAbs⟩ 0 1
    (by rw [hnat]; exact Nat.mul_pos pden (by decide)) (le_refl 0) (by norm_num)
    (by rw [hsign, hden1]; simp only [zero_mul]; simp only [zero_mul] at plo; simpa using plo)
    (by rw [hsign, hden1, hnat]; push_cast; linarith)
  unfold decimalValueSlippage parseFloat fdiv
  refine ⟨qden, by simpa using qlo, by simpa using qhi⟩

/-! # Properties

## Packed-field decoder -/

/-- Both decoders of a word laid out by `packWord`: the lower decoder sees
only the field at bit 232, the upper decoder only the field at bit 208. -/
theorem decode_packWord (a b r : Nat) (ha : a < 2 ^ 24) (hb : b < 2 ^ 24) (hr : r < 2 ^ 208) :
    TOtickLower (packWord a b r) = signCorrect a ∧
    TOtickUpper (packWord a b r) = signCorrect b := by
  have h1 : (packWord a b r) >>> 232 = a := by
    rw [Nat.shiftRight_eq_div_pow]
    unfold packWord
    have e : (2 : Nat) ^ 232 = 2 ^ 208 * 2 ^ 24 := by norm_num
    have h : b * 2 ^ 208 + r < 2 ^ 232 := by
      rw [e]; nlinarith
    rw [Nat.add_assoc, Nat.mul_comm a, Nat.mul_add_div (by positivity), Nat.div_eq_of_lt h]
    simp
  have h2 : ((packWord a b r) >>> 208) = a * 2 ^ 24 + b := by
    rw [Nat.shiftRight_eq_div_pow]
    unfold packWord
    have e : a * 2 ^ 232 + b * 2 ^ 208 = 2 ^ 208 * (a * 2 ^ 24 + b) := by ring
    rw [e, Nat.mul_add_div (by positivity), Nat.div_eq_of_lt hr]
    simp
  have m : (0xFFFFFF : Nat) = 2 ^ 24 - 1 := by norm_num
  constructor
  · unfold TOtickLower signCorrect
    simp only [h1, m, Nat.and_pow_two_sub_one_eq_mod, Nat.mod_eq_of_lt ha]
  · unfold TOtickUpper signCorrect
    simp only [h2, m, Nat.and_pow_two_sub_one_eq_mod]
    rw [Nat.mul_comm, Nat.mul_add_mod, Nat.mod_eq_of_lt hb]

/-- C1 (fails on the code): the tick -8388608 is in the int24 domain and its
two's-complement pattern is 0x800000, but a word holding that pattern in both
tick fields decodes to +8388608 with both decoders, because the sign test is
`> 0x800000`; the round trip breaks at the lowest tick. -/
theorem C1_roundtrip_breaks_at_lowest_tick :
    encodeTick24 (-8388608) = 0x800000 ∧
    packWord (encodeTick24 (-8388608)) (encodeTick24 (-8388608)) 0 < 2 ^ 256 ∧
    field24 (packWord (encodeTick24 (-8388608)) (encodeTick24 (-8388608)) 0) 232
      = encodeTick24 (-8388608) ∧
    field24 (packWord (encodeTick24 (-8388608)) (encodeTick24 (-8388608)) 0) 208
      = encodeTick24 (-8388608) ∧
    TOtickLower (packWord (encodeTick24 (-8388608)) (encodeTick24 (-8388608)) 0) = 8388608 ∧
    TOtickUpper (packWord (encodeTick24 (-8388608)) (encodeTick24 (-8388608)) 0) = 8388608 := by
  decide

/-- C2 (fails on the code): on a 256-bit word whose tick field is 0x800000
each decoder returns 8388608, which is above the largest signed 24-bit value
8388607. -/
theorem C2_decoder_leaves_int24_range :
    packWord 0x800000 0 0 < 2 ^ 256 ∧ packWord 0 0x800000 0 < 2 ^ 256 ∧
    TOtickLower (packWord 0x800000 0 0) = 8388608 ∧
    TOtickUpper (packWord 0 0x800000 0) = 8388608 ∧
    ¬ ((8388608 : Int) ≤ 8388607) := by
  decide

/-- C3 as stated is false: on the word with 1 in bits 232..255 and 2 in bits
208..231 the upper decoder returns 2 and the lower decoder 1, so the upper
decoder does not read offset 232 nor the lower decoder offset 208. -/
theorem C3_counterexample :
    ¬ (TOtickUpper (packWord 1 2 0) = signCorrect (field24 (packWord 1 2 0) 232) ∧
       TOtickLower (packWord 1 2 0) = signCorrect (field24 (packWord 1 2 0) 208)) := by
  decide

/-- C3 (amended): for every packed value `TOtickLower` is the sign-corrected
24-bit field at bit offset 232 (bits 232..255) and `TOtickUpper` the
sign-corrected 24-bit field at bit offset 208 (bits 208..231), each masked
with 0xFFFFFF before the correction. -/
theorem C3_bit_layout (packed : Nat) :
    TOtickLower packed = signCorrect (field24 packed 232) ∧
    TOtickUpper packed = signCorrect (field24 packed 208) := by
  have m : (0xFFFFFF : Nat) = 2 ^ 24 - 1 := by norm_num
  constructor
  · unfold TOtickLower signCorrect field24
    simp only [m, Nat.and_pow_two_sub_one_eq_mod, Nat.shiftRight_eq_div_pow]
  · unfold TOtickUpper signCorrect field24
    simp only [m, Nat.and_pow_two_sub_one_eq_mod, Nat.shiftRight_eq_div_pow]

/-! ## Position cache -/

theorem Cache.get_set_self {α : Type} (c : Cache α) (key : String) (value : α) :
    (c.set key value).get key = some value := by
  induction c with
  | nil => simp [Cache.set, Cache.get]
  | cons p rest ih =>
    obtain ⟨k, v⟩ := p
    by_cases hk : k = key
    · simp [Cache.set, Cache.get, hk]
    · simp [Cache.set, Cache.get, hk, ih]

theorem Cache.get_set_of_ne {α : Type} (c : Cache α) (key key2 : String) (value : α)
    (hne : key ≠ key2) : (c.set key value).get key2 = c.get key2 := by
  induction c with
  | nil => simp [Cache.set, Cache.get, hne]
  | cons p rest ih =>
    obtain ⟨k, v⟩ := p
    by_cases hk : k = key
    · subst hk
      simp [Cache.set, Cache.get, hne]
    · simp only [Cache.set, hk, if_false, Cache.get, ih]

theorem Cache.get_isSome_iff_mem_keys {α : Type} (c : Cache α) (key : String) :
    (c.get key).isSome ↔ key ∈ c.keys := by
  induction c with
  | nil => simp [Cache.get, Cache.keys]
  | cons p rest ih =>
    obtain ⟨k, v⟩ := p
    by_cases hk : k = key
    · simp [Cache.get, Cache.keys, hk]
    · have hk2 : ¬ key = k := fun e => hk e.symm
      simp only [Cache.get, hk, if_false, ih, Cache.keys, List.map_cons, List.mem_cons, hk2,
        false_or]

theorem Cache.mem_keys_set {α : Type} (c : Cache α) (key key2 : String) (value : α) :
    key2 ∈ (c.set key value).keys ↔ key2 = key ∨ key2 ∈ c.keys := by
  rw [← Cache.get_isSome_iff_mem_keys, ← Cache.get_isSome_iff_mem_keys]
  by_cases h : key = key2
  · subst h
    simp [Cache.get_set_self]
  · rw [Cache.get_set_of_ne _ _ _ _ h]
    have h2 : ¬ key2 = key := fun e => h e.symm
    simp [h2]

/-! ## Full-range filter of the regular processing loop -/

/-- What `regularFields` returns: the fee text, the symbols of the two
currencies and the four amounts formatted with the decimals of those symbols. -/
theorem regularFields_ok (h : Helpers) (a : RegularArrays) (i : Nat) (poolKey : PoolKey)
    (f : RegularFields) (hf : regularFields h a i poolKey = .ok f) :
    ∃ symA symB f1 f2 fee1 fee2,
      h.getSymbolFromAddress (some poolKey.currency0) = .ok symA ∧
      h.getSymbolFromAddress (some poolKey.currency1) = .ok symB ∧
      h.formatUnits (a.amount0[i]?.map Int.ofNat) (h.tokenAddressesDecimals symA) = .ok f1 ∧
      h.formatUnits (a.amount1[i]?.map Int.ofNat) (h.tokenAddressesDecimals symB) = .ok f2 ∧
      h.formatUnits a.fees0[i]? (h.tokenAddressesDecimals symA) = .ok fee1 ∧
      h.formatUnits a.fees1[i]? (h.tokenAddressesDecimals symB) = .ok fee2 ∧
      f = ⟨if poolKey.fee = 8388608 then "Dynamic Fee" else h.feeString poolKey.fee,
        symA, symB, f1, f2, fee1, fee2⟩ := by
  unfold regularFields at hf
  simp only [bind, Except.bind, pure, Except.pure] at hf
  cases h1 : h.getSymbolFromAddress (some poolKey.currency0) with
  | error e => simp [h1] at hf
  | ok symA =>
    simp only [h1] at hf
    cases h2 : h.getSymbolFromAddress (some poolKey.currency1) with
    | error e => simp [h2] at hf
    | ok symB =>
      simp only [h2] at hf
      cases h3 : h.formatUnits (a.amount0[i]?.map Int.ofNat) (h.tokenAddressesDecimals symA) with
      | error e => simp [h3] at hf
      | ok f1 =>
        simp only [h3] at hf
        cases h4 : h.formatUnits (a.amount1[i]?.map Int.ofNat)
            (h.tokenAddressesDecimals symB) with
        | error e => simp [h4] at hf
        | ok f2 =>
          simp only [h4] at hf
          cases h5 : h.formatUnits a.fees0[i]? (h.tokenAddressesDecimals symA) with
          | error e => simp [h5] at hf
          | ok fee1 =>
            simp only [h5] at hf
            cases h6 : h.formatUnits a.fees1[i]? (h.tokenAddressesDecimals symB) with
            | error e => simp [h6] at hf
            | ok fee2 =>
              simp only [h6, Except.ok.injEq] at hf
              exact ⟨symA, symB, f1, f2, fee1, fee2, rfl, rfl, h3, h4, h5, h6, hf.symm⟩

/-- C4: for a regular record at index `i` whose processing does not throw
(`regularEntry` returns), the step stores the record in `positionData` under
the key `position_<tokenId>` if and only if the decoded range is exactly
tickLower = -887220 and tickUpper = 887220.  With that range the stored entry
holds the record: its id is the key, its pool and tokens are the symbols of
the two currencies of the pool key, its fee tier is `Dynamic Fee` for the fee
8388608 and the fee text otherwise, its liquidity is the record's liquidity as
a number, its amounts and unclaimed fees are the record's four amounts
formatted with the decimals of the two symbols, and its icons are the first
letters of the symbols.  With any other range (in particular [-887220, 887219]
and [-887219, 887220]) `positionData` is left as it was. -/
theorem C4_full_range_filter (h : Helpers) (a : RegularArrays) (st : ModuleState) (i : Nat)
    (tokenId info2 : Nat) (x : Option (String × Position))
    (hid : a.ids[i]? = some tokenId) (hinfo : a.poolInfo[i]? = some info2)
    (hok : regularEntry h a i tokenId = .ok x) :
    ((TOtickLower info2 = -887220 ∧ TOtickUpper info2 = 887220) →
      ∃ poolKey liq symA symB f1 f2 fee1 fee2 entry,
        a.poolKeys[i]? = some poolKey ∧ a.liquidity[i]? = some liq ∧
        h.getSymbolFromAddress (some poolKey.currency0) = .ok symA ∧
        h.getSymbolFromAddress (some poolKey.currency1) = .ok symB ∧
        h.formatUnits (a.amount0[i]?.map Int.ofNat) (h.tokenAddressesDecimals symA) = .ok f1 ∧
        h.formatUnits (a.amount1[i]?.map Int.ofNat) (h.tokenAddressesDecimals symB) = .ok f2 ∧
        h.formatUnits a.fees0[i]? (h.tokenAddressesDecimals symA) = .ok fee1 ∧
        h.formatUnits a.fees1[i]? (h.tokenAddressesDecimals symB) = .ok fee2 ∧
        entry = ({ id := "position_" ++ toString tokenId, pool := symA ++ "/" ++ symB,
                   feeTier := if poolKey.fee = 8388608 then "Dynamic Fee"
                     else h.feeString poolKey.fee,
                   tokenA := symA, tokenB := symB,
                   currentLiquidity := BigNumber.toNumber liq,
                   currentTokenA := f1, currentTokenB := f2,
                   unclaimedFeesTokenA := fee1, unclaimedFeesTokenB := fee2,
                   tokenAIcon := iconOf symA, tokenBIcon := iconOf symB } : Position) ∧
        x = some ("position_" ++ toString tokenId, entry) ∧
        (processRegular h a st i).positionData
          = st.positionData.set ("position_" ++ toString tokenId) entry ∧
        (processRegular h a st i).positionData.get ("position_" ++ toString tokenId)
          = some entry) ∧
    (¬ (TOtickLower info2 = -887220 ∧ TOtickUpper info2 = 887220) →
      x = none ∧ (processRegular h a st i).positionData = st.positionData) ∧
    ((TOtickLower info2 = -887220 ∧ TOtickUpper info2 = 887219) →
      (processRegular h a st i).positionData = st.positionData) ∧
    ((TOtickLower info2 = -887219 ∧ TOtickUpper info2 = 887220) →
      (processRegular h a st i).positionData = st.positionData) := by
  have hproc : ∀ y, regularEntry h a i tokenId = .ok y →
      (processRegular h a st i).positionData =
        match y with
        | some (key, entry) => st.positionData.set key entry
        | none => st.positionData := by
    intro y hy
    unfold processRegular
    simp only [hid, hy]
    cases y with
    | none => simp only []; split <;> rfl
    | some p => obtain ⟨k, e⟩ := p; simp only []; split <;> rfl
  have hp := hproc x hok
  unfold regularEntry at hok
  simp only [hinfo, definedOrThrow] at hok
  cases hk : a.poolKeys[i]? with
  | none => simp [hk] at hok
  | some poolKey =>
    simp only [hk] at hok
    cases hf : regularFields h a i poolKey with
    | error e => simp [hf] at hok
    | ok f =>
      simp only [hf] at hok
      obtain ⟨symA, symB, f1, f2, fee1, fee2, g1, g2, g3, g4, g5, g6, hfe⟩ :=
        regularFields_ok h a i poolKey f hf
      have hnotfull : ¬ (TOtickLower info2 = -887220 ∧ TOtickUpper info2 = 887220) →
          x = none ∧ (processRegular h a st i).positionData = st.positionData := by
        intro hnot
        have hnot2 : ¬ (TOtickUpper info2 = 887220 ∧ TOtickLower info2 = -887220) :=
          fun c => hnot ⟨c.2, c.1⟩
        rw [if_neg hnot2] at hok
        simp only [Except.ok.injEq] at hok
        subst hok
        exact ⟨rfl, hp⟩
      refine ⟨?_, hnotfull, ?_, ?_⟩
      · intro hfull
        have hfull2 : TOtickUpper info2 = 887220 ∧ TOtickLower info2 = -887220 :=
          ⟨hfull.2, hfull.1⟩
        rw [if_pos hfull2] at hok
        cases hl : a.liquidity[i]? with
        | none => simp [hl] at hok
        | some liq =>
          simp only [hl, Except.ok.injEq] at hok
          subst hok
          subst hfe
          refine ⟨poolKey, liq, symA, symB, f1, f2, fee1, fee2, _, rfl, rfl, g1, g2, g3, g4,
            g5, g6, rfl, rfl, hp, ?_⟩
          rw [hp]
          exact Cache.get_set_self _ _ _
      · intro hb
        exact (hnotfull (fun c => by
          have := c.2; rw [hb.2] at this; exact absurd this (by decide))).2
      · intro hb
        exact (hnotfull (fun c => by
          have := c.1; rw [hb.1] at this; exact absurd this (by decide))).2

set_option maxRecDepth 100000 in
/-- Witness of C4: the full-range record 7 (liquidity 3000, amounts 1000 and
2000, no fees owed) is stored under `position_7` with these values; the
liquidity is the double 3000, held as the fraction `3000 * 2^41 / 2^41`. -/
theorem C4_full_range_filter_witness :
    (processRegular exHelpers (RegularArrays.ofRecords [exRegularRecord])
        ModuleState.initial 0).positionData.get "position_7"
      = some { id := "position_7", pool := "B0x/B0x", feeTier := "Dynamic Fee",
               tokenA := "B0x", tokenB := "B0x",
               currentLiquidity := ⟨3000 * 2 ^ 41, 2 ^ 41⟩,
               currentTokenA := "1000", currentTokenB := "2000",
               unclaimedFeesTokenA := "0", unclaimedFeesTokenB := "0",
               tokenAIcon := "B", tokenBIcon := "B" } := by
  obtain ⟨_, _, _, _, _, _, _, _, entry, _, _, _, _, _, _, _, _, _, hx, _, hget⟩ :=
    (C4_full_range_filter exHelpers (RegularArrays.ofRecords [exRegularRecord])
      ModuleState.initial 0 7 (packTicks (-887220) 887220)
      (some ("position_7",
        { id := "position_7", pool := "B0x/B0x", feeTier := "Dynamic Fee",
          tokenA := "B0x", tokenB := "B0x",
          currentLiquidity := ⟨3000 * 2 ^ 41, 2 ^ 41⟩,
          currentTokenA := "1000", currentTokenB := "2000",
          unclaimedFeesTokenA := "0", unclaimedFeesTokenB := "0",
          tokenAIcon := "B", tokenBIcon := "B" }))
      (by decide) (by decide) (by decide)).1 (by decide)
  simp only [Option.some.injEq, Prod.mk.injEq] at hx
  have hk : "position_" ++ toString 7 = "position_7" := by decide
  rw [hk] at hget
  rw [hget, hx.2]

/-! ## Slippage -/

set_option maxRecDepth 100000 in
/-- C5 as stated is false: for a slippage tolerance of 0.009 (inside
[0, 100]) and amount 1,000,000 the code keeps the whole amount, since it takes
`Math.floor` of 0.9 basis points, while `round(0.009 * 100) = 1` gives
`floor(1000000 * 9999 / 10000) = 999900`. -/
theorem C5_counterexample :
    calculateWithSlippageBigNumber 1000000 (decimalValueSlippage 9 1000) = .ok 1000000 ∧
    specMinOut 1000000 9 1000 = 999900 ∧
    calculateWithSlippageBigNumber 1000000 (decimalValueSlippage 9 1000)
      ≠ .ok (specMinOut 1000000 9 1000) := by
  decide

/-! ## Token order -/

/-- C6 (fails on the code): the order is the case-sensitive order of the
address strings.  For the addresses `0xB0..01` and `0xa0..02` the code takes
`0xB0..01` as token0 (`B` sorts before `a`), and for the same two addresses
written in lower case it takes `0xa0..02`: the letter case decides which token
is token0. -/
theorem C6_token_order_depends_on_case :
    tokenOrder exMixedCaseConfig
      = ("0xB000000000000000000000000000000000000001",
         "0xa000000000000000000000000000000000000002") ∧
    tokenOrder exLowerCaseConfig
      = ("0xa000000000000000000000000000000000000002",
         "0xb000000000000000000000000000000000000001") ∧
    toLowerCase (tokenOrder exMixedCaseConfig).1 ≠ (tokenOrder exLowerCaseConfig).1 := by
  decide

/-! ## Decrease-liquidity minimums -/

set_option maxRecDepth 100000 in
/-- C7 as stated is false: with the B0x address `0xbbb` sorting above the
0xBTC address `0xaaa`, a cached position whose `tokenA` is the string `0xbbb`,
a quote (100, 200) and slippage 0, the encoded minimums are (200, 100): the
minimum of token0 is the quote's amount1. -/
theorem C7_counterexample :
    decreasePayload exConfig (exDecreaseEnv (.ok (100, 200))) "0xuser"
        ⟨50, 0, 1, "position_7"⟩ (exPosition "position_7" "0xbbb" "0xBTC") (.ok (100, 200))
      = .ok { actions := [0x01, 0x11],
              params := [Param.modify "7" 500 200 100, Param.takePair "0xaaa" "0xbbb" "0xuser"] } ∧
    calculateWithSlippageBigNumber 100 (decimalValueSlippage 0 1) = .ok 100 ∧
    calculateWithSlippageBigNumber 200 (decimalValueSlippage 0 1) = .ok 200 := by
  decide

/-- C7 (amended): when the cached position's `tokenA` is not the B0x address
string, or the B0x address sorts lower, every payload built from a quote
(amount0, amount1) carries the slippage-adjusted amount0 as the minimum of
token0 and the slippage-adjusted amount1 as the minimum of token1, with
(token0, token1) the ordered pair. -/
theorem C7_minimum_pairing (cfg : TokenConfig) (env : DecreaseEnv) (user : String)
    (inp : DecreaseInput) (position : Position) (r0 r1 : Int) (payload : Payload)
    (hcase : cfg.tokenAddress ≠ position.tokenA ∨
      jsLt cfg.tokenAddress cfg.Address_ZEROXBTC_TESTNETCONTRACT = true)
    (hp : decreasePayload cfg env user inp position (.ok (r0, r1)) = .ok payload) :
    ∃ liq m0 m1,
      calculateWithSlippageBigNumber r0 (decimalValueSlippage inp.slippageNum inp.slippageDen)
        = .ok m0 ∧
      calculateWithSlippageBigNumber r1 (decimalValueSlippage inp.slippageNum inp.slippageDen)
        = .ok m1 ∧
      payload = { actions := [0x01, 0x11],
                  params := [Param.modify (positionIDOf position) liq m0 m1,
                             Param.takePair (tokenOrder cfg).1 (tokenOrder cfg).2 user] } := by
  unfold decreasePayload at hp
  simp only [minAmountsRemove, amountsRemove, bind, Except.bind, pure, Except.pure] at hp
  by_cases hT : cfg.tokenAddress = position.tokenA
  · have hlt : jsLt cfg.tokenAddress cfg.Address_ZEROXBTC_TESTNETCONTRACT = true := by
      rcases hcase with h | h
      · exact absurd hT h
      · exact h
    simp only [hT, if_true] at hp
    rw [← hT] at hp
    simp only [hlt, if_true] at hp
    cases h0 : calculateWithSlippageBigNumber r0
        (decimalValueSlippage inp.slippageNum inp.slippageDen) with
    | error e => simp [h0] at hp
    | ok m0 =>
      cases h1 : calculateWithSlippageBigNumber r1
          (decimalValueSlippage inp.slippageNum inp.slippageDen) with
      | error e => simp [h0, h1] at hp
      | ok m1 =>
        simp only [h0, h1] at hp
        cases hl : env.getPositionLiquidity (positionIDOf position) with
        | error e => simp [hl] at hp
        | ok liqnow =>
          simp only [hl] at hp
          cases hq : liqtoRemove env.toBigNumber
              (percentagedivby10000 inp.decreasePercentageNumber) liqnow with
          | error e => simp [hq] at hp
          | ok liq =>
            simp only [hq, Except.ok.injEq] at hp
            exact ⟨liq, m0, m1, rfl, rfl, hp.symm⟩
  · simp only [hT, if_false] at hp
    cases h1 : calculateWithSlippageBigNumber r1
        (decimalValueSlippage inp.slippageNum inp.slippageDen) with
    | error e => simp [h1] at hp
    | ok m1 =>
      cases h0 : calculateWithSlippageBigNumber r0
          (decimalValueSlippage inp.slippageNum inp.slippageDen) with
      | error e => simp [h0, h1] at hp
      | ok m0 =>
        simp only [h0, h1] at hp
        cases hl : env.getPositionLiquidity (positionIDOf position) with
        | error e => simp [hl] at hp
        | ok liqnow =>
          simp only [hl] at hp
          cases hq : liqtoRemove env.toBigNumber
              (percentagedivby10000 inp.decreasePercentageNumber) liqnow with
          | error e => simp [hq] at hp
          | ok liq =>
            simp only [hq, ite_self, Except.ok.injEq] at hp
            exact ⟨liq, m0, m1, rfl, rfl, hp.symm⟩

set_option maxRecDepth 100000 in
/-- Witness of C7: a position whose `tokenA` is the symbol `B0x`. -/
theorem C7_minimum_pairing_witness :
    ∃ liq m0 m1,
      calculateWithSlippageBigNumber 100 (decimalValueSlippage 0 1) = .ok m0 ∧
      calculateWithSlippageBigNumber 200 (decimalValueSlippage 0 1) = .ok m1 ∧
      ({ actions := [0x01, 0x11],
         params := [Param.modify "7" 500 100 200, Param.takePair "0xaaa" "0xbbb" "0xuser"] }
          : Payload)
        = { actions := [0x01, 0x11],
            params := [Param.modify (positionIDOf (exPosition "position_7" "B0x" "0xBTC"))
                         liq m0 m1,
                       Param.takePair (tokenOrder exConfig).1 (tokenOrder exConfig).2 "0xuser"] } :=
  C7_minimum_pairing exConfig (exDecreaseEnv (.ok (100, 200))) "0xuser"
    ⟨50, 0, 1, "position_7"⟩ (exPosition "position_7" "B0x" "0xBTC") 100 200 _
    (Or.inl (by decide)) (by decide)

/-! ## Increase-liquidity ordering and payload -/

/-- C8: in `increaseLiquidity` the three reorderings agree: either
(token0, amount0, fees0a) are the B0x address, amount and fee and
(token1, amount1, fees1a) the 0xBTC ones, or the other way round; and the
payload names the currencies in that same (token0, token1) order, as the
settle pair or as the two close-currency parameters. -/
theorem C8_consistent_reordering (cfg : TokenConfig)
    (amountInB0x amountIn0xBTC uncalimedFeesB0x uncalimedFees0xBTC : Int)
    (positionID : String) (liquidityDelta : Int) :
    (increaseOrder cfg amountInB0x amountIn0xBTC uncalimedFeesB0x uncalimedFees0xBTC
        = ((cfg.tokenAddress, amountInB0x, uncalimedFeesB0x),
           (cfg.Address_ZEROXBTC_TESTNETCONTRACT, amountIn0xBTC, uncalimedFees0xBTC)) ∨
     increaseOrder cfg amountInB0x amountIn0xBTC uncalimedFeesB0x uncalimedFees0xBTC
        = ((cfg.Address_ZEROXBTC_TESTNETCONTRACT, amountIn0xBTC, uncalimedFees0xBTC),
           (cfg.tokenAddress, amountInB0x, uncalimedFeesB0x))) ∧
    ((increaseOrder cfg amountInB0x amountIn0xBTC uncalimedFeesB0x uncalimedFees0xBTC).1.1,
     (increaseOrder cfg amountInB0x amountIn0xBTC uncalimedFeesB0x uncalimedFees0xBTC).2.1)
      = tokenOrder cfg ∧
    (∀ token0 token1 amount0 amount1 fees0a fees1a,
      (increasePayload positionID liquidityDelta token0 token1 amount0 amount1 fees0a
          fees1a).params
        = [Param.modify positionID liquidityDelta amount0 amount1,
           Param.currencyPair token0 token1] ∨
      (increasePayload positionID liquidityDelta token0 token1 amount0 amount1 fees0a
          fees1a).params
        = [Param.modify positionID liquidityDelta amount0 amount1,
           Param.currency token0, Param.currency token1]) := by
  refine ⟨?_, ?_, ?_⟩
  · unfold increaseOrder
    by_cases hlt : jsLt cfg.tokenAddress cfg.Address_ZEROXBTC_TESTNETCONTRACT = true
    · left; simp [hlt]
    · right; simp [hlt]
  · unfold increaseOrder tokenOrder
    by_cases hlt : jsLt cfg.tokenAddress cfg.Address_ZEROXBTC_TESTNETCONTRACT = true
    · simp [hlt]
    · simp [hlt]
  · intro token0 token1 amount0 amount1 fees0a fees1a
    unfold increasePayload
    simp only []
    split
    · right; rfl
    · left; rfl

set_option maxRecDepth 100000 in
/-- C9 (fails on the code): with an unclaimed 0xBTC fee of 100000 base units
and a 0xBTC deposit of 50000 the fee exceeds the deposit, so a leftover
exists, yet the payload is the two-action shape [0x00, 0x0d]: `fees > amount`
on two BigNumbers compares the decimal strings, and "100000" sorts below
"50000". -/
theorem C9_leftover_not_detected :
    (50000 : Int) < 100000 ∧
    BigNumber.jsGt 100000 50000 = false ∧
    increasePayload "7" 5 "0xaaa" "0xbbb" 50000 0 100000 0
      = { actions := [0x00, 0x0d],
          params := [Param.modify "7" 5 50000 0, Param.currencyPair "0xaaa" "0xbbb"] } := by
  decide

/-! ## Decrease-liquidity margin -/

set_option maxRecDepth 100000 in
/-- C10 as stated is false: for p = 99 the liquidities 2^53 and 2^53 + 1
reach `toBigNumber` as the same double, so the liquidity to remove is the same
for both whatever `toBigNumber` does, while L * (100 * p + 1) / 10000 differs
between them. -/
theorem C10_counterexample :
    (∀ toBigNumber : JSNumber → Except String Int,
      liqtoRemove toBigNumber (percentagedivby10000 99) (2 ^ 53 + 1)
        = liqtoRemove toBigNumber (percentagedivby10000 99) (2 ^ 53)) ∧
    ((2 : Int) ^ 53 + 1) * (100 * 99 + 1) / 10000 ≠ (2 : Int) ^ 53 * (100 * 99 + 1) / 10000 := by
  constructor
  · intro toBigNumber
    have h : BigNumber.toNumber (2 ^ 53 + 1) = BigNumber.toNumber (2 ^ 53) := by decide
    have hne : ¬ JSNumber.eqv (percentagedivby10000 99) (JSNumber.ofInt 10000) := by decide
    unfold liqtoRemove
    rw [if_pos hne, if_pos hne, h]
  · decide

set_option maxRecDepth 1000000 in
/-- For every whole percentage 0..100 the basis-point value is exact: it is
10000 only for 100, and adding 1 gives `100 * p + 1`. -/
theorem percentagedivby10000_exact :
    ∀ p : Fin 101,
      (JSNumber.eqv (percentagedivby10000 (p.val : Int)) (JSNumber.ofInt 10000) ↔ p.val = 100) ∧
      JSNumber.eqv (percentagedivby10000 (p.val : Int)) (JSNumber.ofInt (100 * (p.val : Int))) ∧
      JSNumber.eqv (fadd (percentagedivby10000 (p.val : Int)) (JSNumber.ofInt 1))
        (JSNumber.ofInt (100 * (p.val : Int) + 1)) := by
  decide

/-- C10 (amended): for every whole percentage p in 0..100 and every current
liquidity L the liquidity to remove is exactly L when p = 100, and otherwise
is `toBigNumber` of the double-precision value of L * (100 * p + 1) / 10000
(L converted to a double, multiplied by the exact number 100 * p + 1 and
divided by 10000): the percentage in basis points with 1 added. -/
theorem C10_margin (toBigNumber : JSNumber → Except String Int) (p : Nat) (L : Int)
    (hp : p ≤ 100) :
    (p = 100 → liqtoRemove toBigNumber (percentagedivby10000 (p : Int)) L = .ok L) ∧
    (p ≠ 100 →
      liqtoRemove toBigNumber (percentagedivby10000 (p : Int)) L
        = toBigNumber (fdiv (fmul (BigNumber.toNumber L)
            (fadd (percentagedivby10000 (p : Int)) (JSNumber.ofInt 1))) (JSNumber.ofInt 10000)) ∧
      JSNumber.eqv (fadd (percentagedivby10000 (p : Int)) (JSNumber.ofInt 1))
        (JSNumber.ofInt (100 * (p : Int) + 1))) := by
  have h := percentagedivby10000_exact ⟨p, by omega⟩
  simp only at h
  constructor
  · intro h100
    unfold liqtoRemove
    rw [if_neg (not_not.mpr (h.1.mpr h100))]
  · intro hne
    refine ⟨?_, h.2.2⟩
    unfold liqtoRemove
    rw [if_pos (fun c => hne (h.1.mp c))]

/-- Witness of C10: removing 50 percent of liquidity 1000. -/
theorem C10_margin_witness :
    ((50 : Nat) = 100 → liqtoRemove (fun x => .ok x.floor) (percentagedivby10000 ((50 : Nat) : Int))
        1000 = .ok 1000) ∧
    ((50 : Nat) ≠ 100 →
      liqtoRemove (fun x => .ok x.floor) (percentagedivby10000 ((50 : Nat) : Int)) 1000
        = (fun x : JSNumber => (.ok x.floor : Except String Int))
            (fdiv (fmul (BigNumber.toNumber 1000)
              (fadd (percentagedivby10000 ((50 : Nat) : Int)) (JSNumber.ofInt 1)))
              (JSNumber.ofInt 10000)) ∧
      JSNumber.eqv (fadd (percentagedivby10000 ((50 : Nat) : Int)) (JSNumber.ofInt 1))
        (JSNumber.ofInt (100 * ((50 : Nat) : Int) + 1))) :=
  C10_margin (fun x => .ok x.floor) 50 1000 (by decide)

/-! ## Slippage minimum on the decrease path -/

/-- C5 (amended): for every non-negative amount and every slippage text with a
value `n / d` in [0, 100], the minimum of the decrease path is
`floor(amount * (10000 - slippageBps) / 10000)` where `slippageBps` is the
floor of the double product `(slippagePercent / 100) * 10000` the code
computes, a value in [0, 10000]; for 1.0 it is 100 and an amount of 1,000,000
gives 990,000. -/
theorem C5_slippage_minimum (amount : Int) (n : Int) (d : Nat) (hamount : 0 ≤ amount)
    (hd : 0 < d) (h0 : 0 ≤ n) (h100 : n ≤ 100 * d) :
    calculateWithSlippageBigNumber amount (decimalValueSlippage n d)
      = .ok (amount * (10000 - slippageBasisPoints n d) / 10000) ∧
    0 ≤ slippageBasisPoints n d ∧ slippageBasisPoints n d ≤ 10000 ∧
    slippageBasisPoints 1 1 = 100 ∧
    calculateWithSlippageBigNumber 1000000 (decimalValueSlippage 1 1) = .ok 990000 := by
  obtain ⟨sd, s0, s1⟩ := decimalValueSlippage_range n d hd h0 h100
  obtain ⟨b0, b1⟩ := slippage_bps_range (decimalValueSlippage n d) sd s0 s1
  refine ⟨?_, b0, b1, by decide, by decide⟩
  rw [calculateWithSlippage_eq amount _ sd s0 s1]
  unfold slippageBasisPoints
  have hnn : 0 ≤ amount * (10000 - (fmul (decimalValueSlippage n d) (JSNumber.ofInt 10000)).floor) :=
    mul_nonneg hamount (by omega)
  rw [Int.tdiv_eq_ediv hnn (by decide)]

/-- Witness of C5: amount 1,000,000 at a slippage text of 0.5. -/
theorem C5_slippage_minimum_witness :
    calculateWithSlippageBigNumber 1000000 (decimalValueSlippage 1 2)
      = .ok (1000000 * (10000 - slippageBasisPoints 1 2) / 10000) ∧
    0 ≤ slippageBasisPoints 1 2 ∧ slippageBasisPoints 1 2 ≤ 10000 ∧
    slippageBasisPoints 1 1 = 100 ∧
    calculateWithSlippageBigNumber 1000000 (decimalValueSlippage 1 1) = .ok 990000 :=
  C5_slippage_minimum 1000000 1 2 (by decide) (by decide) (by decide) (by decide)

/-! ## Staked page plan -/

theorem stakedPagePlan_length (maxId cursor : Int) :
    ((stakedPagePlan maxId cursor).length : Int) = max 0 ((maxId + 1 - cursor + 999) / 1000) := by
  unfold stakedPagePlan NumberOfLoops
  simp only [List.length_map, List.length_range]
  have : Int.neg (-(maxId + 1 - cursor) / 1000) = (maxId + 1 - cursor + 999) / 1000 := by
    show -(-(maxId + 1 - cursor) / 1000) = (maxId + 1 - cursor + 999) / 1000
    omega
  rw [this]
  omega

theorem stakedPagePlan_get (maxId cursor : Int) (x : Nat)
    (hx : x < (stakedPagePlan maxId cursor).length) :
    (stakedPagePlan maxId cursor)[x]?
      = some (cursor + 1000 * (x : Int), min (cursor + 1000 * (x : Int) + 999) maxId) := by
  unfold stakedPagePlan at hx ⊢
  simp only [List.length_map, List.length_range] at hx
  rw [List.getElem?_map, List.getElem?_range hx]
  simp only [Option.map_some', stakedPage]
  congr 2
  omega

/-- C19: for a cursor >= 0 and a maximum staked id `maxId`, the pass plans
ceil((maxId + 1 - cursor) / 1000) pages (none when cursor > maxId); page x
spans [cursor + 1000 x, min(cursor + 1000 x + 999, maxId)], is not empty and
covers at most 1000 ids; page x + 1 starts right after page x ends (ascending,
contiguous, disjoint); and an id lies in some page exactly when it lies in
[cursor, maxId]. -/
theorem C19_page_plan (cursor maxId : Int) :
    ((stakedPagePlan maxId cursor).length : Int) = max 0 ((maxId + 1 - cursor + 999) / 1000) ∧
    (cursor ≤ maxId →
      1000 * (((stakedPagePlan maxId cursor).length : Int) - 1) < maxId + 1 - cursor ∧
      maxId + 1 - cursor ≤ 1000 * ((stakedPagePlan maxId cursor).length : Int)) ∧
    (maxId < cursor → stakedPagePlan maxId cursor = []) ∧
    (∀ x, x < (stakedPagePlan maxId cursor).length →
      (stakedPagePlan maxId cursor)[x]?
        = some (cursor + 1000 * (x : Int), min (cursor + 1000 * (x : Int) + 999) maxId) ∧
      cursor + 1000 * (x : Int) ≤ min (cursor + 1000 * (x : Int) + 999) maxId ∧
      min (cursor + 1000 * (x : Int) + 999) maxId - (cursor + 1000 * (x : Int)) + 1 ≤ 1000 ∧
      (x + 1 < (stakedPagePlan maxId cursor).length →
        cursor + 1000 * ((x + 1 : Nat) : Int)
          = min (cursor + 1000 * (x : Int) + 999) maxId + 1)) ∧
    (∀ id : Int, (cursor ≤ id ∧ id ≤ maxId) ↔
      ∃ x, x < (stakedPagePlan maxId cursor).length ∧
        cursor + 1000 * (x : Int) ≤ id ∧ id ≤ min (cursor + 1000 * (x : Int) + 999) maxId) := by
  have hlen := stakedPagePlan_length maxId cursor
  refine ⟨hlen, ?_, ?_, ?_, ?_⟩
  · intro hle
    omega
  · intro hlt
    have h0 : ((stakedPagePlan maxId cursor).length : Int) = 0 := by omega
    exact List.length_eq_zero.mp (by exact_mod_cast h0)
  · intro x hx
    have hx' : (x : Int) < ((stakedPagePlan maxId cursor).length : Int) := by exact_mod_cast hx
    refine ⟨stakedPagePlan_get maxId cursor x hx, ?_, ?_, ?_⟩
    · omega
    · omega
    · intro hx1
      have hx1' : ((x + 1 : Nat) : Int) < ((stakedPagePlan maxId cursor).length : Int) := by
        exact_mod_cast hx1
      push_cast at hx1' ⊢
      omega
  · intro id
    constructor
    · rintro ⟨h1, h2⟩
      refine ⟨((id - cursor) / 1000).toNat, ?_, ?_, ?_⟩
      · have : ((((id - cursor) / 1000).toNat : Nat) : Int)
            < ((stakedPagePlan maxId cursor).length : Int) := by
          rw [Int.toNat_of_nonneg (by omega)]
          omega
        exact_mod_cast this
      · rw [Int.toNat_of_nonneg (by omega)]
        omega
      · rw [Int.toNat_of_nonneg (by omega)]
        omega
    · rintro ⟨x, hx, h1, h2⟩
      have hx' : (x : Int) < ((stakedPagePlan maxId cursor).length : Int) := by exact_mod_cast hx
      omega

/-! ## Reader: loops over parallel arrays -/

theorem foldl_range_eq {α β : Type} (l : List α) (f : β → Nat → β) (g : β → α → β)
    (h : ∀ i a b, l[i]? = some a → f b i = g b a) (b : β) :
    (List.range l.length).foldl f b = l.foldl g b := by
  induction l using List.reverseRecOn generalizing b with
  | nil => rfl
  | append_singleton l a ih =>
    rw [List.length_append, List.length_singleton, List.range_succ, List.foldl_append,
      List.foldl_append]
    have h' : ∀ i a' b, l[i]? = some a' → f b i = g b a' := by
      intro i a' b hi
      apply h
      have hlt : i < l.length := by
        by_contra hc
        rw [List.getElem?_eq_none (by omega)] at hi
        exact absurd hi (by simp)
      rw [List.getElem?_append_left hlt]
      exact hi
    rw [ih h']
    simp only [List.foldl_cons, List.foldl_nil]
    apply h
    simp

theorem stakedEntry_ofRecords (h : Helpers) (rs : List StakedRecord) (i : Nat)
    (r : StakedRecord) (tokenId : Nat) (hr : rs[i]? = some r) :
    stakedEntry h (StakedArrays.ofRecords rs) i tokenId
      = stakedEntry h (StakedArrays.ofRecords [r]) 0 tokenId := by
  unfold stakedEntry stakedFields
  simp [StakedArrays.ofRecords, List.getElem?_map, hr]

theorem processStaked_ofRecords (h : Helpers) (rs : List StakedRecord) (i : Nat)
    (r : StakedRecord) (data : Cache StakedPosition) (hr : rs[i]? = some r) :
    processStaked h (StakedArrays.ofRecords rs) data i = data.setOpt (stakedWrite h r) := by
  have hid : (StakedArrays.ofRecords rs).ids[i]? = some r.tokenId := by
    simp [StakedArrays.ofRecords, List.getElem?_map, hr]
  unfold processStaked stakedWrite
  rw [hid]
  simp only
  rw [stakedEntry_ofRecords h rs i r r.tokenId hr]
  cases stakedEntry h (StakedArrays.ofRecords [r]) 0 r.tokenId with
  | error e => rfl
  | ok p => obtain ⟨k, e⟩ := p; rfl

theorem processStakedAll_ofRecords (h : Helpers) (rs : List StakedRecord)
    (data : Cache StakedPosition) :
    processStakedAll h (StakedArrays.ofRecords rs) data
      = rs.foldl (fun c r => c.setOpt (stakedWrite h r)) data := by
  unfold processStakedAll
  have hlen : (StakedArrays.ofRecords rs).ids.length = rs.length := by
    simp [StakedArrays.ofRecords]
  rw [hlen]
  exact foldl_range_eq rs _ _ (fun i r b hr => processStaked_ofRecords h rs i r b hr) data

theorem regularEntry_ofRecords (h : Helpers) (rs : List RegularRecord) (i : Nat)
    (r : RegularRecord) (tokenId : Nat) (hr : rs[i]? = some r) :
    regularEntry h (RegularArrays.ofRecords rs) i tokenId
      = regularEntry h (RegularArrays.ofRecords [r]) 0 tokenId := by
  unfold regularEntry regularFields
  simp [RegularArrays.ofRecords, List.getElem?_map, hr]

theorem processRegular_ofRecords (h : Helpers) (rs : List RegularRecord) (i : Nat)
    (r : RegularRecord) (st : ModuleState) (hr : rs[i]? = some r) :
    processRegular h (RegularArrays.ofRecords rs) st i
      = { st with positionData := st.positionData.setOpt (regularWrite h r),
                  WhereToStartSearch := raiseSearchStart st.WhereToStartSearch r } := by
  have hid : (RegularArrays.ofRecords rs).ids[i]? = some r.tokenId := by
    simp [RegularArrays.ofRecords, List.getElem?_map, hr]
  unfold processRegular regularWrite raiseSearchStart
  rw [hid]
  simp only
  rw [regularEntry_ofRecords h rs i r r.tokenId hr]
  cases regularEntry h (RegularArrays.ofRecords [r]) 0 r.tokenId with
  | error e => simp only [Cache.setOpt]; split <;> rfl
  | ok o =>
    cases o with
    | none => simp only [Cache.setOpt]; split <;> rfl
    | some p => obtain ⟨k, e⟩ := p; simp only [Cache.setOpt]; split <;> rfl

theorem processRegularAll_ofRecords (h : Helpers) (rs : List RegularRecord) (st : ModuleState) :
    processRegularAll h (RegularArrays.ofRecords rs) st
      = rs.foldl (fun s r =>
          { s with positionData := s.positionData.setOpt (regularWrite h r),
                   WhereToStartSearch := raiseSearchStart s.WhereToStartSearch r }) st := by
  unfold processRegularAll
  have hlen : (RegularArrays.ofRecords rs).ids.length = rs.length := by
    simp [RegularArrays.ofRecords]
  rw [hlen]
  exact foldl_range_eq rs _ _ (fun i r b hr => processRegular_ofRecords h rs i r b hr) st

theorem Cache.mem_keys_foldl_setOpt {α β : Type} (w : β → Option (String × α)) (l : List β)
    (c : Cache α) (key : String) :
    key ∈ (l.foldl (fun c x => c.setOpt (w x)) c).keys
      ↔ key ∈ c.keys ∨ ∃ x ∈ l, ∃ value, w x = some (key, value) := by
  induction l generalizing c with
  | nil => simp
  | cons x rest ih =>
    rw [List.foldl_cons, ih]
    cases hw : w x with
    | none =>
      simp only [Cache.setOpt, List.mem_cons, exists_eq_or_imp, hw]
      simp
    | some p =>
      obtain ⟨k, v⟩ := p
      simp only [Cache.setOpt, Cache.mem_keys_set, List.mem_cons, exists_eq_or_imp, hw,
        Option.some.injEq, Prod.mk.injEq]
      constructor
      · rintro (h | h)
        · rcases h with h | h
          · right; left; exact ⟨v, h.symm, rfl⟩
          · left; exact h
        · right; right; exact h
      · rintro (h | h)
        · left; right; exact h
        · rcases h with ⟨v', h1, _⟩ | h
          · left; left; exact h1.symm
          · right; exact h

theorem Cache.get_foldl_setOpt {α β : Type} (w : β → Option (String × α)) (l : List β)
    (c : Cache α) (key : String) (value : α)
    (hget : (l.foldl (fun c x => c.setOpt (w x)) c).get key = some value) :
    c.get key = some value ∨ ∃ x ∈ l, w x = some (key, value) := by
  induction l generalizing c with
  | nil => left; exact hget
  | cons x rest ih =>
    rw [List.foldl_cons] at hget
    rcases ih _ hget with h | ⟨y, hy, hw⟩
    · cases hw : w x with
      | none =>
        simp only [Cache.setOpt, hw] at h
        left; exact h
      | some p =>
        obtain ⟨k, v⟩ := p
        simp only [Cache.setOpt, hw] at h
        by_cases hk : k = key
        · subst hk
          rw [Cache.get_set_self] at h
          right
          exact ⟨x, List.mem_cons_self _ _, by rw [hw]; simp at h; rw [h]⟩
        · rw [Cache.get_set_of_ne _ _ _ _ hk] at h
          left; exact h
    · right
      exact ⟨y, List.mem_cons_of_mem _ hy, hw⟩

/-! ## Reader: frame of the steps of a pass -/

theorem loadPositions_frame (st : ModuleState) :
    (loadPositionsIntoDappSelections st).positionData = st.positionData ∧
    (loadPositionsIntoDappSelections st).stakingPositionData = st.stakingPositionData ∧
    (loadPositionsIntoDappSelections st).WhereToStartSearch = st.WhereToStartSearch ∧
    (loadPositionsIntoDappSelections st).WhereToStartSearchStaked = st.WhereToStartSearchStaked :=
  ⟨rfl, rfl, rfl, rfl⟩

theorem processRegular_frame (h : Helpers) (a : RegularArrays) (st : ModuleState) (i : Nat) :
    (processRegular h a st i).stakingPositionData = st.stakingPositionData ∧
    (processRegular h a st i).WhereToStartSearchStaked = st.WhereToStartSearchStaked ∧
    st.WhereToStartSearch ≤ (processRegular h a st i).WhereToStartSearch := by
  unfold processRegular
  cases a.ids[i]? with
  | none => exact ⟨rfl, rfl, le_refl _⟩
  | some tokenId =>
    simp only
    by_cases hgt : (tokenId : Int) > st.WhereToStartSearch
    · simp only [hgt, if_true]
      cases regularEntry h a i tokenId with
      | error e => exact ⟨rfl, rfl, le_of_lt hgt⟩
      | ok o =>
        cases o with
        | none => exact ⟨rfl, rfl, le_of_lt hgt⟩
        | some p => obtain ⟨k, e⟩ := p; exact ⟨rfl, rfl, le_of_lt hgt⟩
    · simp only [hgt, if_false]
      cases regularEntry h a i tokenId with
      | error e => exact ⟨rfl, rfl, le_refl _⟩
      | ok o =>
        cases o with
        | none => exact ⟨rfl, rfl, le_refl _⟩
        | some p => obtain ⟨k, e⟩ := p; exact ⟨rfl, rfl, le_refl _⟩

theorem foldl_processRegular_frame (h : Helpers) (a : RegularArrays) (l : List Nat)
    (st : ModuleState) :
    (l.foldl (processRegular h a) st).stakingPositionData = st.stakingPositionData ∧
    (l.foldl (processRegular h a) st).WhereToStartSearchStaked = st.WhereToStartSearchStaked ∧
    st.WhereToStartSearch ≤ (l.foldl (processRegular h a) st).WhereToStartSearch := by
  induction l generalizing st with
  | nil => exact ⟨rfl, rfl, le_refl _⟩
  | cons i rest ih =>
    rw [List.foldl_cons]
    obtain ⟨h1, h2, h3⟩ := ih (processRegular h a st i)
    obtain ⟨g1, g2, g3⟩ := processRegular_frame h a st i
    exact ⟨h1.trans g1, h2.trans g2, le_trans g3 h3⟩

theorem regularPhase_frame (h : Helpers) (remote : Remote) (user : String) (st : ModuleState) :
    (regularPhase h remote user st).1.stakingPositionData = st.stakingPositionData ∧
    (regularPhase h remote user st).1.WhereToStartSearchStaked = st.WhereToStartSearchStaked ∧
    st.WhereToStartSearch ≤ (regularPhase h remote user st).1.WhereToStartSearch := by
  unfold regularPhase
  cases remote.getNFTOwners with
  | error e => exact ⟨rfl, rfl, le_refl _⟩
  | ok owners =>
    simp only
    split
    · exact ⟨rfl, rfl, le_refl _⟩
    · exact foldl_processRegular_frame h _ _ st

/-- The fields of the state after a pass, by the outcome of the staked scan. -/
theorem pass_fields (h : Helpers) (remote : Remote) (user owner : String) (st0 : ModuleState) :
    (passScan remote user owner st0 = none →
      (getTokenIDsOwnedByUser h remote user owner st0).positionData = [] ∧
      (getTokenIDsOwnedByUser h remote user owner st0).stakingPositionData = [] ∧
      (getTokenIDsOwnedByUser h remote user owner st0).WhereToStartSearch
        = st0.WhereToStartSearch ∧
      (getTokenIDsOwnedByUser h remote user owner st0).WhereToStartSearchStaked
        = st0.WhereToStartSearchStaked) ∧
    (∀ scan, passScan remote user owner st0 = some scan →
      (getTokenIDsOwnedByUser h remote user owner st0).stakingPositionData
        = processStakedAll h scan.acc [] ∧
      (getTokenIDsOwnedByUser h remote user owner st0).WhereToStartSearchStaked
        = updateStakedCursor scan.lastSpotTosetStartSearchAt st0.WhereToStartSearchStaked ∧
      st0.WhereToStartSearch
        ≤ (getTokenIDsOwnedByUser h remote user owner st0).WhereToStartSearch ∧
      ∃ lock, (getTokenIDsOwnedByUser h remote user owner st0).positionData
        = (regularPhase h remote user
            (ModuleState.mk [] (processStakedAll h scan.acc []) st0.WhereToStartSearch
              (updateStakedCursor scan.lastSpotTosetStartSearchAt st0.WhereToStartSearchStaked)
              lock)).1.positionData) := by
  constructor
  · intro hnone
    unfold passScan passPlan passMaxStakedId at hnone
    unfold getTokenIDsOwnedByUser
    simp only [hnone]
    exact ⟨rfl, rfl, rfl, rfl⟩
  · intro scan hsome
    unfold passScan passPlan passMaxStakedId at hsome
    unfold getTokenIDsOwnedByUser
    simp only [hsome]
    generalize hst4 : loadPositionsIntoDappSelections _ = st4
    have hf := regularPhase_frame h remote user st4
    have e1 : st4.stakingPositionData = processStakedAll h scan.acc [] := by rw [← hst4]; rfl
    have e2 : st4.WhereToStartSearchStaked
        = updateStakedCursor scan.lastSpotTosetStartSearchAt st0.WhereToStartSearchStaked := by
      rw [← hst4]; rfl
    have e3 : st4.WhereToStartSearch = st0.WhereToStartSearch := by rw [← hst4]; rfl
    have e4 : st4.positionData = [] := by rw [← hst4]; rfl
    have est : st4 = ModuleState.mk [] (processStakedAll h scan.acc []) st0.WhereToStartSearch
        (updateStakedCursor scan.lastSpotTosetStartSearchAt st0.WhereToStartSearchStaked)
        st4.lock := by
      cases st4
      simp only at e1 e2 e3 e4
      subst e1 e2 e3 e4
      rfl
    rcases hrp : regularPhase h remote user st4 with ⟨st5, b⟩
    rw [hrp] at hf
    simp only at hf
    cases b with
    | true =>
      simp only
      refine ⟨hf.1.trans e1, hf.2.1.trans e2, by rw [← e3]; exact hf.2.2, st4.lock, ?_⟩
      rw [← est, hrp]
    | false =>
      simp only
      refine ⟨hf.1.trans e1, hf.2.1.trans e2, by rw [← e3]; exact hf.2.2, st4.lock, ?_⟩
      rw [← est, hrp]
      rfl

/-! ## Reader: what the loops write -/

theorem processStaked_eq_setOpt (h : Helpers) (a : StakedArrays) (data : Cache StakedPosition)
    (i : Nat) : processStaked h a data i = data.setOpt (stakedWriteAt h a i) := by
  unfold processStaked stakedWriteAt
  cases a.ids[i]? with
  | none => rfl
  | some tokenId =>
    simp only
    cases stakedEntry h a i tokenId with
    | error e => rfl
    | ok p => obtain ⟨k, e⟩ := p; rfl

theorem processRegular_positionData (h : Helpers) (a : RegularArrays) (st : ModuleState)
    (i : Nat) :
    (processRegular h a st i).positionData = st.positionData.setOpt (regularWriteAt h a i) := by
  unfold processRegular regularWriteAt
  cases a.ids[i]? with
  | none => rfl
  | some tokenId =>
    simp only
    cases regularEntry h a i tokenId with
    | error e => simp only [Cache.setOpt]; split <;> rfl
    | ok o =>
      cases o with
      | none => simp only [Cache.setOpt]; split <;> rfl
      | some p => obtain ⟨k, e⟩ := p; simp only [Cache.setOpt]; split <;> rfl

theorem foldl_processRegular_positionData (h : Helpers) (a : RegularArrays) (l : List Nat)
    (st : ModuleState) :
    (l.foldl (processRegular h a) st).positionData
      = l.foldl (fun c i => c.setOpt (regularWriteAt h a i)) st.positionData := by
  induction l generalizing st with
  | nil => rfl
  | cons i rest ih =>
    rw [List.foldl_cons, List.foldl_cons, ih, processRegular_positionData]

theorem stakedEntry_key (h : Helpers) (a : StakedArrays) (i tokenId : Nat) (key : String)
    (e : StakedPosition) (hok : stakedEntry h a i tokenId = .ok (key, e)) :
    key = "stake_position_" ++ toString tokenId := by
  unfold stakedEntry at hok
  cases h1 : definedOrThrow a.poolInfo[i]? with
  | error x => simp [h1] at hok
  | ok info2 =>
    simp only [h1] at hok
    cases h2 : stakedFields h a i with
    | error x => simp [h2] at hok
    | ok f =>
      simp only [h2] at hok
      cases h3 : definedOrThrow a.liquidity[i]? with
      | error x => simp [h3] at hok
      | ok liq =>
        simp only [h3, Except.ok.injEq, Prod.mk.injEq] at hok
        exact hok.1.symm

theorem regularEntry_key (h : Helpers) (a : RegularArrays) (i tokenId : Nat) (key : String)
    (e : Position) (hok : regularEntry h a i tokenId = .ok (some (key, e))) :
    key = "position_" ++ toString tokenId := by
  unfold regularEntry at hok
  cases h1 : definedOrThrow a.poolKeys[i]? with
  | error x => simp [h1] at hok
  | ok poolKey =>
    simp only [h1] at hok
    cases h2 : definedOrThrow a.poolInfo[i]? with
    | error x => simp [h2] at hok
    | ok info2 =>
      simp only [h2] at hok
      cases h3 : regularFields h a i poolKey with
      | error x => simp [h3] at hok
      | ok f =>
        simp only [h3] at hok
        split at hok
        · cases h4 : definedOrThrow a.liquidity[i]? with
          | error x => simp [h4] at hok
          | ok liq =>
            simp only [h4, Except.ok.injEq, Option.some.injEq, Prod.mk.injEq] at hok
            exact hok.1.symm
        · simp at hok

theorem stakedWriteAt_key (h : Helpers) (a : StakedArrays) (i : Nat) (key : String)
    (e : StakedPosition) (hw : stakedWriteAt h a i = some (key, e)) :
    ∃ id ∈ a.ids, key = "stake_position_" ++ toString id := by
  unfold stakedWriteAt at hw
  cases hid : a.ids[i]? with
  | none => simp [hid] at hw
  | some tokenId =>
    simp only [hid] at hw
    cases hs : stakedEntry h a i tokenId with
    | error x => simp [hs] at hw
    | ok p =>
      simp only [hs, Option.some.injEq] at hw
      subst hw
      exact ⟨tokenId, List.getElem?_mem hid, stakedEntry_key h a i tokenId key e hs⟩

theorem regularWriteAt_key (h : Helpers) (a : RegularArrays) (i : Nat) (key : String)
    (e : Position) (hw : regularWriteAt h a i = some (key, e)) :
    ∃ id ∈ a.ids, key = "position_" ++ toString id := by
  unfold regularWriteAt at hw
  cases hid : a.ids[i]? with
  | none => simp [hid] at hw
  | some tokenId =>
    simp only [hid] at hw
    cases hs : regularEntry h a i tokenId with
    | error x => simp [hs] at hw
    | ok o =>
      cases o with
      | none => simp [hs] at hw
      | some p =>
        simp only [hs, Option.some.injEq] at hw
        subst hw
        exact ⟨tokenId, List.getElem?_mem hid, regularEntry_key h a i tokenId key e hs⟩

theorem keys_processStakedAll (h : Helpers) (a : StakedArrays) (key : String)
    (hk : key ∈ (processStakedAll h a []).keys) :
    ∃ id ∈ a.ids, key = "stake_position_" ++ toString id := by
  unfold processStakedAll at hk
  have e : (List.range a.ids.length).foldl (processStaked h a) []
      = (List.range a.ids.length).foldl
          (fun (c : Cache StakedPosition) i => c.setOpt (stakedWriteAt h a i)) [] := by
    congr 1
    funext c i
    exact processStaked_eq_setOpt h a c i
  rw [e, Cache.mem_keys_foldl_setOpt] at hk
  rcases hk with hk | ⟨i, _, v, hw⟩
  · simp [Cache.keys] at hk
  · exact stakedWriteAt_key h a i key v hw

theorem keys_processRegularAll (h : Helpers) (a : RegularArrays) (st : ModuleState)
    (key : String) (hk : key ∈ (processRegularAll h a st).positionData.keys) :
    key ∈ st.positionData.keys ∨ ∃ id ∈ a.ids, key = "position_" ++ toString id := by
  unfold processRegularAll at hk
  rw [foldl_processRegular_positionData, Cache.mem_keys_foldl_setOpt] at hk
  rcases hk with hk | ⟨i, _, v, hw⟩
  · left; exact hk
  · right; exact regularWriteAt_key h a i key v hw

theorem stakedScan_ids (remote : Remote) (owner : String) (pages : List (Int × Int))
    (s s2 : StakedScan) (hs : stakedScan remote owner pages s = some s2) (id : Nat)
    (hid : id ∈ s2.acc.ids) :
    id ∈ s.acc.ids ∨ ∃ p ∈ pages, ∃ res,
      remote.getIDSofStakedTokensForUserwithMinimum owner p.1 = .ok res ∧
      id ∈ res.arrays.ids := by
  induction pages generalizing s with
  | nil =>
    simp only [stakedScan, Option.some.injEq] at hs
    subst hs
    left; exact hid
  | cons p rest ih =>
    obtain ⟨startId, endId⟩ := p
    unfold stakedScan at hs
    cases hr : remote.getIDSofStakedTokensForUserwithMinimum owner startId with
    | error e => simp [hr] at hs
    | ok res =>
      simp only [hr] at hs
      rcases ih _ hs with h1 | ⟨p, hp, res2, hres2, hmem⟩
      · simp only [StakedArrays.concat, List.mem_append] at h1
        rcases h1 with h1 | h1
        · left; exact h1
        · right; exact ⟨(startId, endId), List.mem_cons_self _ _, res, hr, h1⟩
      · right; exact ⟨p, List.mem_cons_of_mem _ hp, res2, hres2, hmem⟩

theorem batchLoop_ids (remote : Remote) (user : String) (bs : List (List Nat))
    (acc : RegularArrays) (id : Nat) (hid : id ∈ (batchLoop remote user bs acc).ids) :
    id ∈ acc.ids ∨ ∃ b ∈ bs, ∃ res,
      remote.findUserTokenIdswithMinimumIndividual user b = .ok res ∧ id ∈ res.ids := by
  induction bs generalizing acc with
  | nil => left; exact hid
  | cons b rest ih =>
    unfold batchLoop at hid
    cases hr : remote.findUserTokenIdswithMinimumIndividual user b with
    | error e =>
      simp only [hr] at hid
      rcases ih _ hid with h1 | ⟨b2, hb2, res2, hres2, hmem⟩
      · left; exact h1
      · right; exact ⟨b2, List.mem_cons_of_mem _ hb2, res2, hres2, hmem⟩
    | ok res =>
      simp only [hr] at hid
      rcases ih _ hid with h1 | ⟨b2, hb2, res2, hres2, hmem⟩
      · simp only [RegularArrays.prepend, List.mem_append] at h1
        rcases h1 with h1 | h1
        · right; exact ⟨b, List.mem_cons_self _ _, res, hr, h1⟩
        · left; exact h1
      · right; exact ⟨b2, List.mem_cons_of_mem _ hb2, res2, hres2, hmem⟩

theorem regularPhase_positionData_congr (h : Helpers) (remote : Remote) (user : String)
    (st st2 : ModuleState) (hc : st.positionData = st2.positionData) :
    (regularPhase h remote user st).1.positionData
      = (regularPhase h remote user st2).1.positionData := by
  unfold regularPhase
  cases remote.getNFTOwners with
  | error e => exact hc
  | ok owners =>
    simp only
    split
    · exact hc
    · simp only [processRegularAll]
      rw [foldl_processRegular_positionData, foldl_processRegular_positionData, hc]

theorem regularPhase_keys (h : Helpers) (remote : Remote) (user : String) (st : ModuleState)
    (key : String) (hk : key ∈ (regularPhase h remote user st).1.positionData.keys) :
    key ∈ st.positionData.keys ∨ ∃ b ∈ passBatches remote user, ∃ res,
      remote.findUserTokenIdswithMinimumIndividual user b = .ok res ∧
      ∃ id ∈ res.ids, key = "position_" ++ toString id := by
  unfold regularPhase at hk
  unfold passBatches
  cases hown : remote.getNFTOwners with
  | error e =>
    simp only [hown] at hk
    left; exact hk
  | ok owners =>
    simp only [hown] at hk
    split at hk
    · left; exact hk
    · rcases keys_processRegularAll h _ st key hk with h1 | ⟨id, hid, hkey⟩
      · left; exact h1
      · rcases batchLoop_ids remote user _ _ id hid with h2 | ⟨b, hb, res, hres, hmem⟩
        · simp [RegularArrays.empty] at h2
        · right; exact ⟨b, hb, res, hres, id, hmem, hkey⟩

theorem passScan_congr (remote : Remote) (user owner : String) (st st2 : ModuleState)
    (hc : st.WhereToStartSearchStaked = st2.WhereToStartSearchStaked) :
    passScan remote user owner st = passScan remote user owner st2 := by
  unfold passScan passPlan
  rw [hc]

/-- C18: after a pass every key of `stakingPositionData` is
`stake_position_<id>` for an id returned by a staked page query of this pass,
every key of `positionData` is `position_<id>` for an id returned by a detail
query of this pass, and both maps are the same whatever the two maps held
before the pass (a pass started on seeded maps `seed1`, `seed2` ends with the
maps of the pass started on the given state): nothing seeded before survives. -/
theorem C18_full_invalidation (h : Helpers) (remote : Remote) (user owner : String)
    (st0 : ModuleState) (seed1 : Cache Position) (seed2 : Cache StakedPosition) :
    (∀ key ∈ (getTokenIDsOwnedByUser h remote user owner st0).stakingPositionData.keys,
      ∃ p ∈ passPlan remote user st0, ∃ res,
        remote.getIDSofStakedTokensForUserwithMinimum owner p.1 = .ok res ∧
        ∃ id ∈ res.arrays.ids, key = "stake_position_" ++ toString id) ∧
    (∀ key ∈ (getTokenIDsOwnedByUser h remote user owner st0).positionData.keys,
      ∃ b ∈ passBatches remote user, ∃ res,
        remote.findUserTokenIdswithMinimumIndividual user b = .ok res ∧
        ∃ id ∈ res.ids, key = "position_" ++ toString id) ∧
    (getTokenIDsOwnedByUser h remote user owner
        { st0 with positionData := seed1, stakingPositionData := seed2 }).positionData
      = (getTokenIDsOwnedByUser h remote user owner st0).positionData ∧
    (getTokenIDsOwnedByUser h remote user owner
        { st0 with positionData := seed1, stakingPositionData := seed2 }).stakingPositionData
      = (getTokenIDsOwnedByUser h remote user owner st0).stakingPositionData := by
  obtain ⟨hnone, hsome⟩ := pass_fields h remote user owner st0
  obtain ⟨hnone2, hsome2⟩ := pass_fields h remote user owner
    { st0 with positionData := seed1, stakingPositionData := seed2 }
  have hscan : passScan remote user owner
      { st0 with positionData := seed1, stakingPositionData := seed2 }
      = passScan remote user owner st0 := passScan_congr _ _ _ _ _ rfl
  rw [hscan] at hnone2 hsome2
  cases hp : passScan remote user owner st0 with
  | none =>
    obtain ⟨a1, a2, _, _⟩ := hnone hp
    obtain ⟨b1, b2, _, _⟩ := hnone2 hp
    refine ⟨?_, ?_, by rw [a1, b1], by rw [a2, b2]⟩
    · intro key hk
      rw [a2] at hk
      simp [Cache.keys] at hk
    · intro key hk
      rw [a1] at hk
      simp [Cache.keys] at hk
  | some scan =>
    obtain ⟨a1, _, _, lock, a4⟩ := hsome scan hp
    obtain ⟨b1, _, _, lock2, b4⟩ := hsome2 scan hp
    refine ⟨?_, ?_, ?_, by rw [a1, b1]⟩
    · intro key hk
      rw [a1] at hk
      obtain ⟨id, hid, hkey⟩ := keys_processStakedAll h scan.acc key hk
      unfold passScan at hp
      rcases stakedScan_ids remote owner _ _ _ hp id hid with h1 | ⟨p, hpl, res, hres, hmem⟩
      · simp [StakedScan.start, StakedArrays.empty] at h1
      · exact ⟨p, hpl, res, hres, id, hmem, hkey⟩
    · intro key hk
      rw [a4] at hk
      rcases regularPhase_keys h remote user _ key hk with h1 | h2
      · simp [Cache.keys] at h1
      · exact h2
    · rw [a4, b4]
      exact regularPhase_positionData_congr h remote user _ _ rfl

/-! ## Re-entry and lock release -/

set_option maxRecDepth 100000 in
/-- C11 as stated is false: an invocation of `increaseLiquidity` (and one of
`decreaseLiquidity`) that starts while the lock of its button is held still
sends a `modifyLiquidities` transaction. -/
theorem C11_counterexample :
    isEnabled (exLockedState "increaseLiquidityBtn").lock "increaseLiquidityBtn" = false ∧
    (increaseLiquidity exConfig exIncreaseEnv exHelpers exFailingRemote
        (Wallet.connected "0xuser") exIncreaseInput
        (exLockedState "increaseLiquidityBtn")).calls
      = [{ actions := [0x00, 0x0d],
           params := [Param.modify "7" 5 1000 1000, Param.currencyPair "0xaaa" "0xbbb"] }] ∧
    isEnabled (exLockedState "decreaseLiquidityBtn").lock "decreaseLiquidityBtn" = false ∧
    (decreaseLiquidity exConfig (exDecreaseEnv (.ok (100, 200))) (Wallet.connected "0xuser") exDecreaseInput
        (exLockedState "decreaseLiquidityBtn")).calls
      = [{ actions := [0x01, 0x11],
           params := [Param.modify "7" 500 100 200,
                      Param.takePair "0xaaa" "0xbbb" "0xuser"] }] := by
  decide

/-- The position cache a pass leaves does not depend on the lock bits it
starts with. -/
theorem pass_positionData_lock (h : Helpers) (remote : Remote) (user owner : String)
    (st0 : ModuleState) (l : LockState) :
    (getTokenIDsOwnedByUser h remote user owner { st0 with lock := l }).positionData
      = (getTokenIDsOwnedByUser h remote user owner st0).positionData := by
  obtain ⟨hnone, hsome⟩ := pass_fields h remote user owner st0
  obtain ⟨hnone2, hsome2⟩ := pass_fields h remote user owner { st0 with lock := l }
  have hscan : passScan remote user owner { st0 with lock := l }
      = passScan remote user owner st0 := passScan_congr _ _ _ _ _ rfl
  rw [hscan] at hnone2 hsome2
  cases hp : passScan remote user owner st0 with
  | none => rw [(hnone hp).1, (hnone2 hp).1]
  | some scan =>
    obtain ⟨_, _, _, lock1, e1⟩ := hsome scan hp
    obtain ⟨_, _, _, lock2, e2⟩ := hsome2 scan hp
    rw [e1, e2]
    exact regularPhase_positionData_congr h remote user _ _ rfl

/-- The cache and the address `connectWallet` leaves do not depend on the lock
bits, when the two reset functions leave the module state as it is. -/
theorem connectWallet_lock (h : Helpers) (remote : Remote) (accountChanged : Bool)
    (account : String) (s : ModuleState) (l : LockState) :
    (connectWallet h remote id id accountChanged account { s with lock := l }).1.positionData
      = (connectWallet h remote id id accountChanged account s).1.positionData ∧
    (connectWallet h remote id id accountChanged account { s with lock := l }).2
      = (connectWallet h remote id id accountChanged account s).2 := by
  refine ⟨?_, rfl⟩
  unfold connectWallet
  simp only [id, ite_self]
  rw [(loadPositions_frame _).1, (loadPositions_frame _).1]
  exact pass_positionData_lock h remote account account s l

/-- The calls of `increaseLiquidity` are determined by the cache entry of the
selection after the entry steps. -/
theorem increaseLiquidity_calls_congr (cfg : TokenConfig) (env : IncreaseEnv) (h : Helpers)
    (remote : Remote) (w1 w2 : Wallet) (inp : IncreaseInput) (s1 s2 : ModuleState)
    (hget : (ensureConnected w1 (takeLock s1 "increaseLiquidityBtn")).1.positionData.get
        inp.selectedPositionId
      = (ensureConnected w2 (takeLock s2 "increaseLiquidityBtn")).1.positionData.get
        inp.selectedPositionId) :
    (increaseLiquidity cfg env h remote w1 inp s1).calls
      = (increaseLiquidity cfg env h remote w2 inp s2).calls := by
  unfold increaseLiquidity
  simp only
  rw [hget]
  cases (ensureConnected w2 (takeLock s2 "increaseLiquidityBtn")).1.positionData.get
      inp.selectedPositionId with
  | none => rfl
  | some position =>
    simp only
    cases increaseAmounts env inp position with
    | error e => rfl
    | ok v =>
      obtain ⟨a, b, c, d⟩ := v
      simp only
      split <;> (try rfl)
      split <;> (try rfl)
      split <;> rfl

/-- The calls of `decreaseLiquidity` are determined by the cache entry of the
selection and the connected address after the entry step. -/
theorem decreaseLiquidity_calls_congr (cfg : TokenConfig) (env : DecreaseEnv)
    (w1 w2 : Wallet) (inp : DecreaseInput) (s1 s2 : ModuleState)
    (hget : (ensureConnected w1 s1).1.positionData.get inp.selectedPositionId
      = (ensureConnected w2 s2).1.positionData.get inp.selectedPositionId)
    (haddr : (ensureConnected w1 s1).2 = (ensureConnected w2 s2).2) :
    (decreaseLiquidity cfg env w1 inp s1).calls = (decreaseLiquidity cfg env w2 inp s2).calls := by
  unfold decreaseLiquidity takeLock
  simp only
  rw [hget, haddr]
  cases (ensureConnected w2 s2).1.positionData.get inp.selectedPositionId with
  | none => rfl
  | some position =>
    simp only
    split <;> (try rfl)
    split <;> (try rfl)
    split <;> rfl

/-- C11 (amended): when the lock of the button is held, the entry step
`disableButtonWithSpinner` leaves the lock state as it is, and the invocation
is not stopped: with any lock state it makes the same `modifyLiquidities`
calls as with any other lock state, so the second of two overlapping
invocations sends its transaction as well.  (When the wallet is not connected
the invocation first awaits `connectWallet`; the cache and the address that
call leaves are taken not to depend on the lock bits, as is the case for the
reader pass it runs.) -/
theorem C11_lock_does_not_gate (cfg : TokenConfig) (ienv : IncreaseEnv) (denv : DecreaseEnv)
    (h : Helpers) (remote : Remote) (wallet : Wallet) (iinp : IncreaseInput)
    (dinp : DecreaseInput) (st : ModuleState) (lock2 : LockState)
    (hconn : wallet.walletConnected = false → ∀ (s : ModuleState) (l : LockState),
      (wallet.connectWallet { s with lock := l }).1.positionData
        = (wallet.connectWallet s).1.positionData ∧
      (wallet.connectWallet { s with lock := l }).2 = (wallet.connectWallet s).2) :
    (∀ id msg, isEnabled st.lock id = false → disableButtonWithSpinner st.lock id msg = st.lock) ∧
    (increaseLiquidity cfg ienv h remote wallet iinp { st with lock := lock2 }).calls
      = (increaseLiquidity cfg ienv h remote wallet iinp st).calls ∧
    (decreaseLiquidity cfg denv wallet dinp { st with lock := lock2 }).calls
      = (decreaseLiquidity cfg denv wallet dinp st).calls := by
  have hentry : ∀ (s : ModuleState) (l : LockState),
      (ensureConnected wallet { s with lock := l }).1.positionData
        = (ensureConnected wallet s).1.positionData ∧
      (ensureConnected wallet { s with lock := l }).2 = (ensureConnected wallet s).2 := by
    intro s l
    unfold ensureConnected
    cases hw : wallet.walletConnected with
    | true => exact ⟨rfl, rfl⟩
    | false => exact hconn hw s l
  refine ⟨?_, ?_, ?_⟩
  · intro id msg hheld
    unfold disableButtonWithSpinner
    simp [hheld]
  · apply increaseLiquidity_calls_congr
    have e1 := (hentry st
      (disableButtonWithSpinner lock2 "increaseLiquidityBtn" spinnerMsg)).1
    have e2 := (hentry st
      (disableButtonWithSpinner st.lock "increaseLiquidityBtn" spinnerMsg)).1
    exact congrArg (fun c => Cache.get c iinp.selectedPositionId) (e1.trans e2.symm)
  · apply decreaseLiquidity_calls_congr
    · rw [(hentry st lock2).1]
    · rw [(hentry st lock2).2]

set_option maxRecDepth 100000 in
/-- Witness of C11: the held lock of `increaseLiquidityBtn` is left as it is
by the entry step, and an increase started with the wallet not connected makes
the same calls whether the lock is held or free. -/
theorem C11_lock_does_not_gate_witness :
    disableButtonWithSpinner (exLockedState "increaseLiquidityBtn").lock "increaseLiquidityBtn"
        spinnerMsg = (exLockedState "increaseLiquidityBtn").lock ∧
    (increaseLiquidity exConfig exIncreaseEnv exHelpers exRemote exDisconnectedWallet
        exIncreaseInput
        { exLockedState "increaseLiquidityBtn" with lock := LockState.initial }).calls
      = (increaseLiquidity exConfig exIncreaseEnv exHelpers exRemote exDisconnectedWallet
          exIncreaseInput (exLockedState "increaseLiquidityBtn")).calls := by
  have hw := C11_lock_does_not_gate exConfig exIncreaseEnv (exDecreaseEnv (.ok (100, 200)))
    exHelpers exRemote exDisconnectedWallet exIncreaseInput exDecreaseInput
    (exLockedState "increaseLiquidityBtn") LockState.initial
    (fun _ s l => connectWallet_lock exHelpers exRemote true "0xuser" s l)
  exact ⟨hw.1 "increaseLiquidityBtn" spinnerMsg (by decide), hw.2.1⟩

set_option maxRecDepth 100000 in
/-- C12 (fails on the code): with the locks free and a selection that is not
in the cache, `increaseLiquidity` and `decreaseLiquidity` acquire the lock and
return at `if (!position) return;` without a transaction and with the lock
still held. -/
theorem C12_lock_kept_when_position_missing :
    isEnabled exState.lock "increaseLiquidityBtn" = true ∧
    (increaseLiquidity exConfig exIncreaseEnv exHelpers exFailingRemote
        (Wallet.connected "0xuser")
        ⟨"B0x", "0xBTC", "1000", "1000", "position_9"⟩ exState).exit = Exit.noPosition ∧
    (increaseLiquidity exConfig exIncreaseEnv exHelpers exFailingRemote
        (Wallet.connected "0xuser")
        ⟨"B0x", "0xBTC", "1000", "1000", "position_9"⟩ exState).calls = [] ∧
    isEnabled (increaseLiquidity exConfig exIncreaseEnv exHelpers exFailingRemote
        (Wallet.connected "0xuser")
        ⟨"B0x", "0xBTC", "1000", "1000", "position_9"⟩ exState).state.lock
      "increaseLiquidityBtn" = false ∧
    isEnabled exState.lock "decreaseLiquidityBtn" = true ∧
    (decreaseLiquidity exConfig (exDecreaseEnv (.ok (100, 200))) (Wallet.connected "0xuser")
        ⟨50, 0, 1, "position_9"⟩ exState).exit = Exit.noPosition ∧
    isEnabled (decreaseLiquidity exConfig (exDecreaseEnv (.ok (100, 200))) (Wallet.connected "0xuser")
        ⟨50, 0, 1, "position_9"⟩ exState).state.lock "decreaseLiquidityBtn" = false := by
  decide

set_option maxRecDepth 100000 in
/-- C13 (fails on the code): when the quote call throws, `decreaseLiquidity`
goes on, sends `modifyLiquidities` with both minimum amounts 0, shows no
error, and ends as a confirmed transaction. -/
theorem C13_quote_failure_still_submits :
    (decreaseLiquidity exConfig (exDecreaseEnv (.error "quote failed"))
        (Wallet.connected "0xuser")
        exDecreaseInput exState).calls
      = [{ actions := [0x01, 0x11],
           params := [Param.modify "7" 500 0 0, Param.takePair "0xaaa" "0xbbb" "0xuser"] }] ∧
    (decreaseLiquidity exConfig (exDecreaseEnv (.error "quote failed"))
        (Wallet.connected "0xuser")
        exDecreaseInput exState).errors = [] ∧
    (decreaseLiquidity exConfig (exDecreaseEnv (.error "quote failed"))
        (Wallet.connected "0xuser")
        exDecreaseInput exState).exit = Exit.confirmed := by
  decide

/-! ## Reader: cursors and page failures -/

theorem stakedScan_last (remote : Remote) (owner : String) (pages : List (Int × Int))
    (s s2 : StakedScan) (hs : stakedScan remote owner pages s = some s2) :
    s2.lastSpotTosetStartSearchAt
      = if s.lastSpotTosetStartSearchAt = -1
        then (firstReported remote owner pages).getD (-1)
        else s.lastSpotTosetStartSearchAt := by
  induction pages generalizing s with
  | nil =>
    simp only [stakedScan, Option.some.injEq] at hs
    subst hs
    simp only [firstReported, Option.getD_none]
    split
    · assumption
    · rfl
  | cons p rest ih =>
    obtain ⟨startId, endId⟩ := p
    unfold stakedScan at hs
    cases hr : remote.getIDSofStakedTokensForUserwithMinimum owner startId with
    | error e => simp [hr] at hs
    | ok res =>
      simp only [hr] at hs
      rw [ih _ hs]
      simp only [firstReported, hr]
      by_cases h1 : s.lastSpotTosetStartSearchAt = -1
      · simp only [h1, if_true]
        by_cases h2 : res.startCountAt = -1
        · simp [h2]
        · simp [h2]
      · simp [h1]

theorem firstReported_mem (remote : Remote) (owner : String) (pages : List (Int × Int))
    (c : Int) (hc : firstReported remote owner pages = some c) :
    c ≠ -1 ∧ ∃ p ∈ pages, ∃ res,
      remote.getIDSofStakedTokensForUserwithMinimum owner p.1 = .ok res ∧
      res.startCountAt = c := by
  induction pages with
  | nil => simp [firstReported] at hc
  | cons p rest ih =>
    unfold firstReported at hc
    cases hr : remote.getIDSofStakedTokensForUserwithMinimum owner p.1 with
    | error e =>
      simp only [hr] at hc
      obtain ⟨h1, q, hq, res, hres, hcq⟩ := ih hc
      exact ⟨h1, q, List.mem_cons_of_mem _ hq, res, hres, hcq⟩
    | ok res =>
      simp only [hr] at hc
      by_cases h2 : res.startCountAt = -1
      · simp only [h2, if_true] at hc
        obtain ⟨h1, q, hq, res2, hres, hcq⟩ := ih hc
        exact ⟨h1, q, List.mem_cons_of_mem _ hq, res2, hres, hcq⟩
      · simp only [h2, if_false, Option.some.injEq] at hc
        subst hc
        exact ⟨h2, p, List.mem_cons_self _ _, res, hr, rfl⟩

/-- When a staked page query throws, the pass ends there with both caches
empty and both cursors as they were. -/
theorem pass_aborted (h : Helpers) (remote : Remote) (user owner : String) (st0 : ModuleState)
    (hnone : passScan remote user owner st0 = none) :
    (getTokenIDsOwnedByUser h remote user owner st0).positionData = [] ∧
    (getTokenIDsOwnedByUser h remote user owner st0).stakingPositionData = [] ∧
    (getTokenIDsOwnedByUser h remote user owner st0).WhereToStartSearch
      = st0.WhereToStartSearch ∧
    (getTokenIDsOwnedByUser h remote user owner st0).WhereToStartSearchStaked
      = st0.WhereToStartSearchStaked :=
  (pass_fields h remote user owner st0).1 hnone

set_option maxRecDepth 100000 in
/-- C14 (fails on the code): with a maximum staked id of 1500 the pass plans
the pages [0, 999] and [1000, 1500]; page 0 returns record 42 and page 1
throws.  When the pass returns, `stakingPositionData` is empty: the record of
page 0 has no entry `stake_position_42`. -/
theorem C14_earlier_pages_dropped :
    passPlan exRemotePageFails "0xuser" ModuleState.initial = [(0, 999), (1000, 1500)] ∧
    exRemotePageFails.getIDSofStakedTokensForUserwithMinimum "0xuser" 0
      = .ok ⟨StakedArrays.ofRecords [exStakedRecord], 500⟩ ∧
    exRemotePageFails.getIDSofStakedTokensForUserwithMinimum "0xuser" 1000 = .error "rpc" ∧
    (getTokenIDsOwnedByUser exHelpers exRemotePageFails "0xuser" "0xuser"
        ModuleState.initial).stakingPositionData = [] ∧
    (getTokenIDsOwnedByUser exHelpers exRemotePageFails "0xuser" "0xuser"
        ModuleState.initial).stakingPositionData.get "stake_position_42" = none := by
  decide

set_option maxRecDepth 100000 in
/-- C16 (fails on the code): in the pass where page 0 reports the next index
500 and page 1 throws, a fetched page reported a next-cursor value, yet the
pass returns at the failing page before the cursor update and the cursor
stays 0 instead of max(0, 500 - 1) = 499. -/
theorem C16_cursor_kept_when_page_throws :
    passPlan exRemotePageFails "0xuser" ModuleState.initial = [(0, 999), (1000, 1500)] ∧
    exRemotePageFails.getIDSofStakedTokensForUserwithMinimum "0xuser" 0
      = .ok ⟨StakedArrays.ofRecords [exStakedRecord], 500⟩ ∧
    exRemotePageFails.getIDSofStakedTokensForUserwithMinimum "0xuser" 1000 = .error "rpc" ∧
    firstReported exRemotePageFails "0xuser"
        (passPlan exRemotePageFails "0xuser" ModuleState.initial) = some 500 ∧
    (getTokenIDsOwnedByUser exHelpers exRemotePageFails "0xuser" "0xuser"
        ModuleState.initial).WhereToStartSearchStaked = 0 ∧
    (getTokenIDsOwnedByUser exHelpers exRemotePageFails "0xuser" "0xuser"
        ModuleState.initial).WhereToStartSearchStaked ≠ max 0 (500 - 1) := by
  decide

/-- The staked cursor after a pass whose page queries all resolve. -/
theorem stakedCursor_after_pass (h : Helpers) (remote : Remote) (user owner : String)
    (st0 : ModuleState) (scan : StakedScan) (hscan : passScan remote user owner st0 = some scan) :
    (firstReported remote owner (passPlan remote user st0) = none →
      (getTokenIDsOwnedByUser h remote user owner st0).WhereToStartSearchStaked
        = st0.WhereToStartSearchStaked) ∧
    (∀ c, firstReported remote owner (passPlan remote user st0) = some c →
      (getTokenIDsOwnedByUser h remote user owner st0).WhereToStartSearchStaked
        = max 0 (c - 1)) ∧
    (0 ≤ st0.WhereToStartSearchStaked →
      0 ≤ (getTokenIDsOwnedByUser h remote user owner st0).WhereToStartSearchStaked) ∧
    (firstReported remote owner (passPlan remote user st0) = some 0 →
      (getTokenIDsOwnedByUser h remote user owner st0).WhereToStartSearchStaked = 0) := by
  obtain ⟨_, hcur, _, _⟩ := (pass_fields h remote user owner st0).2 scan hscan
  have hlast := stakedScan_last remote owner _ _ _ hscan
  simp only [StakedScan.start, if_true] at hlast
  rw [hcur, hlast]
  have hnone : firstReported remote owner (passPlan remote user st0) = none →
      updateStakedCursor ((firstReported remote owner (passPlan remote user st0)).getD (-1))
        st0.WhereToStartSearchStaked = st0.WhereToStartSearchStaked := by
    intro h0
    rw [h0]
    simp [updateStakedCursor]
  have hsome : ∀ c, firstReported remote owner (passPlan remote user st0) = some c →
      updateStakedCursor ((firstReported remote owner (passPlan remote user st0)).getD (-1))
        st0.WhereToStartSearchStaked = max 0 (c - 1) := by
    intro c h0
    have hne := (firstReported_mem remote owner _ c h0).1
    rw [h0]
    simp only [Option.getD_some, updateStakedCursor, ne_eq, hne, not_false_eq_true, if_true]
    split <;> omega
  refine ⟨hnone, hsome, ?_, ?_⟩
  · intro h0
    cases hf : firstReported remote owner (passPlan remote user st0) with
    | none => rw [← hf, hnone hf]; exact h0
    | some c => rw [← hf, hsome c hf]; exact le_max_left _ _
  · intro h0
    rw [hsome 0 h0]
    decide


set_option maxRecDepth 100000 in
/-- C17 as stated is false: a pass that starts with the staked cursor at 500
and whose pages report the next index 10 ends with the cursor at 9. -/
theorem C17_counterexample :
    exStateCursor500.WhereToStartSearchStaked = 500 ∧
    (getTokenIDsOwnedByUser exHelpers exRemote "0xuser" "0xuser"
        exStateCursor500).WhereToStartSearchStaked = 9 ∧
    ¬ (exStateCursor500.WhereToStartSearchStaked
        ≤ (getTokenIDsOwnedByUser exHelpers exRemote "0xuser" "0xuser"
            exStateCursor500).WhereToStartSearchStaked) := by
  decide

/-- C17 (amended): `WhereToStartSearch` is never smaller after a pass than
before it; `WhereToStartSearchStaked` is after a pass either what it was or
max(0, c - 1) for a next index c reported by a page of that pass, whatever its
previous value, so it does not decrease exactly when c - 1 is not below it. -/
theorem C17_cursor_progress (h : Helpers) (remote : Remote) (user owner : String)
    (st0 : ModuleState) :
    st0.WhereToStartSearch ≤ (getTokenIDsOwnedByUser h remote user owner st0).WhereToStartSearch ∧
    ((getTokenIDsOwnedByUser h remote user owner st0).WhereToStartSearchStaked
        = st0.WhereToStartSearchStaked ∨
      ∃ p ∈ passPlan remote user st0, ∃ res,
        remote.getIDSofStakedTokensForUserwithMinimum owner p.1 = .ok res ∧
        (getTokenIDsOwnedByUser h remote user owner st0).WhereToStartSearchStaked
          = max 0 (res.startCountAt - 1)) := by
  obtain ⟨hnone, hsome⟩ := pass_fields h remote user owner st0
  cases hp : passScan remote user owner st0 with
  | none =>
    obtain ⟨_, _, a3, a4⟩ := hnone hp
    exact ⟨le_of_eq a3.symm, Or.inl a4⟩
  | some scan =>
    obtain ⟨_, _, a3, _⟩ := hsome scan hp
    refine ⟨a3, ?_⟩
    obtain ⟨c1, c2, _, _⟩ := stakedCursor_after_pass h remote user owner st0 scan hp
    cases hf : firstReported remote owner (passPlan remote user st0) with
    | none => exact Or.inl (c1 hf)
    | some c =>
      obtain ⟨_, p, hpl, res, hres, hc⟩ := firstReported_mem remote owner _ c hf
      right
      exact ⟨p, hpl, res, hres, by rw [c2 c hf, hc]⟩

/-! ## Reader: well-formed results, record by record -/

theorem regularArrays_ofRecords_append (rs acc : List RegularRecord) :
    (RegularArrays.ofRecords acc).prepend (RegularArrays.ofRecords rs)
      = RegularArrays.ofRecords (rs ++ acc) := by
  simp [RegularArrays.ofRecords, RegularArrays.prepend]

theorem stakedArrays_ofRecords_append (acc rs : List StakedRecord) :
    (StakedArrays.ofRecords acc).concat (StakedArrays.ofRecords rs)
      = StakedArrays.ofRecords (acc ++ rs) := by
  simp [StakedArrays.ofRecords, StakedArrays.concat]

theorem batchLoop_ofRecords (remote : Remote) (user : String)
    (recs : List Nat → List RegularRecord) (bs : List (List Nat))
    (hwf : ∀ b ∈ bs, ∀ res, remote.findUserTokenIdswithMinimumIndividual user b = .ok res →
      res = RegularArrays.ofRecords (recs b))
    (acc : List RegularRecord) :
    batchLoop remote user bs (RegularArrays.ofRecords acc)
      = RegularArrays.ofRecords (fetchedRegular remote user recs bs acc) := by
  induction bs generalizing acc with
  | nil => rfl
  | cons b rest ih =>
    have hwf' : ∀ b ∈ rest, ∀ res,
        remote.findUserTokenIdswithMinimumIndividual user b = .ok res →
        res = RegularArrays.ofRecords (recs b) :=
      fun b2 hb2 => hwf b2 (List.mem_cons_of_mem _ hb2)
    unfold batchLoop fetchedRegular
    cases hr : remote.findUserTokenIdswithMinimumIndividual user b with
    | error e =>
      simp only
      exact ih hwf' acc
    | ok res =>
      simp only
      rw [hwf b (List.mem_cons_self _ _) res hr, regularArrays_ofRecords_append]
      exact ih hwf' _

theorem mem_fetchedRegular (remote : Remote) (user : String)
    (recs : List Nat → List RegularRecord) (bs : List (List Nat)) (acc : List RegularRecord)
    (r : RegularRecord) :
    r ∈ fetchedRegular remote user recs bs acc ↔
      r ∈ acc ∨ ∃ b ∈ bs,
        resolved (remote.findUserTokenIdswithMinimumIndividual user b) = true ∧ r ∈ recs b := by
  induction bs generalizing acc with
  | nil => simp [fetchedRegular]
  | cons b rest ih =>
    unfold fetchedRegular
    cases hr : remote.findUserTokenIdswithMinimumIndividual user b with
    | error e =>
      simp only [ih, List.mem_cons, exists_eq_or_imp, hr, resolved]
      simp
    | ok res =>
      simp only [ih, List.mem_cons, exists_eq_or_imp, hr, resolved, List.mem_append, true_and]
      tauto

theorem foldl_regular_positionData (h : Helpers) (rs : List RegularRecord) (st : ModuleState) :
    (rs.foldl (fun s r =>
        { s with positionData := s.positionData.setOpt (regularWrite h r),
                 WhereToStartSearch := raiseSearchStart s.WhereToStartSearch r }) st).positionData
      = rs.foldl (fun c r => c.setOpt (regularWrite h r)) st.positionData := by
  induction rs generalizing st with
  | nil => rfl
  | cons r rest ih => rw [List.foldl_cons, List.foldl_cons, ih]

/-- What the regular loop body writes for a record: the key `position_<id>`
and the entry, exactly when the decoded range is the full range and the
formatting does not throw. -/
theorem regularWrite_iff (h : Helpers) (r : RegularRecord) (key : String) (e : Position) :
    regularWrite h r = some (key, e) ↔
      key = "position_" ++ toString r.tokenId ∧
      TOtickLower r.poolInfo = -887220 ∧ TOtickUpper r.poolInfo = 887220 ∧
      ∃ f, regularFields h (RegularArrays.ofRecords [r]) 0 r.poolKey = .ok f ∧
        e = regularPosition key f r.liquidity := by
  unfold regularWrite regularEntry
  simp only [RegularArrays.ofRecords, List.map_cons, List.map_nil, List.getElem?_cons_zero,
    definedOrThrow]
  cases hf : regularFields h (RegularArrays.ofRecords [r]) 0 r.poolKey with
  | error x =>
    simp only [RegularArrays.ofRecords, List.map_cons, List.map_nil] at hf
    simp [hf]
  | ok f =>
    simp only [RegularArrays.ofRecords, List.map_cons, List.map_nil] at hf
    simp only [hf]
    by_cases hfull : TOtickUpper r.poolInfo = 887220 ∧ TOtickLower r.poolInfo = -887220
    · simp only [hfull, and_self, if_true, Option.some.injEq, Prod.mk.injEq, true_and,
        Except.ok.injEq, exists_eq_left']
      constructor
      · rintro ⟨h1, h2⟩
        exact ⟨h1.symm, by rw [← h2, ← h1]⟩
      · rintro ⟨h1, h2⟩
        exact ⟨h1.symm, by rw [h2, h1]⟩
    · simp only [hfull, if_false]
      constructor
      · intro hc
        exact absurd hc (by simp)
      · rintro ⟨_, h2, h3, _⟩
        exact absurd ⟨h3, h2⟩ hfull

theorem batchesFuel_nil (fuel : Nat) : batchesFuel fuel [] = [] := by
  cases fuel <;> simp [batchesFuel]

/-- In a pass that reaches the regular scan (no staked page query throws) and
whose detail results are well formed (`recs b` are the records of the result
of batch `b`), whatever batches throw, `positionData` holds a key exactly for
the full-range records returned by the batches that did not throw (and whose
formatting does not throw): the key `position_<tokenId>`. -/
theorem regular_scan_keys (h : Helpers) (remote : Remote) (user owner : String)
    (st0 : ModuleState) (recs : List Nat → List RegularRecord) (scan : StakedScan)
    (hscan : passScan remote user owner st0 = some scan)
    (hwf : ∀ b ∈ passBatches remote user, ∀ res,
      remote.findUserTokenIdswithMinimumIndividual user b = .ok res →
      res = RegularArrays.ofRecords (recs b))
    (key : String) :
    key ∈ (getTokenIDsOwnedByUser h remote user owner st0).positionData.keys ↔
      ∃ b ∈ passBatches remote user,
        resolved (remote.findUserTokenIdswithMinimumIndividual user b) = true ∧
        ∃ r ∈ recs b, key = "position_" ++ toString r.tokenId ∧
          TOtickLower r.poolInfo = -887220 ∧ TOtickUpper r.poolInfo = 887220 ∧
          resolved (regularFields h (RegularArrays.ofRecords [r]) 0 r.poolKey) = true := by
  obtain ⟨_, _, _, lock, hpd⟩ := (pass_fields h remote user owner st0).2 scan hscan
  rw [hpd]
  unfold regularPhase
  unfold passBatches at hwf ⊢
  cases hown : remote.getNFTOwners with
  | error e => simp [Cache.keys]
  | ok owners =>
    simp only [hown] at hwf ⊢
    by_cases hempty : (userTokenIdsOf owners user).length = 0
    · have hnil : userTokenIdsOf owners user = [] := List.length_eq_zero.mp hempty
      simp only [hempty, if_true, loadPositionsIntoDappSelections]
      rw [hnil]
      simp [Cache.keys, batches, batchesFuel_nil]
    · simp only [hempty, if_false]
      have hacc := batchLoop_ofRecords remote user recs _ hwf []
      have he : RegularArrays.ofRecords [] = RegularArrays.empty := rfl
      rw [he] at hacc
      rw [hacc, processRegularAll_ofRecords, foldl_regular_positionData,
        Cache.mem_keys_foldl_setOpt]
      simp only [Cache.keys, List.map_nil, List.not_mem_nil, false_or]
      constructor
      · rintro ⟨r, hr, e, hw⟩
        rw [mem_fetchedRegular] at hr
        rcases hr with hr | ⟨b, hb, hres, hrb⟩
        · simp at hr
        · obtain ⟨h1, h2, h3, f, hf, _⟩ := (regularWrite_iff h r key e).mp hw
          exact ⟨b, hb, hres, r, hrb, h1, h2, h3, by rw [hf]; rfl⟩
      · rintro ⟨b, hb, hres, r, hrb, h1, h2, h3, hf⟩
        cases hfe : regularFields h (RegularArrays.ofRecords [r]) 0 r.poolKey with
        | error x => rw [hfe] at hf; simp [resolved] at hf
        | ok f =>
          refine ⟨r, ?_, regularPosition key f r.liquidity, ?_⟩
          · rw [mem_fetchedRegular]
            right; exact ⟨b, hb, hres, hrb⟩
          · exact (regularWrite_iff h r key _).mpr ⟨h1, h2, h3, f, hfe, rfl⟩

set_option maxRecDepth 100000 in
/-- C15 (fails on the code): the connected address owns token 7, its one batch
`[7]` resolves with the full-range record 7, and the staked page at 1000
throws.  The pass returns at the failing page, before the regular scan, and
`positionData` is empty; with the same detail responses and every staked page
resolving it holds `position_7`. -/
theorem C15_positions_dropped_when_page_throws :
    exRemotePageFails.getNFTOwners = .ok [(7, "0xuser"), (8, "0xother")] ∧
    batches (userTokenIdsOf [(7, "0xuser"), (8, "0xother")] "0xuser") = [[7]] ∧
    exRemotePageFails.findUserTokenIdswithMinimumIndividual "0xuser" [7]
      = .ok (RegularArrays.ofRecords [exRegularRecord]) ∧
    TOtickLower exRegularRecord.poolInfo = -887220 ∧
    TOtickUpper exRegularRecord.poolInfo = 887220 ∧
    exRemotePageFails.getIDSofStakedTokensForUserwithMinimum "0xuser" 1000 = .error "rpc" ∧
    (getTokenIDsOwnedByUser exHelpers exRemotePageFails "0xuser" "0xuser"
        ModuleState.initial).positionData = [] ∧
    (getTokenIDsOwnedByUser exHelpers exRemote "0xuser" "0xuser"
        ModuleState.initial).positionData.keys = ["position_7"] := by
  decide

theorem stakedScan_ofRecords (remote : Remote) (owner : String)
    (recs : Int → List StakedRecord) (pages : List (Int × Int))
    (hwf : ∀ p ∈ pages, ∀ res,
      remote.getIDSofStakedTokensForUserwithMinimum owner p.1 = .ok res →
      res.arrays = StakedArrays.ofRecords (recs p.1))
    (acc : List StakedRecord) (last : Int) (s2 : StakedScan)
    (hs : stakedScan remote owner pages ⟨StakedArrays.ofRecords acc, last⟩ = some s2) :
    s2.acc = StakedArrays.ofRecords (acc ++ pages.flatMap (fun p => recs p.1)) := by
  induction pages generalizing acc last with
  | nil =>
    simp only [stakedScan, Option.some.injEq] at hs
    subst hs
    simp
  | cons p rest ih =>
    obtain ⟨startId, endId⟩ := p
    unfold stakedScan at hs
    cases hr : remote.getIDSofStakedTokensForUserwithMinimum owner startId with
    | error e => simp [hr] at hs
    | ok res =>
      simp only [hr] at hs
      rw [hwf (startId, endId) (List.mem_cons_self _ _) res hr,
        stakedArrays_ofRecords_append] at hs
      rw [ih (fun q hq => hwf q (List.mem_cons_of_mem _ hq)) _ _ hs]
      simp [List.flatMap_cons]

theorem stakedFields_symbols (h : Helpers) (a : StakedArrays) (i : Nat) (f : StakedFields)
    (hf : stakedFields h a i = .ok f) :
    h.getSymbolFromAddress a.currency0[i]? = .ok f.tokenASymbol ∧
    h.getSymbolFromAddress a.currency1[i]? = .ok f.tokenBSymbol := by
  unfold stakedFields at hf
  simp only [bind, Except.bind, pure, Except.pure] at hf
  cases h1 : h.getSymbolFromAddress a.currency0[i]? with
  | error x => simp [h1] at hf
  | ok sa =>
    simp only [h1] at hf
    cases h2 : h.getSymbolFromAddress a.currency1[i]? with
    | error x => simp [h2] at hf
    | ok sb =>
      simp only [h2] at hf
      cases h3 : h.formatUnits (a.amount0[i]?.map Int.ofNat) (h.tokenAddressesDecimals sa) with
      | error x => simp [h3] at hf
      | ok f1 =>
        simp only [h3] at hf
        cases h4 : h.formatUnits (a.amount1[i]?.map Int.ofNat)
            (h.tokenAddressesDecimals sb) with
        | error x => simp [h4] at hf
        | ok f2 =>
          simp only [h4, Except.ok.injEq] at hf
          subst hf
          exact ⟨rfl, rfl⟩

/-- What the staked loop body writes for a record whose formatting does not
throw: the key `stake_position_<id>` and an entry whose `tokenA` and `tokenB`
are the symbols of `currency0` and `currency1`. -/
theorem stakedWrite_spec (h : Helpers) (r : StakedRecord) :
    (∀ key e, stakedWrite h r = some (key, e) →
      key = "stake_position_" ++ toString r.tokenId ∧
      h.getSymbolFromAddress (some r.currency0) = .ok e.tokenA ∧
      h.getSymbolFromAddress (some r.currency1) = .ok e.tokenB) ∧
    (resolved (stakedFields h (StakedArrays.ofRecords [r]) 0) = true →
      ∃ e, stakedWrite h r = some ("stake_position_" ++ toString r.tokenId, e)) := by
  have e1 : (StakedArrays.ofRecords [r]).poolInfo[0]? = some r.poolInfo := rfl
  have e2 : (StakedArrays.ofRecords [r]).liquidity[0]? = some r.liquidity := rfl
  constructor
  · intro key e hw
    unfold stakedWrite stakedEntry at hw
    cases hf : stakedFields h (StakedArrays.ofRecords [r]) 0 with
    | error x =>
      simp [e1, hf, definedOrThrow] at hw
    | ok f =>
      obtain ⟨s1, s2⟩ := stakedFields_symbols h _ 0 f hf
      have c0 : (StakedArrays.ofRecords [r]).currency0[0]? = some r.currency0 := rfl
      have c1 : (StakedArrays.ofRecords [r]).currency1[0]? = some r.currency1 := rfl
      rw [c0] at s1
      rw [c1] at s2
      simp only [e1, e2, hf, definedOrThrow, Option.some.injEq, Prod.mk.injEq] at hw
      obtain ⟨hk, he⟩ := hw
      subst he
      exact ⟨hk.symm, s1, s2⟩
  · intro hres
    unfold stakedWrite stakedEntry
    cases hf : stakedFields h (StakedArrays.ofRecords [r]) 0 with
    | error x => rw [hf] at hres; simp [resolved] at hres
    | ok f =>
      simp only [e1, e2, definedOrThrow]
      exact ⟨_, rfl⟩

set_option maxRecDepth 100000 in
/-- C20 as stated is false: a staked record 42 returned with
currency0 = `0xbbb` and currency1 = `0xaaa` is cached with `tokenA` the symbol
of `0xbbb`, although `0xaaa` is the lower address. -/
theorem C20_counterexample :
    ((getTokenIDsOwnedByUser exSymbolHelpers exRemote "0xuser" "0xuser"
        ModuleState.initial).stakingPositionData.get "stake_position_42").map (·.tokenA)
      = some "BBB" ∧
    jsLt exStakedRecord.currency1 exStakedRecord.currency0 = true ∧
    exSymbolHelpers.getSymbolFromAddress (some exStakedRecord.currency1) = .ok "AAA" ∧
    exSymbolHelpers.getSymbolFromAddress (some exStakedRecord.currency0) = .ok "BBB" := by
  decide

/-- C20 (amended): in a pass whose staked page queries all resolve with
well-formed results, every returned record whose formatting does not throw is
cached whatever its tick range: the key `stake_position_<t>` is present, and
the entry under it comes from a returned record with that key, its `tokenA`
being the symbol of that record's currency0 and its `tokenB` the symbol of its
currency1, in the order the remote returned them. -/
theorem C20_staked_cached (h : Helpers) (remote : Remote) (user owner : String)
    (st0 : ModuleState) (recs : Int → List StakedRecord) (scan : StakedScan)
    (hscan : passScan remote user owner st0 = some scan)
    (hwf : ∀ p ∈ passPlan remote user st0, ∀ res,
      remote.getIDSofStakedTokensForUserwithMinimum owner p.1 = .ok res →
      res.arrays = StakedArrays.ofRecords (recs p.1))
    (p : Int × Int) (hp : p ∈ passPlan remote user st0) (r : StakedRecord) (hr : r ∈ recs p.1)
    (hfmt : resolved (stakedFields h (StakedArrays.ofRecords [r]) 0) = true) :
    "stake_position_" ++ toString r.tokenId
      ∈ (getTokenIDsOwnedByUser h remote user owner st0).stakingPositionData.keys ∧
    ∀ e, (getTokenIDsOwnedByUser h remote user owner st0).stakingPositionData.get
        ("stake_position_" ++ toString r.tokenId) = some e →
      ∃ p2 ∈ passPlan remote user st0, ∃ r2 ∈ recs p2.1,
        "stake_position_" ++ toString r2.tokenId = "stake_position_" ++ toString r.tokenId ∧
        h.getSymbolFromAddress (some r2.currency0) = .ok e.tokenA ∧
        h.getSymbolFromAddress (some r2.currency1) = .ok e.tokenB := by
  obtain ⟨hst, _, _, _⟩ := (pass_fields h remote user owner st0).2 scan hscan
  have hacc := stakedScan_ofRecords remote owner recs _ hwf [] (-1) scan hscan
  rw [hst, hacc, processStakedAll_ofRecords]
  simp only [List.nil_append]
  constructor
  · rw [Cache.mem_keys_foldl_setOpt]
    right
    obtain ⟨e, he⟩ := (stakedWrite_spec h r).2 hfmt
    exact ⟨r, List.mem_flatMap.mpr ⟨p, hp, hr⟩, e, he⟩
  · intro e hget
    rcases Cache.get_foldl_setOpt _ _ _ _ _ hget with h0 | ⟨r2, hr2, hw⟩
    · simp [Cache.get] at h0
    · obtain ⟨p2, hp2, hr2p⟩ := List.mem_flatMap.mp hr2
      obtain ⟨hk, ha, hb⟩ := (stakedWrite_spec h r2).1 _ _ hw
      exact ⟨p2, hp2, r2, hr2p, hk.symm, ha, hb⟩

set_option maxRecDepth 100000 in
/-- Witness of C20: record 42 with ticks [-100, 100] in the pass on
`exRemote`. -/
theorem C20_staked_cached_witness :
    "stake_position_" ++ toString exStakedRecord.tokenId
      ∈ (getTokenIDsOwnedByUser exSymbolHelpers exRemote "0xuser" "0xuser"
          ModuleState.initial).stakingPositionData.keys ∧
    TOtickLower exStakedRecord.poolInfo = -100 ∧ TOtickUpper exStakedRecord.poolInfo = 100 :=
  ⟨(C20_staked_cached exSymbolHelpers exRemote "0xuser" "0xuser" ModuleState.initial
      (fun _ => [exStakedRecord]) ⟨StakedArrays.ofRecords [exStakedRecord, exStakedRecord], 10⟩
      (by decide) (fun _ _ _ hres => by cases hres; rfl) (0, 999) (by decide) exStakedRecord
      (by decide) (by decide)).1,
    by decide, by decide⟩

/-! ## Lock bits -/

theorem isEnabled_setEnabled (s : LockState) (id other : String) (b : Bool) :
    isEnabled (setEnabled s id b) other = if other = id then b else isEnabled s other := by
  unfold isEnabled setEnabled
  by_cases h : other = id
  · simp only [h, if_true]
    cases b <;> rfl
  · simp only [h, if_false]

theorem isEnabled_disable (s : LockState) (id msg other : String) :
    isEnabled (disableButtonWithSpinner s id msg) other
      = if other = id then false else isEnabled s other := by
  unfold disableButtonWithSpinner
  by_cases hen : isEnabled s id = true
  · simp only [hen, Bool.not_true, Bool.false_eq_true, if_false]
    have key : ∀ f : Bool, isEnabled { setEnabled s id false with inFunctionDontRefresh := f } other
        = isEnabled (setEnabled s id false) other := fun _ => rfl
    split
    · rw [key, isEnabled_setEnabled]
    · rw [key, isEnabled_setEnabled]
  · have hf : isEnabled s id = false := by simpa using hen
    simp only [hf, Bool.not_false, if_true]
    by_cases h : other = id
    · simp only [h, if_true, hf]
    · simp only [h, if_false]

theorem isEnabled_enable (s : LockState) (id other : String) :
    isEnabled (enableButton s id) other = if other = id then true else isEnabled s other := by
  unfold enableButton
  by_cases hen : isEnabled s id = true
  · simp only [hen, if_true]
    by_cases h : other = id
    · simp only [h, if_true, hen]
    · simp only [h, if_false]
  · simp only [hen, Bool.false_eq_true, if_false]
    have key : isEnabled { setEnabled s id true with inFunctionDontRefresh := false } other
        = isEnabled (setEnabled s id true) other := rfl
    rw [key, isEnabled_setEnabled]

/-- C30: for every control id, `isEnabled(id)` is true before any operation;
`disableButtonWithSpinner(id)` makes it false and a following
`enableButton(id)` makes it true again; disabling an already-disabled control
or enabling an already-enabled one leaves the whole lock state as it is; and
neither operation on `id` changes `isEnabled(other)` for another control. -/
theorem C30_lock_two_state_machine (s : LockState) (id other msg : String) :
    isEnabled LockState.initial id = true ∧
    isEnabled (disableButtonWithSpinner s id msg) id = false ∧
    isEnabled (enableButton (disableButtonWithSpinner s id msg) id) id = true ∧
    (isEnabled s id = false → disableButtonWithSpinner s id msg = s) ∧
    (isEnabled s id = true → enableButton s id = s) ∧
    (other ≠ id →
      isEnabled (disableButtonWithSpinner s id msg) other = isEnabled s other ∧
      isEnabled (enableButton s id) other = isEnabled s other) := by
  refine ⟨rfl, ?_, ?_, ?_, ?_, ?_⟩
  · rw [isEnabled_disable]; simp
  · rw [isEnabled_enable]; simp
  · intro h
    unfold disableButtonWithSpinner
    simp [h]
  · intro h
    unfold enableButton
    simp [h]
  · intro h
    rw [isEnabled_disable, isEnabled_enable]
    simp [h]

/-- Witness of C30: the controls `increaseLiquidityBtn` and
`decreaseLiquidityBtn` from the initial lock state. -/
theorem C30_lock_two_state_machine_witness :
    isEnabled (disableButtonWithSpinner LockState.initial "increaseLiquidityBtn" spinnerMsg)
        "decreaseLiquidityBtn" = isEnabled LockState.initial "decreaseLiquidityBtn" ∧
    isEnabled (enableButton LockState.initial "increaseLiquidityBtn") "decreaseLiquidityBtn"
      = isEnabled LockState.initial "decreaseLiquidityBtn" :=
  (C30_lock_two_state_machine LockState.initial "increaseLiquidityBtn" "decreaseLiquidityBtn"
    spinnerMsg).2.2.2.2.2 (by decide)

/-- The lock bits of the two liquidity controls after a cache
synchronisation: each is enabled exactly when `positionData` has a key. -/
theorem loadPositions_lock (st : ModuleState) :
    isEnabled (loadPositionsIntoDappSelections st).lock "increaseLiquidityBtn"
      = !(st.positionData.keys.length == 0) ∧
    isEnabled (loadPositionsIntoDappSelections st).lock "decreaseLiquidityBtn"
      = !(st.positionData.keys.length == 0) := by
  unfold loadPositionsIntoDappSelections
  simp only
  have n1 : ("increaseLiquidityBtn" = "decreaseLiquidityBtn") = False := by decide
  have n2 : ("increaseLiquidityBtn" = "increaseLiquidityStakedBtn") = False := by decide
  have n3 : ("increaseLiquidityBtn" = "decreaseLiquidityStakedBtn") = False := by decide
  have n4 : ("decreaseLiquidityBtn" = "increaseLiquidityBtn") = False := by decide
  have n5 : ("decreaseLiquidityBtn" = "increaseLiquidityStakedBtn") = False := by decide
  have n6 : ("decreaseLiquidityBtn" = "decreaseLiquidityStakedBtn") = False := by decide
  by_cases h1 : st.positionData.keys.length = 0 <;>
    by_cases h2 : st.stakingPositionData.keys.length = 0 <;>
    simp [h1, h2, isEnabled_disable, isEnabled_enable, n1, n2, n3, n4, n5, n6]

set_option maxRecDepth 100000 in
/-- C23 as stated is false: with an empty cache and the locks free (no
invocation of the orchestrator), `loadPositionsIntoDappSelections` takes the
lock bits of both liquidity controls. -/
theorem C23_counterexample :
    isEnabled ModuleState.initial.lock "increaseLiquidityBtn" = true ∧
    isEnabled (loadPositionsIntoDappSelections ModuleState.initial).lock
      "increaseLiquidityBtn" = false ∧
    isEnabled ModuleState.initial.lock "decreaseLiquidityBtn" = true ∧
    isEnabled (loadPositionsIntoDappSelections ModuleState.initial).lock
      "decreaseLiquidityBtn" = false := by
  decide

/-- C23 (amended): the lock bits of the two liquidity controls are written by
the orchestrator and by the cache synchronisation: after
`loadPositionsIntoDappSelections` with an empty `positionData`,
`isEnabled('increaseLiquidityBtn')` and `isEnabled('decreaseLiquidityBtn')` are
false whatever they were before, and with a non-empty `positionData` a control
that was enabled stays enabled. -/
theorem C23_sync_writes_lock (st : ModuleState) :
    (st.positionData = [] →
      isEnabled (loadPositionsIntoDappSelections st).lock "increaseLiquidityBtn" = false ∧
      isEnabled (loadPositionsIntoDappSelections st).lock "decreaseLiquidityBtn" = false) ∧
    (st.positionData ≠ [] → isEnabled st.lock "increaseLiquidityBtn" = true →
      isEnabled (loadPositionsIntoDappSelections st).lock "increaseLiquidityBtn" = true) ∧
    (st.positionData ≠ [] → isEnabled st.lock "decreaseLiquidityBtn" = true →
      isEnabled (loadPositionsIntoDappSelections st).lock "decreaseLiquidityBtn" = true) := by
  obtain ⟨h1, h2⟩ := loadPositions_lock st
  have hlen : st.positionData ≠ [] → st.positionData.keys.length ≠ 0 := by
    intro hne h0
    apply hne
    have : st.positionData.length = 0 := by simpa [Cache.keys] using h0
    exact List.length_eq_zero.mp this
  refine ⟨?_, ?_, ?_⟩
  · intro hnil
    rw [h1, h2, hnil]
    exact ⟨rfl, rfl⟩
  · intro hne _
    rw [h1]
    simp [hlen hne]
  · intro hne _
    rw [h2]
    simp [hlen hne]

set_option maxRecDepth 100000 in
/-- Witness of C23: the synchronisation on the empty initial state. -/
theorem C23_sync_writes_lock_witness :
    isEnabled (loadPositionsIntoDappSelections ModuleState.initial).lock
      "increaseLiquidityBtn" = false ∧
    isEnabled (loadPositionsIntoDappSelections ModuleState.initial).lock
      "decreaseLiquidityBtn" = false :=
  (C23_sync_writes_lock ModuleState.initial).1 rfl

/-! ## Staked entries, cache frame of the orchestrator, owner address, slippage bounds -/

/-- The staked loop body does not read `timeStakedAt`. -/
theorem stakedWrite_timeStakedAt (h : Helpers) (r : StakedRecord) (t : Nat) :
    stakedWrite h { r with timeStakedAt := t } = stakedWrite h r := rfl

/-- The penalty string and the APY snapshot of a written staked entry. -/
theorem stakedWrite_penalty_apy (h : Helpers) (r : StakedRecord) (key : String)
    (e : StakedPosition) (hw : stakedWrite h r = some (key, e)) :
    e.PenaltyForWithdraw = h.penaltyString (some r.penalty) ∧ e.apy = h.apyString := by
  have e1 : (StakedArrays.ofRecords [r]).poolInfo[0]? = some r.poolInfo := rfl
  have e2 : (StakedArrays.ofRecords [r]).liquidity[0]? = some r.liquidity := rfl
  have e3 : (StakedArrays.ofRecords [r]).penalty[0]? = some r.penalty := rfl
  unfold stakedWrite stakedEntry at hw
  cases hf : stakedFields h (StakedArrays.ofRecords [r]) 0 with
  | error x => simp [e1, hf, definedOrThrow] at hw
  | ok f =>
    have hp : f.penaltyWithdrawString = h.penaltyString (some r.penalty) := by
      unfold stakedFields at hf
      simp only [bind, Except.bind, pure, Except.pure] at hf
      cases h1 : h.getSymbolFromAddress (StakedArrays.ofRecords [r]).currency0[0]? with
      | error x => simp [h1] at hf
      | ok sa =>
        simp only [h1] at hf
        cases h2 : h.getSymbolFromAddress (StakedArrays.ofRecords [r]).currency1[0]? with
        | error x => simp [h2] at hf
        | ok sb =>
          simp only [h2] at hf
          cases h3 : h.formatUnits ((StakedArrays.ofRecords [r]).amount0[0]?.map Int.ofNat)
              (h.tokenAddressesDecimals sa) with
          | error x => simp [h3] at hf
          | ok f1 =>
            simp only [h3] at hf
            cases h4 : h.formatUnits ((StakedArrays.ofRecords [r]).amount1[0]?.map Int.ofNat)
                (h.tokenAddressesDecimals sb) with
            | error x => simp [h4] at hf
            | ok f2 =>
              simp only [h4, Except.ok.injEq] at hf
              rw [← hf, e3]
    simp only [e1, e2, hf, definedOrThrow, Option.some.injEq, Prod.mk.injEq] at hw
    obtain ⟨_, he⟩ := hw
    subst he
    exact ⟨hp, rfl⟩

set_option maxRecDepth 100000 in
/-- C21 as stated is false: the staked record 42 returned with
`timeStakedAt = 1700000000` and the same record returned with
`timeStakedAt = 0` are written as the same cache entry, so the entry does not
carry the value. -/
theorem C21_counterexample :
    exStakedRecord.timeStakedAt = 1700000000 ∧
    (stakedWrite exHelpers exStakedRecord).isSome = true ∧
    stakedWrite exHelpers { exStakedRecord with timeStakedAt := 0 }
      = stakedWrite exHelpers exStakedRecord := by
  decide

/-- C21 (amended): every entry written to `stakingPositionData` carries the
`PenaltyForWithdraw` percentage string of the record's penalty (result field
5, index-aligned with the token ID) and the estimated-APY snapshot; the
record's `timeStakedAt` (result field 4) is accumulated by the pass but is not
part of the entry, which is the same whatever its value. -/
theorem C21_staked_entry_fields (h : Helpers) (r : StakedRecord) :
    (∀ key e, stakedWrite h r = some (key, e) →
      e.PenaltyForWithdraw = h.penaltyString (some r.penalty) ∧ e.apy = h.apyString) ∧
    (∀ t, stakedWrite h { r with timeStakedAt := t } = stakedWrite h r) :=
  ⟨fun key e hw => stakedWrite_penalty_apy h r key e hw, fun t => stakedWrite_timeStakedAt h r t⟩

set_option maxRecDepth 100000 in
/-- Witness of C21: the entry written for the staked record 42. -/
theorem C21_staked_entry_fields_witness :
    (stakedPosition exHelpers "stake_position_42" ⟨"B0x", "B0x", "1000", "2000", "0%"⟩
        3000).PenaltyForWithdraw = exHelpers.penaltyString (some exStakedRecord.penalty) ∧
    (stakedPosition exHelpers "stake_position_42" ⟨"B0x", "B0x", "1000", "2000", "0%"⟩
        3000).apy = exHelpers.apyString :=
  (C21_staked_entry_fields exHelpers exStakedRecord).1 "stake_position_42"
    (stakedPosition exHelpers "stake_position_42" ⟨"B0x", "B0x", "1000", "2000", "0%"⟩ 3000)
    (by decide)

set_option maxRecDepth 100000 in
/-- C22 as stated is false: an invocation started with the wallet not
connected first awaits `connectWallet`, whose reader pass rewrites both maps.
With empty maps at the start and the selection `position_9`, which is not
cached, `increaseLiquidity` and `decreaseLiquidity` end at
`if (!position) return;` without a transaction, and the maps then hold
`position_7` and `stake_position_42`. -/
theorem C22_counterexample :
    ModuleState.initial.positionData = [] ∧
    ModuleState.initial.stakingPositionData = [] ∧
    (increaseLiquidity exConfig exIncreaseEnv exHelpers exRemote exDisconnectedWallet
        ⟨"B0x", "0xBTC", "1000", "1000", "position_9"⟩ ModuleState.initial).exit
      = Exit.noPosition ∧
    (increaseLiquidity exConfig exIncreaseEnv exHelpers exRemote exDisconnectedWallet
        ⟨"B0x", "0xBTC", "1000", "1000", "position_9"⟩ ModuleState.initial).state.positionData.keys
      = ["position_7"] ∧
    (increaseLiquidity exConfig exIncreaseEnv exHelpers exRemote exDisconnectedWallet
        ⟨"B0x", "0xBTC", "1000", "1000", "position_9"⟩
        ModuleState.initial).state.stakingPositionData.keys = ["stake_position_42"] ∧
    (decreaseLiquidity exConfig (exDecreaseEnv (.ok (100, 200))) exDisconnectedWallet
        ⟨50, 0, 1, "position_9"⟩ ModuleState.initial).exit = Exit.noPosition ∧
    (decreaseLiquidity exConfig (exDecreaseEnv (.ok (100, 200))) exDisconnectedWallet
        ⟨50, 0, 1, "position_9"⟩ ModuleState.initial).state.positionData.keys
      = ["position_7"] := by
  decide

/-- C22 (amended): the orchestrator never writes the cache itself; the only
writes before the post-confirmation reader pass are those of `connectWallet`,
which `increaseLiquidity` and `decreaseLiquidity` await at their entry when the
wallet is not connected.  In every execution that does not end in a confirmed
transaction no reader pass is started and `positionData` and
`stakingPositionData` are the maps left by that entry step; a confirmed
`increaseLiquidity` ends in the state of the reader pass for the connected
address, started on a state with those maps; `decreaseLiquidity` returns with
those maps in every execution (the pass it triggers after confirmation runs
after it); and in a call started with the wallet connected the entry step
changes nothing, so the maps are those at the start of the call. -/
theorem C22_orchestrator_cache_frame (cfg : TokenConfig) (ienv : IncreaseEnv)
    (denv : DecreaseEnv) (h : Helpers) (remote : Remote) (wallet : Wallet)
    (iinp : IncreaseInput) (dinp : DecreaseInput) (st : ModuleState) :
    ((increaseLiquidity cfg ienv h remote wallet iinp st).exit ≠ Exit.confirmed →
      (increaseLiquidity cfg ienv h remote wallet iinp st).readerPass = false ∧
      (increaseLiquidity cfg ienv h remote wallet iinp st).state.positionData
        = (ensureConnected wallet (takeLock st "increaseLiquidityBtn")).1.positionData ∧
      (increaseLiquidity cfg ienv h remote wallet iinp st).state.stakingPositionData
        = (ensureConnected wallet (takeLock st "increaseLiquidityBtn")).1.stakingPositionData) ∧
    ((increaseLiquidity cfg ienv h remote wallet iinp st).exit = Exit.confirmed →
      ∃ st2 : ModuleState,
        st2.positionData = (ensureConnected wallet (takeLock st "increaseLiquidityBtn")).1.positionData ∧
        st2.stakingPositionData = (ensureConnected wallet (takeLock st "increaseLiquidityBtn")).1.stakingPositionData ∧
        (increaseLiquidity cfg ienv h remote wallet iinp st).state
          = getTokenIDsOwnedByMetamask h remote (ensureConnected wallet (takeLock st "increaseLiquidityBtn")).2 st2) ∧
    (decreaseLiquidity cfg denv wallet dinp st).state.positionData
      = (ensureConnected wallet st).1.positionData ∧
    (decreaseLiquidity cfg denv wallet dinp st).state.stakingPositionData
      = (ensureConnected wallet st).1.stakingPositionData ∧
    ((decreaseLiquidity cfg denv wallet dinp st).exit ≠ Exit.confirmed →
      (decreaseLiquidity cfg denv wallet dinp st).readerPass = false) ∧
    (wallet.walletConnected = true → ∀ s, (ensureConnected wallet s).1 = s) := by
  refine ⟨?_, ?_, ?_, ?_, ?_, ?_⟩
  · unfold increaseLiquidity
    simp only
    generalize ensureConnected wallet _ = entry
    cases entry.1.positionData.get iinp.selectedPositionId with
    | none => intro _; exact ⟨rfl, rfl, rfl⟩
    | some position =>
      simp only
      cases increaseAmounts ienv iinp position with
      | error e => intro _; exact ⟨rfl, rfl, rfl⟩
      | ok v =>
        obtain ⟨a, b, c, d⟩ := v
        simp only
        split
        · intro _; exact ⟨rfl, rfl, rfl⟩
        · split
          · intro _; exact ⟨rfl, rfl, rfl⟩
          · split
            · intro _; exact ⟨rfl, rfl, rfl⟩
            · intro hc; exact absurd rfl hc
  · unfold increaseLiquidity
    simp only
    generalize ensureConnected wallet _ = entry
    cases entry.1.positionData.get iinp.selectedPositionId with
    | none => intro hc; simp at hc
    | some position =>
      simp only
      cases increaseAmounts ienv iinp position with
      | error e => intro hc; simp at hc
      | ok v =>
        obtain ⟨a, b, c, d⟩ := v
        simp only
        split
        · intro hc; simp at hc
        · split
          · intro hc; simp at hc
          · split
            · intro hc; simp at hc
            · intro _
              exact ⟨ModuleState.mk entry.1.positionData entry.1.stakingPositionData
                entry.1.WhereToStartSearch entry.1.WhereToStartSearchStaked
                (enableButton entry.1.lock "increaseLiquidityBtn"), rfl, rfl, rfl⟩
  · unfold decreaseLiquidity takeLock
    simp only
    generalize ensureConnected wallet st = entry
    cases entry.1.positionData.get dinp.selectedPositionId with
    | none => rfl
    | some position =>
      simp only
      split <;> (try rfl)
      split <;> (try rfl)
      split <;> rfl
  · unfold decreaseLiquidity takeLock
    simp only
    generalize ensureConnected wallet st = entry
    cases entry.1.positionData.get dinp.selectedPositionId with
    | none => rfl
    | some position =>
      simp only
      split <;> (try rfl)
      split <;> (try rfl)
      split <;> rfl
  · unfold decreaseLiquidity takeLock
    simp only
    generalize ensureConnected wallet st = entry
    cases entry.1.positionData.get dinp.selectedPositionId with
    | none => intro _; rfl
    | some position =>
      simp only
      split
      · intro _; rfl
      · split
        · intro _; rfl
        · split
          · intro _; rfl
          · intro hc; exact absurd rfl hc
  · intro hw s
    unfold ensureConnected
    simp [hw]

set_option maxRecDepth 100000 in
/-- Witness of C22: an increase started with the wallet not connected, on a
selection that is not in the cache afterwards, ends without a confirmed
transaction and with the maps the entry step left. -/
theorem C22_orchestrator_cache_frame_witness :
    (increaseLiquidity exConfig exIncreaseEnv exHelpers exRemote exDisconnectedWallet
        ⟨"B0x", "0xBTC", "1000", "1000", "position_9"⟩ ModuleState.initial).readerPass = false ∧
    (increaseLiquidity exConfig exIncreaseEnv exHelpers exRemote exDisconnectedWallet
        ⟨"B0x", "0xBTC", "1000", "1000", "position_9"⟩ ModuleState.initial).state.positionData
      = (ensureConnected exDisconnectedWallet
          (takeLock ModuleState.initial "increaseLiquidityBtn")).1.positionData ∧
    (increaseLiquidity exConfig exIncreaseEnv exHelpers exRemote exDisconnectedWallet
        ⟨"B0x", "0xBTC", "1000", "1000", "position_9"⟩
        ModuleState.initial).state.stakingPositionData
      = (ensureConnected exDisconnectedWallet
          (takeLock ModuleState.initial "increaseLiquidityBtn")).1.stakingPositionData :=
  (C22_orchestrator_cache_frame exConfig exIncreaseEnv (exDecreaseEnv (.ok (100, 200)))
    exHelpers exRemote exDisconnectedWallet ⟨"B0x", "0xBTC", "1000", "1000", "position_9"⟩
    exDecreaseInput ModuleState.initial).1 (by decide)

set_option maxRecDepth 100000 in
/-- C26 (fails on the code): two passes for the same owner argument `0xuser`
with the same remote responses end with different caches when the connected
address differs: with `window.userAddress = 0xuser` the pass caches position
7, with `window.userAddress = 0xnobody` it caches no position, because the
ownership filter reads the connected address and not the argument. -/
theorem C26_result_depends_on_connected_address :
    (getTokenIDsOwnedByUser exHelpers exRemote "0xuser" "0xuser"
        ModuleState.initial).positionData.keys = ["position_7"] ∧
    (getTokenIDsOwnedByUser exHelpers exRemote "0xnobody" "0xuser"
        ModuleState.initial).positionData.keys = [] ∧
    (getTokenIDsOwnedByUser exHelpers exRemote "0xuser" "0xnobody"
        ModuleState.initial).positionData.keys = ["position_7"] := by
  decide

/-- C27: for every non-negative integer amount and every slippage fraction s
with 0 <= s <= 1, `calculateWithSlippageBigNumber(amount, s)` returns an
integer r with 0 <= r <= amount, and r = amount when s = 0. -/
theorem C27_slippage_result_bounds (amount : Int) (s : JSNumber) (ha : 0 ≤ amount)
    (hd : 0 < s.den) (h0 : 0 ≤ s.num) (h1 : s.num ≤ s.den) :
    ∃ r : Int, calculateWithSlippageBigNumber amount s = .ok r ∧ 0 ≤ r ∧ r ≤ amount ∧
      (s.num = 0 → r = amount) := by
  obtain ⟨hb0, hb1⟩ := slippage_bps_range s hd h0 h1
  refine ⟨_, calculateWithSlippage_eq amount s hd h0 h1, ?_, ?_, ?_⟩
  · rw [Int.tdiv_eq_ediv (mul_nonneg ha (by omega)) (by decide)]
    exact Int.ediv_nonneg (mul_nonneg ha (by omega)) (by decide)
  · rw [Int.tdiv_eq_ediv (mul_nonneg ha (by omega)) (by decide)]
    have hle : amount * (10000 - (fmul s (JSNumber.ofInt 10000)).floor) ≤ amount * 10000 :=
      mul_le_mul_of_nonneg_left (by omega) ha
    have := Int.ediv_le_ediv (show (0 : Int) < 10000 by decide) hle
    rwa [Int.mul_ediv_cancel _ (by decide)] at this
  · intro hz
    have hfl : (fmul s (JSNumber.ofInt 10000)).floor = 0 := by
      unfold fmul roundF64
      simp [hz, JSNumber.floor]
    rw [hfl, Int.tdiv_eq_ediv (mul_nonneg ha (by decide)) (by decide)]
    simp

set_option maxRecDepth 100000 in
/-- Witness of C27: amount 1000 at the slippage fraction 1/2. -/
theorem C27_slippage_result_bounds_witness :
    ∃ r : Int, calculateWithSlippageBigNumber 1000 ⟨1, 2⟩ = .ok r ∧ 0 ≤ r ∧ r ≤ 1000 ∧
      ((1 : Int) = 0 → r = 1000) :=
  C27_slippage_result_bounds 1000 ⟨1, 2⟩ (by decide) (by decide) (by decide) (by decide)

/-! ## Hashrate formula and base units -/

/-- C24 (fails on the code): for one second per epoch and difficulty 524288
`calculateHashrate` returns 4194304, while the documented formula
`2^22 * difficulty / time` gives `2^22 * 524288`. -/
theorem C24_hashrate_below_documented_formula :
    calculateHashrate 1 524288 = .ok 4194304 ∧
    calculateHashrate 1 524288 ≠ .ok (2 ^ 22 * 524288 / 1) ∧
    (2 : ℚ) ^ 22 * 524288 / 1 = 2199023255552 := by
  refine ⟨?_, ?_, ?_⟩
  · norm_num [calculateHashrate]
  · norm_num [calculateHashrate]
  · norm_num

/-- What `calculateHashrate` computes: for positive arguments
`2^22 * (miningDifficulty / 524288) / timePerEpoch`, which is
`8 * miningDifficulty / timePerEpoch`; it throws when an argument is not
positive. -/
theorem calculateHashrate_eq (timePerEpoch miningDifficulty : ℚ) :
    (0 < timePerEpoch → 0 < miningDifficulty →
      calculateHashrate timePerEpoch miningDifficulty
        = .ok (2 ^ 22 * (miningDifficulty / 524288) / timePerEpoch) ∧
      2 ^ 22 * (miningDifficulty / 524288) / timePerEpoch
        = 8 * miningDifficulty / timePerEpoch) ∧
    (timePerEpoch ≤ 0 ∨ miningDifficulty ≤ 0 →
      ∃ msg, calculateHashrate timePerEpoch miningDifficulty = .error msg) := by
  constructor
  · intro ht hd
    constructor
    · unfold calculateHashrate
      simp only [not_le.mpr ht, not_le.mpr hd, if_false]
    · ring
  · intro hle
    unfold calculateHashrate
    by_cases ht : timePerEpoch ≤ 0
    · exact ⟨"TimePerEpoch must be greater than 0", by simp only [ht, if_true]⟩
    · have hd : miningDifficulty ≤ 0 := hle.resolve_left ht
      exact ⟨"Mining difficulty must be greater than 0",
        by simp only [ht, hd, if_true, if_false]⟩

set_option maxRecDepth 100000 in
/-- C25 as stated is false: with the labels (B0x, 0xBTC), a B0x input of
nineteen decimals makes `parseUnits` throw, so no amount is produced; and for
the 0xBTC input `0.000000001` (nine decimals) the first `parseUnits(.., 8)`
throws, the `catch` parses the text at 18 decimals, and `amountIn0xBTC` is
`10^9`. -/
theorem C25_counterexample :
    increaseAmounts exUnitsEnv ⟨"B0x", "0xBTC", "0.0000000000000000001", "1", "position_7"⟩
      (exPosition "position_7" "B0x" "0xBTC")
      = .error "fractional component exceeds decimals" ∧
    exParseUnits "0.000000001" 8 = .error "fractional component exceeds decimals" ∧
    increaseAmounts exUnitsEnv ⟨"B0x", "0xBTC", "1", "0.000000001", "position_7"⟩
      (exPosition "position_7" "B0x" "0xBTC") = .ok (10 ^ 18, 10 ^ 9, 0, 0) := by
  decide

/-- C25 (amended): for token labels (tokenA, tokenB) equal to (B0x, 0xBTC) or
(0xBTC, B0x) and input strings that `parseUnits` accepts at the precision of
the token they are labelled with (and, for the tokenA input, at 18 decimals),
`amountInB0x` is `parseUnits` of the B0x-labelled input at 18 decimals and
`amountIn0xBTC` is `parseUnits` of the 0xBTC-labelled input at 8 decimals, and
the unclaimed-fee offsets are parsed from the position field of the side that
carries the same label (B0x fees at 18 decimals, 0xBTC fees at 8 decimals). -/
theorem C25_base_units (env : IncreaseEnv) (inp : IncreaseInput) (position : Position)
    (zero18 zero8 : Int) (hz18 : env.parseUnits "0" 18 = .ok zero18)
    (hz8 : env.parseUnits "0" 8 = .ok zero8) :
    (∀ a b feesA feesB : Int, inp.tokenAValue = "B0x" → inp.tokenBValue = "0xBTC" →
      env.parseUnits inp.tokenAAmount 18 = .ok a →
      env.parseUnits inp.tokenBAmount 8 = .ok b →
      env.parseUnits position.unclaimedFeesTokenA 18 = .ok feesA →
      env.parseUnits position.unclaimedFeesTokenB 8 = .ok feesB →
      increaseAmounts env inp position = .ok (a, b, feesA, feesB)) ∧
    (∀ a18 a b feesA feesB : Int, inp.tokenAValue = "0xBTC" → inp.tokenBValue = "B0x" →
      env.parseUnits inp.tokenAAmount 18 = .ok a18 →
      env.parseUnits inp.tokenAAmount 8 = .ok a →
      env.parseUnits inp.tokenBAmount 18 = .ok b →
      env.parseUnits position.unclaimedFeesTokenA 8 = .ok feesA →
      env.parseUnits position.unclaimedFeesTokenB 18 = .ok feesB →
      increaseAmounts env inp position = .ok (b, a, feesB, feesA)) := by
  have l1 : is0xBTCLabel "B0x" = false := by decide
  have l2 : is0xBTCLabel "0xBTC" = true := by decide
  constructor
  · intro a b feesA feesB hA hB pa pb pfa pfb
    unfold increaseAmounts
    simp [hA, hB, l1, l2, pa, pb, pfa, pfb, hz18, hz8, bind, Except.bind, pure, Except.pure]
  · intro a18 a b feesA feesB hA hB pa18 pa pb pfa pfb
    unfold increaseAmounts
    cases hb8 : env.parseUnits inp.tokenBAmount 8 with
    | ok v =>
      simp [hA, hB, l1, l2, pa18, pa, pb, pfa, pfb, hz18, hz8, hb8, bind, Except.bind, pure,
        Except.pure]
    | error e =>
      simp [hA, hB, l1, l2, pa18, pa, pb, pfa, pfb, hz18, hz8, hb8, bind, Except.bind, pure,
        Except.pure]

set_option maxRecDepth 100000 in
/-- Witness of C25: 1.5 B0x and 0.25 0xBTC on position 7. -/
theorem C25_base_units_witness :
    increaseAmounts exUnitsEnv ⟨"B0x", "0xBTC", "1.5", "0.25", "position_7"⟩
      (exPosition "position_7" "B0x" "0xBTC")
      = .ok (1500000000000000000, 25000000, 0, 0) :=
  (C25_base_units exUnitsEnv ⟨"B0x", "0xBTC", "1.5", "0.25", "position_7"⟩
    (exPosition "position_7" "B0x" "0xBTC") 0 0 (by decide) (by decide)).1
    1500000000000000000 25000000 0 0 rfl rfl (by decide) (by decide) (by decide) (by decide)

/-! ## Index alignment of the accumulated detail arrays -/

theorem regularArrays_ofRecords_aligned (rs : List RegularRecord) :
    (RegularArrays.ofRecords rs).aligned := by
  simp [RegularArrays.aligned, RegularArrays.ofRecords]

theorem regularArrays_recordAt_ofRecords (rs : List RegularRecord) (i : Nat) :
    (RegularArrays.ofRecords rs).recordAt i = rs[i]? := by
  unfold RegularArrays.recordAt RegularArrays.ofRecords
  cases hr : rs[i]? with
  | none => simp [List.getElem?_map, hr]
  | some r => simp [List.getElem?_map, hr]

/-- Eight lists of one length are the columns of a list of records. -/
theorem aligned_lists_ofRecords : ∀ (l1 l2 l3 l4 : List Nat) (l5 l6 : List Int)
    (l7 : List PoolKey) (l8 : List Nat),
    l2.length = l1.length → l3.length = l1.length → l4.length = l1.length →
    l5.length = l1.length → l6.length = l1.length → l7.length = l1.length →
    l8.length = l1.length →
    ∃ rs, RegularArrays.mk l1 l2 l3 l4 l5 l6 l7 l8 = RegularArrays.ofRecords rs
  | [], l2, l3, l4, l5, l6, l7, l8, h2, h3, h4, h5, h6, h7, h8 => by
    refine ⟨[], ?_⟩
    simp only [List.length_nil, List.length_eq_zero] at h2 h3 h4 h5 h6 h7 h8
    subst h2 h3 h4 h5 h6 h7 h8
    rfl
  | x1 :: t1, l2, l3, l4, l5, l6, l7, l8, h2, h3, h4, h5, h6, h7, h8 => by
    obtain ⟨x2, t2, rfl⟩ := List.exists_of_length_succ l2 h2
    obtain ⟨x3, t3, rfl⟩ := List.exists_of_length_succ l3 h3
    obtain ⟨x4, t4, rfl⟩ := List.exists_of_length_succ l4 h4
    obtain ⟨x5, t5, rfl⟩ := List.exists_of_length_succ l5 h5
    obtain ⟨x6, t6, rfl⟩ := List.exists_of_length_succ l6 h6
    obtain ⟨x7, t7, rfl⟩ := List.exists_of_length_succ l7 h7
    obtain ⟨x8, t8, rfl⟩ := List.exists_of_length_succ l8 h8
    simp only [List.length_cons, Nat.add_right_cancel_iff] at h2 h3 h4 h5 h6 h7 h8
    obtain ⟨rs, hrs⟩ := aligned_lists_ofRecords t1 t2 t3 t4 t5 t6 t7 t8 h2 h3 h4 h5 h6 h7 h8
    refine ⟨⟨x1, x2, x3, x4, x5, x6, x7, x8⟩ :: rs, ?_⟩
    simp only [RegularArrays.ofRecords, RegularArrays.mk.injEq, List.map_cons] at hrs ⊢
    obtain ⟨e1, e2, e3, e4, e5, e6, e7, e8⟩ := hrs
    subst e1 e2 e3 e4 e5 e6 e7 e8
    simp

theorem aligned_ofRecords (a : RegularArrays) (ha : a.aligned) :
    ∃ rs, a = RegularArrays.ofRecords rs := by
  obtain ⟨h2, h3, h4, h5, h6, h7, h8⟩ := ha
  exact aligned_lists_ofRecords a.ids a.amount0 a.amount1 a.liquidity a.fees0 a.fees1 a.poolKeys
    a.poolInfo h2 h3 h4 h5 h6 h7 h8

/-- The batch loop on aligned results: the accumulators are the columns of a
list of records, as long as the sum of the resolved results, and every record
is at some index of a resolved result. -/
theorem batchLoop_records (remote : Remote) (user : String) (bs : List (List Nat))
    (hal : ∀ b ∈ bs, ∀ res, remote.findUserTokenIdswithMinimumIndividual user b = .ok res →
      res.aligned)
    (acc : List RegularRecord) :
    ∃ rs, batchLoop remote user bs (RegularArrays.ofRecords acc) = RegularArrays.ofRecords rs ∧
      rs.length = acc.length + resolvedLengths remote user bs ∧
      ∀ r ∈ rs, r ∈ acc ∨ ∃ b ∈ bs, ∃ res j,
        remote.findUserTokenIdswithMinimumIndividual user b = .ok res ∧
        res.recordAt j = some r := by
  induction bs generalizing acc with
  | nil => exact ⟨acc, rfl, rfl, fun r hr => Or.inl hr⟩
  | cons b rest ih =>
    have hal' : ∀ b ∈ rest, ∀ res,
        remote.findUserTokenIdswithMinimumIndividual user b = .ok res → res.aligned :=
      fun b2 hb2 => hal b2 (List.mem_cons_of_mem _ hb2)
    unfold batchLoop resolvedLengths
    cases hr : remote.findUserTokenIdswithMinimumIndividual user b with
    | error e =>
      simp only
      obtain ⟨rs, h1, h2, h3⟩ := ih hal' acc
      refine ⟨rs, h1, h2, ?_⟩
      intro r hmem
      rcases h3 r hmem with h | ⟨b2, hb2, res, j, hres, hj⟩
      · exact Or.inl h
      · exact Or.inr ⟨b2, List.mem_cons_of_mem _ hb2, res, j, hres, hj⟩
    | ok res =>
      simp only
      obtain ⟨rs0, hrs0⟩ := aligned_ofRecords res (hal b (List.mem_cons_self _ _) res hr)
      rw [hrs0, regularArrays_ofRecords_append]
      obtain ⟨rs, h1, h2, h3⟩ := ih hal' (rs0 ++ acc)
      refine ⟨rs, h1, ?_, ?_⟩
      · rw [h2, List.length_append]
        simp only [RegularArrays.ofRecords, List.length_map]
        omega
      · intro r hmem
        rcases h3 r hmem with h | ⟨b2, hb2, res2, j, hres, hj⟩
        · rcases List.mem_append.mp h with h0 | hacc
          · obtain ⟨j, hj⟩ := List.getElem?_of_mem h0
            refine Or.inr ⟨b, List.mem_cons_self _ _, res, j, hr, ?_⟩
            rw [hrs0, regularArrays_recordAt_ofRecords]
            exact hj
          · exact Or.inl hacc
        · exact Or.inr ⟨b2, List.mem_cons_of_mem _ hb2, res2, j, hres, hj⟩

/-- C29: for every sequence of batch results in which the eight returned
arrays of each result have equal length, after accumulation the eight
accumulated arrays (token IDs, amounts, liquidity, fees, pool keys, pool info)
have the same length, equal to the sum of the lengths of the batch results;
for every index i the entries at i of all eight arrays are the entries at one
index of one batch result; and what the processing loop does at index i (the
cache entry it writes and the search start it raises) is determined by that
one record. -/
theorem C29_accumulators_index_aligned (h : Helpers) (remote : Remote) (user : String)
    (bs : List (List Nat))
    (hal : ∀ b ∈ bs, ∀ res, remote.findUserTokenIdswithMinimumIndividual user b = .ok res →
      res.aligned) :
    (batchLoop remote user bs RegularArrays.empty).aligned ∧
    (batchLoop remote user bs RegularArrays.empty).ids.length = resolvedLengths remote user bs ∧
    (∀ i, i < (batchLoop remote user bs RegularArrays.empty).ids.length →
      ∃ r, (batchLoop remote user bs RegularArrays.empty).recordAt i = some r ∧
        ∃ b ∈ bs, ∃ res j, remote.findUserTokenIdswithMinimumIndividual user b = .ok res ∧
          res.recordAt j = some r) ∧
    (∀ i r st, (batchLoop remote user bs RegularArrays.empty).recordAt i = some r →
      processRegular h (batchLoop remote user bs RegularArrays.empty) st i
        = ModuleState.mk (st.positionData.setOpt (regularWrite h r)) st.stakingPositionData
            (raiseSearchStart st.WhereToStartSearch r) st.WhereToStartSearchStaked st.lock) := by
  obtain ⟨rs, h1, h2, h3⟩ := batchLoop_records remote user bs hal []
  have he : RegularArrays.ofRecords [] = RegularArrays.empty := rfl
  rw [he] at h1
  rw [h1]
  refine ⟨regularArrays_ofRecords_aligned rs, ?_, ?_, ?_⟩
  · simp only [RegularArrays.ofRecords, List.length_map]
    simpa using h2
  · intro i hi
    have hi' : i < rs.length := by
      simpa [RegularArrays.ofRecords] using hi
    refine ⟨rs[i], ?_, ?_⟩
    · rw [regularArrays_recordAt_ofRecords]
      exact List.getElem?_eq_getElem hi'
    · rcases h3 rs[i] (List.getElem_mem hi') with hnil | hex
      · simp at hnil
      · exact hex
  · intro i r st hrec
    rw [regularArrays_recordAt_ofRecords] at hrec
    exact processRegular_ofRecords h rs i r st hrec

set_option maxRecDepth 100000 in
/-- Witness of C29: three batches, of which `[7, 8]` and `[10, 11]` resolve
with two records each and `[9]` throws.  The accumulators are aligned and hold
four records, the later batch in front; index 3 holds the eight entries of the
record of token 8, the second record of the first batch, and the processing
step at index 3 is determined by that record. -/
theorem C29_accumulators_index_aligned_witness :
    (batchLoop exBatchRemote "0xuser" [[7, 8], [9], [10, 11]] RegularArrays.empty).aligned ∧
    (batchLoop exBatchRemote "0xuser" [[7, 8], [9], [10, 11]] RegularArrays.empty).ids.length
      = resolvedLengths exBatchRemote "0xuser" [[7, 8], [9], [10, 11]] ∧
    resolvedLengths exBatchRemote "0xuser" [[7, 8], [9], [10, 11]] = 4 ∧
    (batchLoop exBatchRemote "0xuser" [[7, 8], [9], [10, 11]] RegularArrays.empty).ids
      = [10, 11, 7, 8] ∧
    (∃ r, (batchLoop exBatchRemote "0xuser" [[7, 8], [9], [10, 11]]
          RegularArrays.empty).recordAt 3 = some r ∧
      ∃ b ∈ [[7, 8], [9], [10, 11]], ∃ res j,
        exBatchRemote.findUserTokenIdswithMinimumIndividual "0xuser" b = .ok res ∧
        res.recordAt j = some r) ∧
    processRegular exHelpers
        (batchLoop exBatchRemote "0xuser" [[7, 8], [9], [10, 11]] RegularArrays.empty)
        ModuleState.initial 3
      = ModuleState.mk (ModuleState.initial.positionData.setOpt (regularWrite exHelpers (exRecord 8)))
          ModuleState.initial.stakingPositionData
          (raiseSearchStart ModuleState.initial.WhereToStartSearch (exRecord 8))
          ModuleState.initial.WhereToStartSearchStaked ModuleState.initial.lock := by
  have hw := C29_accumulators_index_aligned exHelpers exBatchRemote "0xuser"
    [[7, 8], [9], [10, 11]]
    (fun b _ res hres => by
      simp only [exBatchRemote] at hres
      split at hres
      · cases hres
      · cases hres
        exact regularArrays_ofRecords_aligned _)
  exact ⟨hw.1, hw.2.1, by decide, by decide, hw.2.2.1 3 (by decide),
    hw.2.2.2 3 (exRecord 8) ModuleState.initial (by decide)⟩

/-! ## Relative error of double rounding -/

theorem log2Floor_nonneg (n d : Nat) (hd : 0 < d) (h : d ≤ n) : 0 ≤ log2Floor n d := by
  have hn : 0 < n := lt_of_lt_of_le hd h
  obtain ⟨_, ha2⟩ := log2Fuel_self n hn
  obtain ⟨hb1, _⟩ := log2Fuel_self d hd
  have hlt : 2 ^ (log2Fuel d d) < 2 ^ (log2Fuel n n + 1) :=
    lt_of_le_of_lt (le_trans hb1 h) ha2
  have hab : log2Fuel d d < log2Fuel n n + 1 := (Nat.pow_lt_pow_iff_right (by decide)).mp hlt
  unfold log2Floor
  simp only
  generalize log2Fuel n n = a at *
  generalize log2Fuel d d = b at *
  have h0 : (0 : Int) ≤ (a : Int) - (b : Int) := by omega
  have ht : ((a : Int) - (b : Int)).toNat = a - b := by omega
  simp only [h0, if_true, ht]
  by_cases hlt2 : n < d * 2 ^ (a - b)
  · simp only [hlt2, if_true]
    have : a - b ≠ 0 := by
      intro hz
      rw [hz] at hlt2
      simp at hlt2
      omega
    omega
  · simp only [hlt2, if_false]
    exact h0

theorem roundHalfEven_le_half (n : Int) (d : Nat) (hd : 0 < d) :
    2 * (d : Int) * roundHalfEven n d ≤ 2 * n + d := by
  have hd' : (0 : Int) < (d : Int) := by exact_mod_cast hd
  have hdiv := Int.emod_add_ediv n d
  have hr0 := Int.emod_nonneg n (ne_of_gt hd')
  unfold roundHalfEven
  simp only
  split
  · nlinarith
  · split
    · nlinarith
    · split
      · nlinarith
      · nlinarith

/-- Rounding a fraction of value at least 1 to a double adds at most the
fraction `2^-53` of it. -/
theorem roundF64_rel_upper (x : JSNumber) (hd : 0 < x.den) (hge : (x.den : Int) ≤ x.num) :
    (roundF64 x).num * x.den * 2 ^ 53 ≤ x.num * (2 ^ 53 + 1) * (roundF64 x).den := by
  have hd' : (0 : Int) < (x.den : Int) := by exact_mod_cast hd
  have hpos : 0 < x.num := lt_of_lt_of_le hd' hge
  have hnat : (x.num.natAbs : Int) = x.num := Int.natAbs_of_nonneg (le_of_lt hpos)
  have hn : 0 < x.num.natAbs := by omega
  have hdn : x.den ≤ x.num.natAbs := by omega
  have hk0 := log2Floor_nonneg x.num.natAbs x.den hd hdn
  have hle := log2Floor_le x.num.natAbs x.den hn hd hk0
  unfold roundF64
  simp only [ne_of_gt hpos, if_false]
  generalize log2Floor x.num.natAbs x.den = k at *
  by_cases he : (0 : Int) ≤ max (k - 52) (-1074)
  · simp only [he, if_true]
    have hs : k.toNat = (max (k - 52) (-1074)).toNat + 52 := by omega
    generalize (max (k - 52) (-1074)).toNat = s at *
    rw [hs, pow_add] at hle
    have hle' : ((x.den : Int) * 2 ^ s) * 2 ^ 52 ≤ x.num := by
      rw [← hnat]; exact_mod_cast (by rw [← Nat.mul_assoc] at hle; exact hle)
    have hD : 0 < x.den * 2 ^ s := Nat.mul_pos hd (by positivity)
    have hr := roundHalfEven_le_half x.num (x.den * 2 ^ s) hD
    push_cast at hr ⊢
    nlinarith
  · simp only [he, if_false]
    have hs : (-(max (k - 52) (-1074))).toNat + k.toNat = 52 := by omega
    generalize (-(max (k - 52) (-1074))).toNat = s at *
    have hle' : (x.den : Int) * 2 ^ 52 ≤ x.num * 2 ^ s := by
      have h1 : x.den * 2 ^ k.toNat * 2 ^ s ≤ x.num.natAbs * 2 ^ s :=
        Nat.mul_le_mul_right _ hle
      rw [Nat.mul_assoc, ← pow_add, Nat.add_comm, hs] at h1
      rw [← hnat]; exact_mod_cast h1
    have hr := roundHalfEven_le_half (x.num * 2 ^ s) x.den hd
    push_cast at hr ⊢
    nlinarith

/-- Rounding to a double does not cross an integer up to `2^52` from above. -/
theorem roundF64_lower (x : JSNumber) (lo : Int) (hd : 0 < x.den) (h1 : 1 ≤ lo)
    (h52 : lo ≤ 2 ^ 52) (hlo : lo * x.den ≤ x.num) :
    0 < (roundF64 x).den ∧ lo * (roundF64 x).den ≤ (roundF64 x).num := by
  have hd' : (0 : Int) < (x.den : Int) := by exact_mod_cast hd
  have hge : (x.den : Int) ≤ x.num := by nlinarith
  have hpos : 0 < x.num := lt_of_lt_of_le hd' hge
  have hnat : (x.num.natAbs : Int) = x.num := Int.natAbs_of_nonneg (le_of_lt hpos)
  have hn : 0 < x.num.natAbs := by omega
  have hdn : x.den ≤ x.num.natAbs := by omega
  have hk0 := log2Floor_nonneg x.num.natAbs x.den hd hdn
  have hle := log2Floor_le x.num.natAbs x.den hn hd hk0
  unfold roundF64
  simp only [ne_of_gt hpos, if_false]
  generalize log2Floor x.num.natAbs x.den = k at *
  by_cases he : (0 : Int) ≤ max (k - 52) (-1074)
  · simp only [he, if_true]
    have hs : k.toNat = (max (k - 52) (-1074)).toNat + 52 := by omega
    generalize (max (k - 52) (-1074)).toNat = s at *
    rw [hs, pow_add] at hle
    have hle' : (2 ^ 52 : Int) * ((x.den * 2 ^ s : Nat) : Int) ≤ x.num := by
      rw [← hnat]
      have : 2 ^ 52 * (x.den * 2 ^ s) ≤ x.num.natAbs := by
        rw [Nat.mul_comm, Nat.mul_assoc]; exact hle
      exact_mod_cast this
    have hD : 0 < x.den * 2 ^ s := Nat.mul_pos hd (by positivity)
    have hhi : x.num ≤ x.num * ((x.den * 2 ^ s : Nat) : Int) := by
      have : (1 : Int) ≤ ((x.den * 2 ^ s : Nat) : Int) := by exact_mod_cast hD
      nlinarith
    have hb := roundHalfEven_bounds x.num (x.den * 2 ^ s) hD (2 ^ 52) x.num hle' hhi
    have h2s : (1 : Int) ≤ 2 ^ s := by
      have : 1 ≤ 2 ^ s := Nat.one_le_two_pow
      exact_mod_cast this
    refine ⟨by decide, ?_⟩
    push_cast
    nlinarith [hb.1]
  · simp only [he, if_false]
    generalize (-(max (k - 52) (-1074))).toNat = s at *
    have h2s : (0 : Int) < 2 ^ s := by positivity
    have hhi : x.num * 2 ^ s ≤ (x.num * 2 ^ s) * (x.den : Int) := by
      have : (0 : Int) ≤ x.num * 2 ^ s := by positivity
      nlinarith
    have hb := roundHalfEven_bounds (x.num * 2 ^ s) x.den hd (lo * 2 ^ s) (x.num * 2 ^ s)
      (by nlinarith) hhi
    refine ⟨by positivity, ?_⟩
    push_cast
    exact hb.1

/-! ## The liquidity to remove -/

set_option maxRecDepth 1000000 in
/-- For every whole percentage below 100 the basis points plus 1 are the
exact number `100 * p + 1`, held with a positive denominator. -/
theorem percentage_plus_one :
    ∀ p : Fin 100,
      ¬ JSNumber.eqv (percentagedivby10000 (p.val : Int)) (JSNumber.ofInt 10000) ∧
      0 < (fadd (percentagedivby10000 (p.val : Int)) (JSNumber.ofInt 1)).den ∧
      (fadd (percentagedivby10000 (p.val : Int)) (JSNumber.ofInt 1)).num
        = (100 * (p.val : Int) + 1)
          * ((fadd (percentagedivby10000 (p.val : Int)) (JSNumber.ofInt 1)).den : Int) := by
  decide

/-- Three roundings in a row, each adding at most the fraction `E / T - 1`:
the product with `c / 10000` stays below `L` when `c * E^3 <= 10000 * T^3`. -/
theorem three_roundings_le (a1 a2 a3 b1 b2 b3 L c E T : Int) (hb1 : 0 < b1) (hb2 : 0 < b2)
    (hb3 : 0 < b3) (hL : 0 ≤ L) (hc : 0 ≤ c) (hE : 0 ≤ E) (hT : 0 < T)
    (R1 : a1 * T ≤ L * E * b1) (R2 : a2 * b1 * T ≤ a1 * c * E * b2)
    (R3 : a3 * (b2 * 10000) * T ≤ a2 * E * b3) (hcE : c * E ^ 3 ≤ 10000 * T ^ 3) :
    a3 ≤ L * b3 := by
  have hK : 0 < b2 * 10000 * T * (b1 * T * T) := by positivity
  apply le_of_mul_le_mul_right _ hK
  calc a3 * (b2 * 10000 * T * (b1 * T * T))
      = a3 * (b2 * 10000) * T * (b1 * T * T) := by ring
    _ ≤ a2 * E * b3 * (b1 * T * T) := mul_le_mul_of_nonneg_right R3 (by positivity)
    _ = a2 * b1 * T * (E * b3 * T) := by ring
    _ ≤ a1 * c * E * b2 * (E * b3 * T) := mul_le_mul_of_nonneg_right R2 (by positivity)
    _ = a1 * T * (c * E * b2 * E * b3) := by ring
    _ ≤ L * E * b1 * (c * E * b2 * E * b3) := mul_le_mul_of_nonneg_right R1 (by positivity)
    _ = c * E ^ 3 * (L * b1 * b2 * b3) := by ring
    _ ≤ 10000 * T ^ 3 * (L * b1 * b2 * b3) := mul_le_mul_of_nonneg_right hcE (by positivity)
    _ = L * b3 * (b2 * 10000 * T * (b1 * T * T)) := by ring

/-- The number handed to `toBigNumber` is at most the current liquidity: L
converted to a double, multiplied by a number `c <= 9901` and divided by
10000 does not exceed L, whatever the three roundings do. -/
theorem scaled_liquidity_le (L : Int) (hL : 0 ≤ L) (pct1 : JSNumber) (c : Int)
    (hpd : 0 < pct1.den) (hpn : pct1.num = c * (pct1.den : Int)) (hc1 : 1 ≤ c)
    (hc2 : c ≤ 9901) :
    0 < (fdiv (fmul (BigNumber.toNumber L) pct1) (JSNumber.ofInt 10000)).den ∧
    (fdiv (fmul (BigNumber.toNumber L) pct1) (JSNumber.ofInt 10000)).num
      ≤ L * ((fdiv (fmul (BigNumber.toNumber L) pct1) (JSNumber.ofInt 10000)).den : Int) := by
  have hpd' : (0 : Int) < (pct1.den : Int) := by exact_mod_cast hpd
  have hsign : Int.sign (JSNumber.ofInt 10000).num = 1 := by decide
  have hnatAbs : (JSNumber.ofInt 10000).num.natAbs = 10000 := by decide
  have hden1 : (JSNumber.ofInt 10000).den = 1 := rfl
  unfold fdiv fmul BigNumber.toNumber
  rw [hsign, hnatAbs, hden1]
  by_cases hsmall : L < 2 ^ 39
  · -- every intermediate value is below 2^53
    obtain ⟨d1, lo1, hi1⟩ := roundF64_bounds (JSNumber.ofInt L) L L Nat.one_pos hL
      (by omega) (by simp [JSNumber.ofInt]) (by simp [JSNumber.ofInt])
    generalize roundF64 (JSNumber.ofInt L) = r1 at *
    have d1' : (0 : Int) < (r1.den : Int) := by exact_mod_cast d1
    have e1 : r1.num = L * (r1.den : Int) := le_antisymm hi1 lo1
    obtain ⟨d2, lo2, hi2⟩ := roundF64_bounds ⟨r1.num * pct1.num, r1.den * pct1.den⟩ 0
      (L * 9901) (Nat.mul_pos d1 hpd) (le_refl 0) (by omega)
      (by
        simp only [zero_mul]
        rw [e1, hpn]
        positivity)
      (by
        simp only
        rw [e1, hpn]
        push_cast
        have : L * (r1.den : Int) * (c * (pct1.den : Int))
            = c * (L * ((r1.den : Int) * (pct1.den : Int))) := by ring
        rw [this]
        have : L * 9901 * ((r1.den : Int) * (pct1.den : Int))
            = 9901 * (L * ((r1.den : Int) * (pct1.den : Int))) := by ring
        rw [this]
        exact mul_le_mul_of_nonneg_right hc2 (by positivity))
    generalize roundF64 ⟨r1.num * pct1.num, r1.den * pct1.den⟩ = r2 at *
    have d2' : (0 : Int) < (r2.den : Int) := by exact_mod_cast d2
    obtain ⟨d3, _, hi3⟩ := roundF64_bounds ⟨r2.num * 1 * 1, r2.den * 10000⟩ 0 L
      (Nat.mul_pos d2 (by decide)) (le_refl 0) (by omega)
      (by simp only [zero_mul, mul_one]; simpa using lo2)
      (by
        simp only [mul_one]
        push_cast
        nlinarith)
    exact ⟨d3, hi3⟩
  · -- every intermediate value is at least 1, so each rounding is relative
    have hbig : (2 : Int) ^ 39 ≤ L := not_lt.mp hsmall
    obtain ⟨d1, lo1⟩ := roundF64_lower (JSNumber.ofInt L) (2 ^ 39) Nat.one_pos (by norm_num)
      (by norm_num) (by simpa [JSNumber.ofInt] using hbig)
    have R1 := roundF64_rel_upper (JSNumber.ofInt L) Nat.one_pos
      (by simp only [JSNumber.ofInt]; push_cast; omega)
    generalize roundF64 (JSNumber.ofInt L) = r1 at *
    simp only [JSNumber.ofInt, Nat.cast_one, mul_one] at R1
    have d1' : (0 : Int) < (r1.den : Int) := by exact_mod_cast d1
    have hr1 : (0 : Int) ≤ r1.num := le_trans (by positivity) lo1
    have hden2 : 0 < r1.den * pct1.den := Nat.mul_pos d1 hpd
    have hy2 : (10000 : Int) * ((r1.den * pct1.den : Nat) : Int) ≤ r1.num * pct1.num := by
      rw [hpn]
      push_cast
      have h1 : (10000 : Int) * (r1.den : Int) ≤ r1.num := by nlinarith
      have h2 : (pct1.den : Int) ≤ c * (pct1.den : Int) := by nlinarith
      calc (10000 : Int) * ((r1.den : Int) * (pct1.den : Int))
          = (10000 * (r1.den : Int)) * (pct1.den : Int) := by ring
        _ ≤ r1.num * (pct1.den : Int) := mul_le_mul_of_nonneg_right h1 (le_of_lt hpd')
        _ ≤ r1.num * (c * (pct1.den : Int)) := mul_le_mul_of_nonneg_left h2 hr1
    obtain ⟨d2, lo2⟩ := roundF64_lower ⟨r1.num * pct1.num, r1.den * pct1.den⟩ 10000 hden2
      (by norm_num) (by norm_num) hy2
    have R2 := roundF64_rel_upper ⟨r1.num * pct1.num, r1.den * pct1.den⟩ hden2
      (le_trans (by
        have : (0 : Int) ≤ ((r1.den * pct1.den : Nat) : Int) := by positivity
        linarith) hy2)
    generalize roundF64 ⟨r1.num * pct1.num, r1.den * pct1.den⟩ = r2 at *
    simp only [Nat.cast_mul] at R2
    have d2' : (0 : Int) < (r2.den : Int) := by exact_mod_cast d2
    have hden3 : 0 < r2.den * 10000 := Nat.mul_pos d2 (by decide)
    have hy3 : ((r2.den * 10000 : Nat) : Int) ≤ r2.num * 1 * 1 := by
      push_cast; linarith
    obtain ⟨d3, _⟩ := roundF64_lower ⟨r2.num * 1 * 1, r2.den * 10000⟩ 1 hden3 (le_refl 1)
      (by norm_num) (by simpa using hy3)
    have R3 := roundF64_rel_upper ⟨r2.num * 1 * 1, r2.den * 10000⟩ hden3 hy3
    generalize roundF64 ⟨r2.num * 1 * 1, r2.den * 10000⟩ = r3 at *
    simp only [mul_one, Nat.cast_mul, Nat.cast_ofNat] at R3
    have d3' : (0 : Int) < (r3.den : Int) := by exact_mod_cast d3
    refine ⟨d3, ?_⟩
    have R2' : r2.num * (r1.den : Int) * 2 ^ 53 ≤ r1.num * c * (2 ^ 53 + 1) * (r2.den : Int) := by
      rw [hpn] at R2
      apply le_of_mul_le_mul_right _ hpd'
      calc r2.num * (r1.den : Int) * 2 ^ 53 * (pct1.den : Int)
          = r2.num * ((r1.den : Int) * (pct1.den : Int)) * 2 ^ 53 := by ring
        _ ≤ r1.num * (c * (pct1.den : Int)) * (2 ^ 53 + 1) * (r2.den : Int) := R2
        _ = r1.num * c * (2 ^ 53 + 1) * (r2.den : Int) * (pct1.den : Int) := by ring
    have hcE : c * ((2 : Int) ^ 53 + 1) ^ 3 ≤ 10000 * (2 ^ 53) ^ 3 := by
      have h9 : (9901 : Int) * (2 ^ 53 + 1) ^ 3 ≤ 10000 * (2 ^ 53) ^ 3 := by norm_num
      have hE3 : (0 : Int) ≤ (2 ^ 53 + 1) ^ 3 := by positivity
      exact le_trans (mul_le_mul_of_nonneg_right hc2 hE3) h9
    exact three_roundings_le r1.num r2.num r3.num r1.den r2.den r3.den L c (2 ^ 53 + 1)
      (2 ^ 53) d1' d2' d3' hL (by omega) (by norm_num) (by norm_num) R1 R2' R3 hcE
theorem liqtoRemove_le (toBigNumber : JSNumber → Except String Int)
    (htb : ∀ x v, 0 < x.den → toBigNumber x = .ok v → (v - 1) * (x.den : Int) < x.num)
    (p : Int) (hp0 : 0 ≤ p) (hp100 : p ≤ 100) (L : Int) (hL : 0 ≤ L) (liq : Int)
    (hliq : liqtoRemove toBigNumber (percentagedivby10000 p) L = .ok liq) : liq ≤ L := by
  by_cases h100 : p = 100
  · subst h100
    have he : JSNumber.eqv (percentagedivby10000 100) (JSNumber.ofInt 10000) :=
      ((percentagedivby10000_exact ⟨100, by decide⟩).1).mpr rfl
    unfold liqtoRemove at hliq
    rw [if_neg (not_not.mpr he)] at hliq
    simp only [Except.ok.injEq] at hliq
    omega
  · have hlt : p.toNat < 100 := by omega
    have hpe : ((⟨p.toNat, hlt⟩ : Fin 100).val : Int) = p := by
      show (p.toNat : Int) = p
      omega
    have hq := percentage_plus_one ⟨p.toNat, hlt⟩
    rw [hpe] at hq
    obtain ⟨hne, hpd, hpn⟩ := hq
    unfold liqtoRemove at hliq
    rw [if_pos hne] at hliq
    obtain ⟨hxd, hxn⟩ := scaled_liquidity_le L hL
      (fadd (percentagedivby10000 p) (JSNumber.ofInt 1)) (100 * p + 1) hpd hpn (by omega)
      (by omega)
    have hv := htb _ liq hxd hliq
    generalize fdiv (fmul (BigNumber.toNumber L)
      (fadd (percentagedivby10000 p) (JSNumber.ofInt 1))) (JSNumber.ofInt 10000) = x at *
    have hxd' : (0 : Int) < (x.den : Int) := by exact_mod_cast hxd
    have : (liq - 1) * (x.den : Int) < L * (x.den : Int) := lt_of_lt_of_le hv hxn
    have : liq - 1 < L := lt_of_mul_lt_mul_right this (le_of_lt hxd')
    omega

theorem decreasePayload_liq (cfg : TokenConfig) (env : DecreaseEnv) (user : String)
    (inp : DecreaseInput) (position : Position) (quote : Except String (Int × Int))
    (payload : Payload)
    (hok : decreasePayload cfg env user inp position quote = .ok payload) :
    ∃ L liq amount0 amount1 take,
      env.getPositionLiquidity (positionIDOf position) = .ok L ∧
      liqtoRemove env.toBigNumber (percentagedivby10000 inp.decreasePercentageNumber) L
        = .ok liq ∧
      payload.params = [Param.modify (positionIDOf position) liq amount0 amount1, take] := by
  unfold decreasePayload at hok
  simp only [bind, Except.bind, pure, Except.pure] at hok
  cases h1 : calculateWithSlippageBigNumber (minAmountsRemove cfg position quote).1
      (decimalValueSlippage inp.slippageNum inp.slippageDen) with
  | error e => simp [h1] at hok
  | ok m0 =>
    cases h2 : calculateWithSlippageBigNumber (minAmountsRemove cfg position quote).2
        (decimalValueSlippage inp.slippageNum inp.slippageDen) with
    | error e => simp [h1, h2] at hok
    | ok m1 =>
      cases h3 : env.getPositionLiquidity (positionIDOf position) with
      | error e => simp [h1, h2, h3] at hok
      | ok L =>
        cases h4 : liqtoRemove env.toBigNumber
            (percentagedivby10000 inp.decreasePercentageNumber) L with
        | error e => simp [h1, h2, h3, h4] at hok
        | ok liq =>
          simp only [h1, h2, h3, h4, Except.ok.injEq] at hok
          subst hok
          exact ⟨L, liq, _, _, _, rfl, h4, rfl⟩

/-- C28: `decreaseLiquidity` never asks to remove more liquidity than the
position holds.  For every whole percentage p in 0..100 and every current
liquidity L >= 0 reported by `getPositionLiquidity`, the liquidity value in
the DECREASE_LIQUIDITY parameter of every `modifyLiquidities` call the
function makes is at most L, for any `toBigNumber` whose result is less than
its argument plus one (a conversion by floor, truncation, rounding or an exact
conversion).  The position is the cache entry of the selection after the entry
step, which for a connected wallet is the cache at the start. -/
theorem C28_remove_at_most_current (cfg : TokenConfig) (env : DecreaseEnv) (wallet : Wallet)
    (inp : DecreaseInput) (st : ModuleState)
    (hp0 : 0 ≤ inp.decreasePercentageNumber) (hp100 : inp.decreasePercentageNumber ≤ 100)
    (hnonneg : ∀ id L, env.getPositionLiquidity id = .ok L → 0 ≤ L)
    (htb : ∀ x v, 0 < x.den → env.toBigNumber x = .ok v → (v - 1) * (x.den : Int) < x.num) :
    ∀ payload ∈ (decreaseLiquidity cfg env wallet inp st).calls,
      ∃ position L liq amount0 amount1 take,
        (ensureConnected wallet st).1.positionData.get inp.selectedPositionId = some position ∧
        (wallet.walletConnected = true →
          st.positionData.get inp.selectedPositionId = some position) ∧
        env.getPositionLiquidity (positionIDOf position) = .ok L ∧
        payload.params = [Param.modify (positionIDOf position) liq amount0 amount1, take] ∧
        liq ≤ L := by
  intro payload hmem
  unfold decreaseLiquidity takeLock at hmem
  simp only at hmem
  cases hpos : (ensureConnected wallet st).1.positionData.get inp.selectedPositionId with
  | none => simp [hpos] at hmem
  | some position =>
    simp only [hpos] at hmem
    cases hpay : decreasePayload cfg env (ensureConnected wallet st).2 inp position
        (env.getAmount0andAmount1forLiquidityPercentage
          (percentagedivby10000 inp.decreasePercentageNumber) (positionIDOf position)) with
    | error e => simp [hpay] at hmem
    | ok callData =>
      have hcd : payload = callData := by
        simp only [hpay] at hmem
        split at hmem
        · simpa using hmem
        · split at hmem
          · simpa using hmem
          · simpa using hmem
      subst hcd
      obtain ⟨L, liq, a0, a1, take, hL, hliq, hparams⟩ :=
        decreasePayload_liq cfg env _ inp position _ payload hpay
      have hconn : wallet.walletConnected = true →
          st.positionData.get inp.selectedPositionId = some position := by
        intro hw
        rw [← hpos]
        unfold ensureConnected
        simp [hw]
      exact ⟨position, L, liq, a0, a1, take, rfl, hconn, hL, hparams,
        liqtoRemove_le env.toBigNumber htb inp.decreasePercentageNumber hp0 hp100 L
          (hnonneg _ L hL) liq hliq⟩

set_option maxRecDepth 100000 in
/-- Witness of C28: removing 50 percent of position 7, which holds liquidity
1000, with `toBigNumber` the integer part: the call asks for 500. -/
theorem C28_remove_at_most_current_witness :
    ∃ position L liq amount0 amount1 take,
      (ensureConnected (Wallet.connected "0xuser") exState).1.positionData.get
          exDecreaseInput.selectedPositionId = some position ∧
      ((Wallet.connected "0xuser").walletConnected = true →
        exState.positionData.get exDecreaseInput.selectedPositionId = some position) ∧
      (exDecreaseEnv (.ok (100, 200))).getPositionLiquidity (positionIDOf position) = .ok L ∧
      (Payload.mk [0x01, 0x11] [Param.modify "7" 500 100 200,
          Param.takePair "0xaaa" "0xbbb" "0xuser"]).params
        = [Param.modify (positionIDOf position) liq amount0 amount1, take] ∧
      liq ≤ L :=
  C28_remove_at_most_current exConfig (exDecreaseEnv (.ok (100, 200))) (Wallet.connected "0xuser")
    exDecreaseInput exState (by decide) (by decide)
    (fun _ L hL => by cases hL; decide)
    (fun x v hx hv => by
      cases hv
      have hx' : (0 : Int) < (x.den : Int) := by exact_mod_cast hx
      have := Int.ediv_mul_le x.num (ne_of_gt hx')
      unfold JSNumber.floor
      linarith)
    (Payload.mk [0x01, 0x11] [Param.modify "7" 500 100 200,
      Param.takePair "0xaaa" "0xbbb" "0xuser"])
    (by decide)

end Positions
